import Mathlib

/-!
Verification of the QuickStatements batch engine and value parser.

This file is a shallow embedding, in Lean 4, of the core of the
`quickstatements3` code base:

* `src/core/parsers/base.py` — the textual value parser (`BaseParser`),
  embedded below in the `QS` namespace with one Lean function per Python
  recognizer method, operating on `String`/`List Char`;
* `src/core/models.py` — the entity-document mutators
  (`BatchCommand.update_entity_json` and helpers), the combining engine
  (`BatchCommand.check_combination` / `update_combining_state` /
  `propagate_to_previous_commands`) and the batch runner (`Batch.run`,
  `BatchCommand.run`), embedded as pure functions with explicit state.

Modelling conventions:

* Python `dict`s keyed by strings become association lists (`QS.Assoc`),
  preserving insertion-order semantics of `setdefault` / `pop`.
* Python exceptions become `Except QS.Exc`.  In the source, documents that
  were mutated in place before an exception never escape (the combining
  state is reset on error), so the pure `Except` semantics is observably
  equivalent.
* Machine-level details that no claim depends on are carried as opaque
  strings (geo-coordinate floats, API value `content` payloads); comments
  mark each such spot.
* `re` semantics: all regexes in the source are anchored with `^...$` and
  applied to stripped tokens, so `$` is modelled as end-of-string; `.`
  matches any character except `'\n'`.
-/

namespace QS

/-! ## Decimal model

Python `decimal.Decimal` as used by `BaseParser.parse_value_quantity`.
A decimal is a signed integer mantissa together with a scale (number of
digits after the point); the represented value is `man / 10 ^ scale`.
Construction from a literal is exact; `+`/`-` on aligned operands is exact
as long as the resulting coefficient stays within the context precision of
28 significant digits (hypotheses of the theorems below keep us in that
range).  Python's negative zero (`Decimal("-0.0")`) is not distinguished
from positive zero here; no claim constructs such a literal. -/

structure Dec where
  man : Int
  scale : Nat
deriving DecidableEq

/-- Exact addition: align to the larger scale (Python `Decimal.__add__`
with an exact result). -/
def Dec.add (a b : Dec) : Dec :=
  { man := a.man * (10 : Int) ^ (max a.scale b.scale - a.scale)
      + b.man * (10 : Int) ^ (max a.scale b.scale - b.scale)
    scale := max a.scale b.scale }

/-- Exact subtraction (Python `Decimal.__sub__` with an exact result). -/
def Dec.sub (a b : Dec) : Dec :=
  { man := a.man * (10 : Int) ^ (max a.scale b.scale - a.scale)
      - b.man * (10 : Int) ^ (max a.scale b.scale - b.scale)
    scale := max a.scale b.scale }

/-- The character for one decimal digit. -/
def digitChar (d : Nat) : Char := Char.ofNat (48 + d)

/-- Little-endian decimal digits of `n`, with `fuel` bounding recursion
depth (any `fuel ≥ n` is enough). -/
def natDigitsLE : Nat → Nat → List Nat
  | 0, _ => []
  | _ + 1, 0 => []
  | fuel + 1, n + 1 => (n + 1) % 10 :: natDigitsLE fuel ((n + 1) / 10)

/-- Big-endian decimal digit characters of a natural number, as Python
renders an unsigned integer. -/
def natDecimal (n : Nat) : List Char :=
  if n = 0 then ['0'] else ((natDigitsLE n n).map digitChar).reverse

/-- Numeric value of a big-endian digit-character list (how the embedding
reads a digit group captured by a regex). -/
def digitsVal (ds : List Char) : Nat :=
  ds.foldl (fun a c => 10 * a + (c.toNat - 48)) 0

/-- `str(Decimal)`: fixed-point notation when the exponent is `≤ 0` and the
adjusted exponent is `≥ -6`, scientific notation otherwise (CPython
`_dec_...__str__`; scales are never negative here, so the exponent is
always `≤ 0`). -/
def Dec.renderChars (d : Dec) : List Char :=
  let sign : List Char := if d.man < 0 then ['-'] else []
  let ds := natDecimal d.man.natAbs
  if d.scale = 0 then sign ++ ds
  else if (-6 : Int) ≤ (ds.length : Int) - 1 - (d.scale : Int) then
    let padded := List.replicate (d.scale + 1 - ds.length) '0' ++ ds
    let k := padded.length - d.scale
    sign ++ padded.take k ++ '.' :: padded.drop k
  else
    let expo := ((d.scale : Int) + 1 - (ds.length : Int)).natAbs
    sign ++ ds.take 1 ++
      (if ds.drop 1 = [] then [] else '.' :: ds.drop 1) ++
      'E' :: '-' :: natDecimal expo

def Dec.render (d : Dec) : String := String.mk d.renderChars

/-- `BaseParser.parse_value_quantity.str_amount`: render with an explicit
leading sign. -/
def str_amount (d : Dec) : String :=
  if 0 ≤ d.man then "+" ++ d.render else d.render

/-! ## Character scanners shared by the recognizers -/

def isDigitC (c : Char) : Bool := decide ('0' ≤ c) && decide (c ≤ '9')

/-- Python `\s` (ASCII part; the claims use no exotic whitespace). -/
def isPyWs (c : Char) : Bool :=
  c = ' ' || c = '\t' || c = '\n' || c = '\r' || c = '\x0b' || c = '\x0c'

/-- Maximal leading run of decimal digits (`\d+` greedy). -/
def takeDigits : List Char → List Char × List Char
  | [] => ([], [])
  | c :: cs =>
    if isDigitC c then
      let p := takeDigits cs
      (c :: p.1, p.2)
    else ([], c :: cs)

/-- Drop a maximal leading run of whitespace (`\s*`). -/
def dropWs : List Char → List Char
  | [] => []
  | c :: cs => if isPyWs c then dropWs cs else c :: cs

/-- Strip whitespace from both ends (Python `str.strip()`; ASCII part). -/
def pyStripL (cs : List Char) : List Char :=
  ((cs.dropWhile isPyWs).reverse.dropWhile isPyWs).reverse

def pyStrip (s : String) : String := String.mk (pyStripL s.toList)

/-- Build a `Dec` from a matched literal: optional `-` sign, integer digit
group, fraction digit group (Python `Decimal(match.group(...))`, exact). -/
def Dec.ofLit (neg : Bool) (ip fp : List Char) : Dec :=
  { man := (if neg then -1 else 1) * (digitsVal (ip ++ fp) : Int)
    scale := fp.length }

/-- Scan one amount literal `[\+\-]{0,1}\d+(\.\d+){0,1}` (greedy, with the
regex backtracking on a point not followed by digits), returning the value
and the unconsumed tail. -/
def scanAmount (cs : List Char) : Option (Dec × List Char) :=
  let p : Bool × List Char :=
    match cs with
    | '+' :: r => (false, r)
    | '-' :: r => (true, r)
    | r => (false, r)
  let neg := p.1
  let q := takeDigits p.2
  if q.1 = [] then none
  else
    match q.2 with
    | '.' :: r2 =>
      let f := takeDigits r2
      if f.1 = [] then some (Dec.ofLit neg q.1 [], '.' :: r2)
      else some (Dec.ofLit neg q.1 f.1, f.2)
    | r => some (Dec.ofLit neg q.1 [], r)

/-- Scan the trailing `(U(\d+)){0,1}$` unit group: returns `some unit?`
when the rest of the input is a valid (possibly absent) unit suffix. -/
def scanUnit : List Char → Option (Option String)
  | [] => some none
  | 'U' :: cs =>
    let p := takeDigits cs
    if p.1 ≠ [] ∧ p.2 = [] then some (some (String.mk p.1)) else none
  | _ => none

/-! ## Parsed values

`BaseParser.parse_value` returns a `dict`; each shape of that dict is one
constructor here.  Geo-coordinate latitude/longitude/precision are carried
as the matched strings (the source converts them with `float(...)`, a
machine operation no claim inspects; the precision strings below are the
literal float constants of the source's lookup table). -/

structure QuantityV where
  amount : String
  lowerBound : Option String
  upperBound : Option String
  unit : String
deriving DecidableEq

inductive PValue
  | sv (v : String)
  | entity (v : String)
  | str (v : String)
  | mono (language text : String)
  | time (time : String) (precision : Nat) (calendarmodel : String)
  | location (latitude longitude precision globe : String)
  | quantity (q : QuantityV)
deriving DecidableEq

/-! ## Recognizers (`BaseParser.parse_value_*`) -/

/-- `parse_value_somevalue_novalue`. -/
def parse_value_somevalue_novalue (v : String) : Option PValue :=
  if v = "somevalue" ∨ v = "novalue" then some (.sv v) else none

/-- `^L\d+\-[FS]\d+$` after the leading `L` (forms and senses). -/
def lexemeSuffix (cs : List Char) : Bool :=
  let p := takeDigits cs
  match p.2 with
  | '-' :: c :: r =>
    p.1 ≠ [] && (c = 'F' || c = 'S') &&
      (takeDigits r).1 ≠ [] && (takeDigits r).2 = []
  | _ => false

/-- `is_valid_entity_id`: `^[QMPL]\d+$` or `^L\d+\-[FS]\d+$`. -/
def is_valid_entity_id (v : String) : Bool :=
  match v.toList with
  | [] => false
  | c :: cs =>
    ((c = 'Q' || c = 'M' || c = 'P' || c = 'L') && cs ≠ [] &&
      cs.all isDigitC) ||
    (c = 'L' && lexemeSuffix cs)

def toUpperL (cs : List Char) : List Char := cs.map Char.toUpper

/-- `parse_value_entity` (`LAST` or a valid entity id, uppercased). -/
def parse_value_entity (v : String) : Option PValue :=
  if v = "LAST" then some (.entity "LAST")
  else if is_valid_entity_id v then some (.entity (String.mk (toUpperL v.toList)))
  else none

/-- The middle of a `"""..."""`-wrapped token, when the token is wrapped. -/
def tripleMid (v : String) : Option (List Char) :=
  let cs := v.toList
  if 6 ≤ cs.length ∧ cs.take 3 = ['"', '"', '"'] ∧
      cs.drop (cs.length - 3) = ['"', '"', '"'] then
    some ((cs.drop 3).take (cs.length - 6))
  else none

def noNl (cs : List Char) : Bool := cs.all (· ≠ '\n')

/-- `parse_value_url`: `^"""(http(s)?:.*)"""$`; the payload is the verbatim
middle (typed as a plain string by the source). -/
def parse_value_url (v : String) : Option PValue :=
  match tripleMid v with
  | some mid =>
    if (mid.take 5 = ['h', 't', 't', 'p', ':'] ∨
        mid.take 6 = ['h', 't', 't', 'p', 's', ':']) ∧ noNl mid then
      some (.str (String.mk mid))
    else none
  | none => none

/-- `parse_value_commons_media_file`:
`^"""(.*\.(?:jpg|JPG|jpeg|JPEG|png|PNG))"""$`. -/
def parse_value_commons_media_file (v : String) : Option PValue :=
  match tripleMid v with
  | some mid =>
    if noNl mid ∧
        ([".jpg", ".JPG", ".jpeg", ".JPEG", ".png", ".PNG"].any
          (fun e => List.isSuffixOf e.toList mid)) then
      some (.str (String.mk mid))
    else none
  | none => none

/-- `parse_value_external_id`: `^"""(.*)"""$`. -/
def parse_value_external_id (v : String) : Option PValue :=
  match tripleMid v with
  | some mid => if noNl mid then some (.str (String.mk mid)) else none
  | none => none

def isLangC (c : Char) : Bool :=
  (decide ('a' ≤ c) && decide (c ≤ 'z')) || c = '_' || c = '-'

/-- `parse_value_string`: `^"(.*)"$`, payload stripped. -/
def parse_value_string (v : String) : Option PValue :=
  match v.toList with
  | '"' :: rest =>
    if rest ≠ [] ∧ rest.getLast? = some '"' ∧ noNl rest.dropLast then
      some (.str (String.mk (pyStripL rest.dropLast)))
    else none
  | _ => none

/-- `parse_value_monolingualtext`: `^([a-z_-]+):"(.*)"$`, text stripped. -/
def parse_value_monolingualtext (v : String) : Option PValue :=
  let cs := v.toList
  let lang := cs.takeWhile isLangC
  let rest := cs.dropWhile isLangC
  if lang = [] then none
  else
    match rest with
    | ':' :: '"' :: r2 =>
      if r2 ≠ [] ∧ r2.getLast? = some '"' ∧ noNl r2.dropLast then
        some (.mono (String.mk lang) (String.mk (pyStripL r2.dropLast)))
      else none
    | _ => none

/-- Exactly `n` digits (`\d{n}`), returning them and the tail. -/
def takeDigitsN : Nat → List Char → Option (List Char × List Char)
  | 0, cs => some ([], cs)
  | n + 1, c :: cs =>
    if isDigitC c then
      match takeDigitsN n cs with
      | some (ds, r) => some (c :: ds, r)
      | none => none
    else none
  | _ + 1, [] => none

/-- One `c`-then-digit-run group, e.g. `/\d+` or `U\d+`. -/
def scanCharDigits (c : Char) (cs : List Char) : Option (List Char × List Char) :=
  match cs with
  | c0 :: r =>
    if c0 = c then
      let p := takeDigits r
      if p.1 ≠ [] then some (p.1, p.2) else none
    else none
  | [] => none

/-- `parse_value_time`: sign, `YYYY-MM-DDTHH:MM:SSZ`, optional `/precision`,
optional `/J` or `/C<qid>`.  The output time string is the portion up to and
including the `Z` (the source removes the suffixes by string surgery; on a
matched token this equals truncation).  Missing precision defaults to 9. -/
def parse_value_time (v : String) : Option PValue :=
  let cs := v.toList
  let sp : List Char × List Char :=
    match cs with
    | '+' :: r => (['+'], r)
    | '-' :: r => (['-'], r)
    | r => ([], r)
  let yearP := takeDigits sp.2
  if yearP.1 = [] then none
  else
    match yearP.2 with
    | '-' :: r1 =>
      match takeDigitsN 2 r1 with
      | none => none
      | some (mo, r2) =>
        match r2 with
        | '-' :: r3 =>
          match takeDigitsN 2 r3 with
          | none => none
          | some (da, r4) =>
            match r4 with
            | 'T' :: r5 =>
              match takeDigitsN 2 r5 with
              | none => none
              | some (hh, r6) =>
                match r6 with
                | ':' :: r7 =>
                  match takeDigitsN 2 r7 with
                  | none => none
                  | some (mi, r8) =>
                    match r8 with
                    | ':' :: r9 =>
                      match takeDigitsN 2 r9 with
                      | none => none
                      | some (ss, r10) =>
                        match r10 with
                        | 'Z' :: r11 =>
                          let base := sp.1 ++ yearP.1 ++ '-' :: mo ++
                            '-' :: da ++ 'T' :: hh ++ ':' :: mi ++
                            ':' :: ss ++ ['Z']
                          let precRest :
                              Option (Option (List Char) × List Char) :=
                            match scanCharDigits '/' r11 with
                            | some (ds, r) => some (some ds, r)
                            | none => some (none, r11)
                          match precRest with
                          | none => none
                          | some (prec?, r12) =>
                            let precision :=
                              match prec? with
                              | some ds => digitsVal ds
                              | none => 9
                            match r12 with
                            | [] =>
                              some (.time (String.mk base) precision
                                "http://www.wikidata.org/entity/Q1985727")
                            | '/' :: 'J' :: [] =>
                              some (.time (String.mk base) precision
                                "http://www.wikidata.org/entity/Q1985786")
                            | '/' :: 'C' :: r13 =>
                              let q := takeDigits r13
                              if q.1 ≠ [] ∧ q.2 = [] then
                                some (.time (String.mk base) precision
                                  (String.mk
                                    ("http://www.wikidata.org/entity/Q".toList
                                      ++ q.1)))
                              else none
                            | _ => none
                        | _ => none
                    | _ => none
                | _ => none
            | _ => none
        | _ => none
    | _ => none

/-- A `[+-]?[0-9.]+` coordinate group (kept as the matched string; the
source converts with `float`, which no claim inspects). -/
def takeCoord (cs : List Char) : Option (List Char × List Char) :=
  let sp : List Char × List Char :=
    match cs with
    | '+' :: r => (['+'], r)
    | '-' :: r => (['-'], r)
    | r => ([], r)
  let body := sp.2.takeWhile (fun c => isDigitC c || c = '.')
  if body = [] then none
  else some (sp.1 ++ body, sp.2.dropWhile (fun c => isDigitC c || c = '.'))

/-- The precision alternation
`(arcsec(10{0,3})?|arcmin|-[1-6]|0|1)` as literal token matching. -/
def takePrecisionTok (cs : List Char) : Option (List Char × List Char) :=
  let cands : List (List Char) :=
    ["arcsec1000", "arcsec100", "arcsec10", "arcsec1", "arcsec",
     "arcmin", "-1", "-2", "-3", "-4", "-5", "-6", "0", "1"].map
      String.toList
  match cands.find? (fun t => cs.take t.length = t) with
  | some t => some (t, cs.drop t.length)
  | none => none

/-- The source's precision lookup table (float constants kept as their
literal strings), with the table's `.get` default `0.000001`. -/
def precisionTable (key : List Char) : String :=
  if key = "arcsec".toList then "0.000277777777778"
  else if key = "arcsec10".toList then "0.000027777777778"
  else if key = "arcsec100".toList then "0.000002777777778"
  else if key = "arcsec1000".toList then "0.000000277777778"
  else if key = "arcmin".toList then "0.016666666666667"
  else if key = "-6".toList then "0.000001"
  else if key = "-5".toList then "0.00001"
  else if key = "-4".toList then "0.0001"
  else if key = "-3".toList then "0.001"
  else if key = "-2".toList then "0.01"
  else if key = "-1".toList then "0.1"
  else if key = "0".toList then "1"
  else if key = "1".toList then "10"
  else "0.000001"

/-- `parse_value_location`: `@lat/lon[/Gqid][/precision]` with `\s*` around
separators. -/
def parse_value_location (v : String) : Option PValue :=
  match v.toList with
  | '@' :: r0 =>
    match takeCoord (dropWs r0) with
    | none => none
    | some (lat, r1) =>
      match dropWs r1 with
      | '/' :: r2 =>
        match takeCoord (dropWs r2) with
        | none => none
        | some (lon, r3) =>
          let globeP : Option (List Char) × List Char :=
            match dropWs r3 with
            | '/' :: r4 =>
              match dropWs r4 with
              | 'G' :: r5 =>
                let q := takeDigits r5
                if q.1 ≠ [] then (some q.1, q.2) else (none, r3)
              | _ => (none, r3)
            | _ => (none, r3)
          let precP : Option (List Char) × List Char :=
            match dropWs globeP.2 with
            | '/' :: r6 =>
              match takePrecisionTok (dropWs r6) with
              | some (t, r7) => (some t, r7)
              | none => (none, globeP.2)
            | _ => (none, globeP.2)
          if precP.2 = [] then
            let globe :=
              match globeP.1 with
              | some q =>
                String.mk ("http://www.wikidata.org/entity/Q".toList ++ q)
              | none => "http://www.wikidata.org/entity/Q2"
            let precision :=
              match precP.1 with
              | some t => precisionTable t
              | none => "0.000001"
            some (.location (String.mk lat) (String.mk lon) precision globe)
          else none
      | _ => none
  | _ => none

/-- First quantity regex `^(amount)(U\d+)?$`. -/
def quantityPlain (cs : List Char) : Option PValue :=
  match scanAmount cs with
  | none => none
  | some (a, rest) =>
    match scanUnit rest with
    | none => none
    | some u =>
      some (.quantity
        { amount := str_amount a, lowerBound := none, upperBound := none
          unit := u.getD "1" })

/-- Second quantity regex `^(amount)\[(amount),\s{0,1}(amount)\](U\d+)?$`. -/
def quantityBounds (cs : List Char) : Option PValue :=
  match scanAmount cs with
  | none => none
  | some (a, rest) =>
    match rest with
    | '[' :: r1 =>
      match scanAmount r1 with
      | none => none
      | some (lo, r2) =>
        match r2 with
        | ',' :: r3 =>
          let r3' := match r3 with
            | c :: r => if isPyWs c then r else r3
            | [] => r3
          match scanAmount r3' with
          | none => none
          | some (hi, r4) =>
            match r4 with
            | ']' :: r5 =>
              match scanUnit r5 with
              | none => none
              | some u =>
                some (.quantity
                  { amount := str_amount a
                    lowerBound := some (str_amount lo)
                    upperBound := some (str_amount hi)
                    unit := u.getD "1" })
            | _ => none
        | _ => none
    | _ => none

/-- Third quantity regex `^(amount)\s*~\s*(amount)(U\d+)?$`; the bounds are
computed as `value ± error`. -/
def quantityTolerance (cs : List Char) : Option PValue :=
  match scanAmount cs with
  | none => none
  | some (a, rest) =>
    match dropWs rest with
    | '~' :: r1 =>
      match scanAmount (dropWs r1) with
      | none => none
      | some (err, r2) =>
        match scanUnit r2 with
        | none => none
        | some u =>
          some (.quantity
            { amount := str_amount a
              lowerBound := some (str_amount (a.sub err))
              upperBound := some (str_amount (a.add err))
              unit := u.getD "1" })
    | _ => none

/-- `parse_value_quantity`: the three regexes tried in source order. -/
def parse_value_quantity (v : String) : Option PValue :=
  match quantityPlain v.toList with
  | some q => some q
  | none =>
    match quantityBounds v.toList with
    | some q => some q
    | none => quantityTolerance v.toList

/-- The curly-double-quote normalization of `parse_value`. -/
def fixQuote (c : Char) : Char := if c = '“' ∨ c = '”' then '"' else c

/-- `parse_value`: strip, normalize quotes, then try every recognizer in
the source's fixed order. -/
def parse_value (v : String) : Option PValue :=
  let w := String.mk ((pyStripL v.toList).map fixQuote)
  match parse_value_somevalue_novalue w with
  | some r => some r
  | none =>
  match parse_value_entity w with
  | some r => some r
  | none =>
  match parse_value_url w with
  | some r => some r
  | none =>
  match parse_value_commons_media_file w with
  | some r => some r
  | none =>
  match parse_value_external_id w with
  | some r => some r
  | none =>
  match parse_value_monolingualtext w with
  | some r => some r
  | none =>
  match parse_value_string w with
  | some r => some r
  | none =>
  match parse_value_time w with
  | some r => some r
  | none =>
  match parse_value_location w with
  | some r => some r
  | none => parse_value_quantity w

/-! ## Association lists

Python `dict`s keyed by strings, preserving insertion order: assignment
keeps the key's position (appending new keys), `setdefault` appends when
absent, `pop` removes the entry. -/

abbrev Assoc (α : Type) := List (String × α)

def Assoc.get? {α : Type} : Assoc α → String → Option α
  | [], _ => none
  | a :: t, k => if a.1 = k then some a.2 else Assoc.get? t k

def Assoc.getD {α : Type} (m : Assoc α) (k : String) (d : α) : α :=
  (m.get? k).getD d

/-- Dict assignment: replace the key's entry in place, append when
absent (keys are unique in a dict, so replacing the first match is it). -/
def Assoc.set {α : Type} : Assoc α → String → α → Assoc α
  | [], k, v => [(k, v)]
  | a :: t, k, v => if a.1 = k then (k, v) :: t else a :: Assoc.set t k v

def Assoc.setdefault {α : Type} : Assoc α → String → α → Assoc α
  | [], k, v => [(k, v)]
  | a :: t, k, v => if a.1 = k then a :: t else a :: Assoc.setdefault t k v

def Assoc.pop {α : Type} : Assoc α → String → Assoc α
  | [], _ => []
  | a :: t, k => if a.1 = k then t else a :: Assoc.pop t k

/-! ## Entity documents and commands (`src/core/models.py`)

The parser-level statement value is `{"type": t, "value": payload}`; the
API-level value produced by `BatchCommand.parser_value_to_api_value` is
either `{"type": t}` for the somevalue/novalue markers or
`{"type": "value", "content": payload}`.  The payload (`content`) is
carried as an opaque string: every use in the engine is an equality test,
and `update_quantity_units_if_needed` (the rewrite of a bare numeric
quantity unit into the store's entity IRI) is modelled as already applied
to that opaque payload. -/

structure PVal where
  ptype : String
  content : String
deriving DecidableEq

inductive ApiValue
  | marker (t : String)
  | value (content : String)
deriving DecidableEq

/-- `BatchCommand.parser_value_to_api_value`. -/
def parser_value_to_api_value (v : PVal) : ApiValue :=
  if v.ptype = "novalue" ∨ v.ptype = "somevalue" then .marker v.ptype
  else .value v.content

structure PQual where
  property : String
  value : PVal
deriving DecidableEq

/-- A qualifier or reference part in API form:
`{"property": {"id": p}, "value": v}`. -/
structure RefPart where
  property : String
  value : ApiValue
deriving DecidableEq

/-- `{"parts": [...]}`. -/
structure Reference where
  parts : List RefPart
deriving DecidableEq

/-- One statement of an entity document.  `property` and `value` are
optional because a freshly appended statement starts as an empty dict that
`update_statement` then fills via `setdefault`. -/
structure Statement where
  property : Option String
  value : Option ApiValue
  qualifiers : List RefPart
  references : List Reference
  rank : Option String
deriving DecidableEq

/-- An entity document (sitelink values are carried as their `title`). -/
structure Entity where
  id : Option String
  labels : Assoc String
  descriptions : Assoc String
  aliases : Assoc (List String)
  statements : Assoc (List Statement)
  sitelinks : Assoc String
deriving DecidableEq

/-- The empty item returned by `get_entity_or_empty_item` for CREATE. -/
def emptyItem : Entity :=
  { id := none, labels := [], descriptions := [], aliases := []
    statements := [], sitelinks := [] }

def emptyStatement : Statement :=
  { property := none, value := none, qualifiers := [], references := []
    rank := none }

inductive Action
  | create | add | remove | merge
deriving DecidableEq

inductive Op
  | create_item | create_property
  | set_statement | create_statement
  | remove_statement_by_id | remove_statement_by_value
  | remove_qualifier | remove_reference
  | set_sitelink | set_label | set_description
  | remove_sitelink | remove_label | remove_description
  | add_alias | remove_alias
deriving DecidableEq

inductive CStatus
  | error | initial | running | done
deriving DecidableEq

inductive BStatus
  | stopped | blocked | preview | initial | running | done
deriving DecidableEq

inductive CError
  | op_not_implemented
  | no_statements_property
  | no_statements_value
  | no_qualifiers
  | no_reference_parts
  | sitelink_invalid
  | combining_failed
  | api_user_error
  | api_server_error
  | last_not_evaluated
deriving DecidableEq

/-- The human label of each error choice (`BatchCommand.Error`). -/
def CError.label : CError → String
  | .op_not_implemented => "Operation not implemented"
  | .no_statements_property => "No statements for given property"
  | .no_statements_value => "No statements with given value"
  | .no_qualifiers => "No qualifiers with given value"
  | .no_reference_parts => "No reference parts with given value"
  | .sitelink_invalid => "The sitelink id is invalid"
  | .combining_failed => "The next command failed"
  | .api_user_error => "API returned a User error"
  | .api_server_error => "API returned a server error"
  | .last_not_evaluated => "LAST could not be evaluated."

/-- Where the payload stores the entity id: `json["item"]`,
`json["entity"]["id"]`, or neither key (a fresh `CREATE`). -/
inductive IdSlot
  | noKey
  | itemKey (v : Option String)
  | entityKey (v : Option String)
deriving DecidableEq

/-- The model of one `BatchCommand` row: the fields of the database record
that the engine reads or writes, with the JSON payload split into the
projections the source accesses (`property`, `value`, `qualifiers`,
`references`, `rank`, `language`, `site`, `what`, alias/string payloads,
`id` of a statement to delete). -/
structure Cmd where
  index : Nat
  action : Action
  operation : Option Op
  idSlot : IdSlot
  what : String
  prop : String
  pvalue : PVal
  qualifiersJ : List PQual
  referencesJ : List (List PQual)
  rank : Option String
  language : String
  site : String
  aliasValues : List String
  strValue : String
  stId : String
  status : CStatus
  valueTypeVerified : Bool
  message : Option String
  responseId : Option String
  cmdError : Option CError
deriving DecidableEq

/-- `BatchCommand.entity_id` (truthiness of `json.get("item")` included). -/
def Cmd.entityId (c : Cmd) : Option String :=
  match c.idSlot with
  | .itemKey (some v) => if v = "" then none else some v
  | .itemKey none => none
  | .entityKey v => v
  | .noKey => none

/-- `BatchCommand.set_entity_id`. -/
def Cmd.setEntityId (c : Cmd) (v : Option String) : Cmd :=
  match c.idSlot with
  | .itemKey _ => { c with idSlot := .itemKey v }
  | _ => { c with idSlot := .entityKey v }

def Cmd.isErrorStatus (c : Cmd) : Bool := c.status = .error

/-- `operation_is_combinable`: every operation except the two that do not
work by editing the entity json (and a missing operation). -/
def Cmd.operationIsCombinable (c : Cmd) : Bool :=
  match c.operation with
  | none => false
  | some .create_property => false
  | some .remove_statement_by_id => false
  | some _ => true

def Cmd.isNotCreateItem (c : Cmd) : Bool := ¬ c.operation = some Op.create_item

def Cmd.isIdLastOrCreateItem (c : Cmd) : Bool :=
  c.entityId = some "LAST" ∨ c.operation = some Op.create_item

/-- `is_add_statement` (`what` is upcased by the source's `what` property
before comparison). -/
def Cmd.isAddStatement (c : Cmd) : Bool :=
  c.action = .add ∧ toUpperL c.what.toList = "STATEMENT".toList

/-- `update_last_id`: overwrite a `LAST` payload id with the tracked id,
when there is one; the assignment is saved (persisted). -/
def Cmd.updateLastId (c : Cmd) (lastId : Option String) : Cmd :=
  if c.entityId = some "LAST" ∧ ¬ lastId = none then c.setEntityId lastId else c

/-- `qualifiers_for_api`. -/
def Cmd.qualifiersForApi (c : Cmd) : List RefPart :=
  c.qualifiersJ.map (fun q => ⟨q.property, parser_value_to_api_value q.value⟩)

/-- `references_for_api`. -/
def Cmd.referencesForApi (c : Cmd) : List Reference :=
  c.referencesJ.map
    (fun r => ⟨r.map (fun q => ⟨q.property, parser_value_to_api_value q.value⟩)⟩)

/-- `statement_api_value` (quantity-unit normalization modelled upstream,
see `PVal`). -/
def Cmd.statementApiValue (c : Cmd) : ApiValue :=
  parser_value_to_api_value c.pvalue

/-- `is_in_qualifiers`. -/
def Cmd.isInQualifiers (c : Cmd) (q : RefPart) : Bool :=
  c.qualifiersForApi.any
    (fun k => k.property = q.property && k.value = q.value)

/-- `is_part_in_references`. -/
def Cmd.isPartInReferences (c : Cmd) (p : RefPart) : Bool :=
  c.referencesForApi.any
    (fun r => r.parts.any
      (fun k => k.property = p.property && k.value = p.value))

/-! ## Entity mutators (`BatchCommand.update_entity_json` and helpers)

The source mutates the document in place and may raise afterwards; a
partially mutated document never escapes on error (the combining state is
reset), so `Except` with the unmutated document dropped on `error` is
observably equivalent. -/

inductive Exc
  | notImplemented
  | noStatementsProperty
  | noStatementsValue
  | noQualifiers
  | noReferenceParts
  | lastNotEvaluated
  | userErr (sitelinkBad : Bool) (msg : String)
  | serverErr (msg : String)
  | invalidValueType (msg : String)
  | nonexistantProperty (msg : String)
  | pyError (msg : String)
deriving DecidableEq

deriving instance DecidableEq for Except

/-- `update_statement`: `setdefault` for property and value, extend
qualifiers and references when the command carries any, overwrite the rank
when the command carries one. -/
def update_statement (c : Cmd) (st : Statement) : Statement :=
  { property := match st.property with
      | some p => some p
      | none => some c.prop
    value := match st.value with
      | some v => some v
      | none => some c.statementApiValue
    qualifiers :=
      if c.qualifiersForApi = [] then st.qualifiers
      else st.qualifiers ++ c.qualifiersForApi
    references :=
      if c.referencesForApi = [] then st.references
      else st.references ++ c.referencesForApi
    rank := match c.rank with
      | some r => some r
      | none => st.rank }

/-- `_get_statement`: `setdefault` the property's statement list, then the
index of the first statement whose value equals the command's API value. -/
def get_statement (c : Cmd) (e : Entity) : Entity × Option Nat :=
  let stmts := e.statements.getD c.prop []
  ({ e with statements := e.statements.setdefault c.prop [] },
    stmts.findIdx? (fun st => st.value = some c.statementApiValue))

/-- `_update_entity_statements`: SET edits the first value-matching
statement, falling through to appending a fresh one; CREATE always
appends. -/
def updateEntityStatements (c : Cmd) (e : Entity) : Entity :=
  if c.operation = some Op.set_statement then
    let p := get_statement c e
    match p.2 with
    | some i =>
      let stmts := p.1.statements.getD c.prop []
      let upd := stmts.set i (update_statement c (stmts.getD i emptyStatement))
      { p.1 with statements := p.1.statements.set c.prop upd }
    | none =>
      let stmts := p.1.statements.getD c.prop []
      let upd := stmts ++ [update_statement c emptyStatement]
      { p.1 with statements := p.1.statements.set c.prop upd }
  else
    let stmts := e.statements.getD c.prop []
    let upd := stmts ++ [update_statement c emptyStatement]
    { e with statements := e.statements.set c.prop upd }

/-- The first reference group holding a matching part, and the first
matching part inside it (the source's nested loop with breaks). -/
def findRefPart (c : Cmd) (refs : List Reference) : Option (Nat × Nat) :=
  match refs.findIdx? (fun r => r.parts.any (c.isPartInReferences ·)) with
  | some gi =>
    match (refs.getD gi ⟨[]⟩).parts.findIdx? (c.isPartInReferences ·) with
    | some pj => some (gi, pj)
    | none => none
  | none => none

/-- `_remove_qualifier_or_reference`: remove at most one matching
qualifier and at most one matching reference part (from the first group
containing one; an emptied group is kept), then fail if the command asked
for a qualifier (resp. reference part) and none was found. -/
def removeQualRef (c : Cmd) (e : Entity) : Except Exc Entity :=
  let p := get_statement c e
  match p.2 with
  | none =>
    if ¬ c.qualifiersForApi = [] then .error .noQualifiers
    else if ¬ c.referencesForApi = [] then .error .noReferenceParts
    else .ok p.1
  | some i =>
    let stmts := p.1.statements.getD c.prop []
    let st := stmts.getD i emptyStatement
    let qIdx := st.qualifiers.findIdx? (c.isInQualifiers ·)
    let st1 := match qIdx with
      | some j => { st with qualifiers := st.qualifiers.eraseIdx j }
      | none => st
    let rIdx := findRefPart c st1.references
    let st2 := match rIdx with
      | some gp =>
        let g2 : Reference := ⟨(st1.references.getD gp.1 ⟨[]⟩).parts.eraseIdx gp.2⟩
        { st1 with references := st1.references.set gp.1 g2 }
      | none => st1
    let e2 := { p.1 with statements := p.1.statements.set c.prop (stmts.set i st2) }
    if qIdx = none ∧ ¬ c.qualifiersForApi = [] then .error .noQualifiers
    else if rIdx = none ∧ ¬ c.referencesForApi = [] then
      .error .noReferenceParts
    else .ok e2

/-- `_remove_entity_statement`: no statements under the property at all
(absent key or empty list) fails one way, a nonempty list with no value
match the other; otherwise pop the first match. -/
def removeEntityStatement (c : Cmd) (e : Entity) : Except Exc Entity :=
  let stmts := e.statements.getD c.prop []
  if stmts.length = 0 then .error .noStatementsProperty
  else
    match stmts.findIdx? (fun st => st.value = some c.statementApiValue) with
    | some i =>
      .ok { e with statements := e.statements.set c.prop (stmts.eraseIdx i) }
    | none => .error .noStatementsValue

/-- `_update_entity_aliases`: `setdefault` the language, append the absent
aliases (ADD) or filter the given ones out, dropping the language key when
the list becomes empty (REMOVE). -/
def updateEntityAliases (c : Cmd) (e : Entity) : Entity :=
  let als := e.aliases.setdefault c.language []
  let cur := als.getD c.language []
  if c.operation = some Op.add_alias then
    let grown := c.aliasValues.foldl
      (fun acc a => if acc.contains a then acc else acc ++ [a]) cur
    { e with aliases := als.set c.language grown }
  else if c.operation = some Op.remove_alias then
    let kept := cur.filter (fun a => ¬ c.aliasValues.contains a)
    if 0 < kept.length then { e with aliases := als.set c.language kept }
    else { e with aliases := als.pop c.language }
  else { e with aliases := als }

/-- `what_plural_lowercase` (`None` on a falsy `what`). -/
def what_plural_lowercase (what : String) : Option String :=
  if what = "alias" then some "aliases"
  else if ¬ what = "" then some (what ++ "s")
  else none

/-- `language_or_sitelink`. -/
def Cmd.languageOrSitelink (c : Cmd) : String :=
  if ¬ c.language = "" then c.language else c.site

/-- `update_entity_json`.  A label/description/sitelink command whose
`what` points at a key the document model does not treat as a plain map
is an inconsistent payload the parser never produces; it surfaces as a
generic Python-level error (`pyError`), matching the catch-all in `run`. -/
def update_entity_json (c : Cmd) (e : Entity) : Except Exc Entity :=
  if c.operation = some Op.set_statement ∨
      c.operation = some Op.create_statement then
    .ok (updateEntityStatements c e)
  else if c.operation = some Op.remove_statement_by_value then
    removeEntityStatement c e
  else if c.operation = some Op.add_alias ∨
      c.operation = some Op.remove_alias then
    .ok (updateEntityAliases c e)
  else if c.operation = some Op.remove_qualifier ∨
      c.operation = some Op.remove_reference then
    removeQualRef c e
  else if c.operation = some Op.set_sitelink then
    .ok { e with sitelinks := e.sitelinks.set c.site c.strValue }
  else if c.operation = some Op.set_label ∨
      c.operation = some Op.set_description then
    match what_plural_lowercase c.what with
    | some "labels" => .ok { e with labels := e.labels.set c.language c.strValue }
    | some "descriptions" =>
      .ok { e with descriptions := e.descriptions.set c.language c.strValue }
    | _ => .error (.pyError "KeyError")
  else if c.operation = some Op.remove_label ∨
      c.operation = some Op.remove_description ∨
      c.operation = some Op.remove_sitelink then
    match what_plural_lowercase c.what with
    | some "labels" => .ok { e with labels := e.labels.pop c.languageOrSitelink }
    | some "descriptions" =>
      .ok { e with descriptions := e.descriptions.pop c.languageOrSitelink }
    | some "sitelinks" =>
      .ok { e with sitelinks := e.sitelinks.pop c.languageOrSitelink }
    | _ => .error (.pyError "KeyError")
  else .ok e

/-! ## The API client collaborator

Reads are answered from a fixed `entities` table; each remote write
consumes the next element of the `writes` script (indexed by the number of
writes issued so far).  `propValueType` collapses
`get_property_value_type` plus the data-type-to-value-type mapping into a
single lookup (`none` answers as `NonexistantPropertyOrNoDataType`). -/

inductive WriteOutcome
  | ok (id : Option String)
  | userErr (sitelinkBad : Bool) (msg : String)
  | serverErr (msg : String)

structure Client where
  hasToken : Bool
  isAutoconfirmed : Bool
  entities : String → Option Entity
  propValueType : String → Option String
  writes : Nat → WriteOutcome

/-- `Client.get_entity` (a missing entity answers as an API user error). -/
def Client.getEntity (cl : Client) (id : Option String) : Except Exc Entity :=
  match id with
  | some i =>
    match cl.entities i with
    | some e => .ok e
    | none => .error (.userErr false ("entity not found: " ++ i))
  | none => .error (.userErr false "entity id missing")

/-- `Client.verify_value_type`: somevalue/novalue always pass. -/
def Client.verifyValueType (cl : Client) (pid vtype : String) : Except Exc Unit :=
  if vtype = "somevalue" ∨ vtype = "novalue" then .ok ()
  else
    match cl.propValueType pid with
    | none => .error (.nonexistantProperty pid)
    | some needed =>
      if needed = vtype then .ok ()
      else .error (.invalidValueType ("invalid value type for property " ++ pid))

/-! ## Combining engine and command execution -/

/-- `CombiningState`: the commands already folded (most recent first, as
`[self, *previous_commands]`) and the accumulated document. -/
structure CombSt where
  commands : List Cmd
  entity : Option Entity

def CombSt.empty : CombSt := ⟨[], none⟩

/-- `has_combinable_id_with`. -/
def hasCombinableIdWith (c nx : Cmd) : Bool :=
  (c.operation = some Op.create_item ∧ nx.entityId = some "LAST") ∨
    c.entityId = nx.entityId

/-- `check_combination`'s combinability decision (the source also caches
the state onto the command; the state is passed explicitly here). -/
def check_combination (combine : Bool) (c : Cmd) (next? : Option Cmd) : Bool :=
  combine && c.operationIsCombinable &&
    (match next? with
     | some nx =>
       nx.operationIsCombinable && nx.isNotCreateItem && hasCombinableIdWith c nx
     | none => false)

/-- `get_entity_or_empty_item`. -/
def getEntityOrEmptyItem (cl : Client) (c : Cmd) : Except Exc Entity :=
  if c.operation = some Op.create_item then .ok emptyItem
  else if c.entityId = some "LAST" then .error .lastNotEvaluated
  else cl.getEntity c.entityId

/-- `get_final_entity_json`: the cached previous document (or a fresh
read / empty item) with the command's mutation applied. -/
def getFinalEntityJson (cl : Client) (c : Cmd) (prev : Option Entity) :
    Except Exc Entity := do
  let e ← match prev with
    | some e => pure e
    | none => getEntityOrEmptyItem cl c
  update_entity_json c e

/-- The body shape sent to the API.  `patch` carries the two documents the
source diffs with `jsonpatch` (the diff itself is wire formatting no claim
inspects). -/
inductive Payload
  | emptyItem
  | item (e : Entity)
  | patch (original final : Entity)
  | empty

/-- `api_payload`. -/
def apiPayload (cl : Client) (c : Cmd) (prev : Option Entity) :
    Except Exc Payload :=
  if c.operation = some Op.create_item then .ok .emptyItem
  else if c.operationIsCombinable then
    if c.isIdLastOrCreateItem then do
      let e ← getFinalEntityJson cl c prev
      .ok (.item e)
    else do
      let original ← cl.getEntity c.entityId
      let base := prev.getD original
      let final ← update_entity_json c base
      .ok (.patch original final)
  else .ok .empty

/-- `operation_method_and_endpoint`: POST for creates and resolved-LAST
items, PATCH otherwise for combinable operations, DELETE for statement
removal by id; any other non-combinable operation returns `None`, which
the caller's tuple unpacking turns into a Python-level error. -/
inductive Endpoint
  | postItems
  | patchEntity (id : String)
  | deleteStatement (sid : String)

def methodAndEndpoint (c : Cmd) : Except Exc Endpoint :=
  if c.operationIsCombinable then
    if c.isIdLastOrCreateItem then .ok .postItems
    else
      match c.entityId with
      | some i =>
        if i.toList.take 1 = ['Q'] ∨ i.toList.take 1 = ['P'] then
          .ok (.patchEntity i)
        else .error (.pyError ("EntityTypeNotImplemented: " ++ i))
      | none => .error (.pyError "EntityTypeNotImplemented")
  else
    match c.operation with
    | some .remove_statement_by_id => .ok (.deleteStatement c.stId)
    | _ => .error (.pyError "cannot unpack non-iterable NoneType object")

/-- Result of `send_to_api`: the response id (or the raised error), the
updated write counter, and whether a remote write was actually issued. -/
structure ApiRes where
  result : Except Exc (Option String)
  nWrites : Nat
  wrote : Bool

/-- `send_to_api`: compute endpoint and body (both may raise before any
write), then perform the one remote write, whose outcome is the next
element of the client's script. -/
def sendToApi (cl : Client) (c : Cmd) (prev : Option Entity) (n : Nat) : ApiRes :=
  if c.operation = some Op.create_property then ⟨.error .notImplemented, n, false⟩
  else
    match methodAndEndpoint c with
    | .error e => ⟨.error e, n, false⟩
    | .ok _ep =>
      match apiPayload cl c prev with
      | .error e => ⟨.error e, n, false⟩
      | .ok _body =>
        match cl.writes n with
        | .ok id => ⟨.ok id, n + 1, true⟩
        | .userErr sb m => ⟨.error (.userErr sb m), n + 1, true⟩
        | .serverErr m => ⟨.error (.serverErr m), n + 1, true⟩

/-- One step of `propagate_to_previous_commands`: copy the terminal
status; on failure overwrite error and message with `CombiningFailed`, on
success forward the produced entity id to LAST/create members. -/
def propagateOne (self : Cmd) (c : Cmd) : Cmd :=
  let c1 := { c with status := self.status }
  if self.isErrorStatus then
    { c1 with
      cmdError := some CError.combining_failed
      message := some CError.combining_failed.label }
  else if c1.isIdLastOrCreateItem then c1.setEntityId self.entityId
  else c1

def propagate (self : Cmd) (prev : List Cmd) : List Cmd :=
  prev.map (propagateOne self)

/-- `BatchCommand.finish`: mark Done and persist the produced id into the
payload of LAST/create commands. -/
def Cmd.finish (c : Cmd) : Cmd :=
  let c1 := { c with status := CStatus.done }
  if c1.isIdLastOrCreateItem then c1.setEntityId c1.responseId else c1

/-- `error_with_value`. -/
def Cmd.errorWithValue (c : Cmd) (v : CError) (msg : Option String) : Cmd :=
  { c with
    cmdError := some v
    message := some (msg.getD v.label)
    status := CStatus.error }

/-- `error_with_message` / `error_with_exception` (does not set the error
tag). -/
def Cmd.errorWithMessage (c : Cmd) (m : String) : Cmd :=
  { c with message := some m, status := CStatus.error }

/-- The exception dispatch of `BatchCommand.run` (its `except` clauses;
exceptions with no dedicated clause reach the catch-all, which records
only the message). -/
def applyExcToCmd (c : Cmd) (e : Exc) : Cmd :=
  match e with
  | .notImplemented => c.errorWithValue .op_not_implemented none
  | .noStatementsProperty => c.errorWithValue .no_statements_property none
  | .noStatementsValue => c.errorWithValue .no_statements_value none
  | .noQualifiers => c.errorWithValue .no_qualifiers none
  | .noReferenceParts => c.errorWithValue .no_reference_parts none
  | .lastNotEvaluated => c.errorWithValue .last_not_evaluated none
  | .userErr true _ => c.errorWithValue .sitelink_invalid none
  | .userErr false m => c.errorWithValue .api_user_error (some m)
  | .serverErr m => c.errorWithValue .api_server_error (some m)
  | .invalidValueType m => c.errorWithMessage m
  | .nonexistantProperty m => c.errorWithMessage ("NonexistantPropertyOrNoDataType: " ++ m)
  | .pyError m => c.errorWithMessage m

/-- `should_verify_value_types`. -/
def Cmd.shouldVerify (c : Cmd) : Bool :=
  ¬ c.valueTypeVerified ∧ c.isAddStatement

/-- The checks of `verify_value_types`: the statement value's type, then
every qualifier's, then every reference part's. -/
def verifyAll (cl : Client) (c : Cmd) : Except Exc Unit := do
  cl.verifyValueType c.prop c.pvalue.ptype
  c.qualifiersJ.forM (fun q => cl.verifyValueType q.property q.value.ptype)
  (c.referencesJ.foldr (· ++ ·) []).forM
    (fun q => cl.verifyValueType q.property q.value.ptype)

/-- `verify_value_types`: on success the command is flagged verified; an
invalid value type records message and Error status before re-raising; a
nonexistant property leaves the command untouched and raises. -/
def verify_value_types (cl : Client) (c : Cmd) : Cmd × Option Exc :=
  if c.shouldVerify then
    match verifyAll cl c with
    | .ok () => ({ c with valueTypeVerified := true }, none)
    | .error (.invalidValueType m) =>
      (c.errorWithMessage m, some (.invalidValueType m))
    | .error e => (c, some e)
  else ({ c with valueTypeVerified := true }, none)

/-- What one call of `BatchCommand.run` produces: the updated command, the
commands leaving the combining state (in index order, already propagated
to when a terminal status was reached), the new combining state, whether
the command folded itself into the state, the write log entries and the
updated write counter. -/
structure StepOut where
  cur : Cmd
  emitted : List Cmd
  newSt : CombSt
  folded : Bool
  wrote : List Nat
  nWrites : Nat

/-- `BatchCommand.run`. -/
def runCommand (cl : Client) (canCombine : Bool) (st : CombSt) (c : Cmd)
    (n : Nat) : StepOut :=
  if c.status = CStatus.error then
    ⟨c, (propagate c st.commands).reverse, .empty, false, [], n⟩
  else if ¬ c.status = CStatus.initial then
    ⟨c, st.commands.reverse, .empty, false, [], n⟩
  else
    let c0 := { c with status := CStatus.running }
    let vp := verify_value_types cl c0
    match vp.2 with
    | some e =>
      let c1 := applyExcToCmd vp.1 e
      ⟨c1, (propagate c1 st.commands).reverse, .empty, false, [], n⟩
    | none =>
      let c1 := vp.1
      if canCombine then
        match getFinalEntityJson cl c1 st.entity with
        | .ok ent => ⟨c1, [], ⟨c1 :: st.commands, some ent⟩, true, [], n⟩
        | .error e =>
          let c2 := applyExcToCmd c1 e
          ⟨c2, (propagate c2 st.commands).reverse, .empty, false, [], n⟩
      else
        let res := sendToApi cl c1 st.entity n
        let wlog := if res.wrote then [c1.index] else []
        match res.result with
        | .ok id =>
          let c2 := ({ c1 with responseId := id }).finish
          ⟨c2, (propagate c2 st.commands).reverse, .empty, false, wlog, res.nWrites⟩
        | .error e =>
          let c2 := applyExcToCmd c1 e
          ⟨c2, (propagate c2 st.commands).reverse, .empty, false, wlog, res.nWrites⟩

/-! ## The batch runner (`Batch.run`) -/

/-- One iteration of `Batch.run`'s main loop as recorded in the run trace:
which command ran, the tracked last-create id at entry, its payload id
before and after `update_last_id`, and its response id afterwards. -/
structure Step where
  index : Nat
  action : Action
  lastIdAtEntry : Option String
  idBefore : Option String
  idAfterResolve : Option String
  responseIdAfter : Option String
deriving DecidableEq

structure LoopOut where
  cmds : List Cmd
  blockedBy : Option Nat
  steps : List Step
  folds : List Nat
  writeLog : List Nat
  nWrites : Nat

/-- The main loop of `Batch.run`: one-ahead lookahead, `check_combination`
then `update_last_id` then `BatchCommand.run`, blocking on an error when
`block_on_errors`, tracking the most recent create's response id.  The
cooperative stop check is omitted (no external mutation in the model). -/
def runLoop (blockOnErrors combine : Bool) (cl : Client) :
    List Cmd → CombSt → Option String → Nat → LoopOut
  | [], st, _lastId, n => ⟨st.commands.reverse, none, [], [], [], n⟩
  | c :: rest, st, lastId, n =>
    let canCombine := check_combination combine c rest.head?
    let c1 := c.updateLastId lastId
    let so := runCommand cl canCombine st c1 n
    let step : Step :=
      ⟨c.index, c.action, lastId, c.entityId, c1.entityId, so.cur.responseId⟩
    let foldsHere := if so.folded then [c.index] else []
    if so.cur.isErrorStatus ∧ blockOnErrors then
      ⟨so.emitted ++ so.cur :: rest, some c.index, [step], foldsHere, so.wrote,
        so.nWrites⟩
    else
      let lastId2 := if c.action = Action.create then so.cur.responseId else lastId
      let r := runLoop blockOnErrors combine cl rest so.newSt lastId2 so.nWrites
      let here := if so.folded then [] else so.emitted ++ [so.cur]
      ⟨here ++ r.cmds, r.blockedBy, step :: r.steps, foldsHere ++ r.folds,
        so.wrote ++ r.writeLog, r.nWrites⟩

/-- The value-type pre-verification loop of `Batch.run`: verify every
not-yet-verified command; with `block_on_errors`, the first verification
exception blocks the batch. -/
def preVerify (cl : Client) (blockOnErrors : Bool) : List Cmd → List Cmd × Bool
  | [] => ([], false)
  | c :: rest =>
    if c.valueTypeVerified then
      let r := preVerify cl blockOnErrors rest
      (c :: r.1, r.2)
    else
      let vp := verify_value_types cl c
      match vp.2 with
      | some _ =>
        if blockOnErrors then (vp.1 :: rest, true)
        else
          let r := preVerify cl blockOnErrors rest
          (vp.1 :: r.1, r.2)
      | none =>
        let r := preVerify cl blockOnErrors rest
        (vp.1 :: r.1, r.2)

structure BatchModel where
  status : BStatus
  blockOnErrors : Bool
  combineCommands : Bool
  cmds : List Cmd

structure RunRes where
  batchStatus : BStatus
  cmds : List Cmd
  steps : List Step
  folds : List Nat
  writeLog : List Nat
  nWrites : Nat

/-- Put the loop's updated commands back into the full ordered list (the
loop only iterates the non-Done ones). -/
def mergeByIndex (orig upd : List Cmd) : List Cmd :=
  orig.map (fun c => ((upd.find? (fun u => u.index = c.index)).getD c))

/-- `Batch.run`: no-op unless Initial/Running; block without touching
commands when the token or autoconfirmed check fails; pre-verify value
types; run the main loop over the non-Done commands; afterwards re-arm to
Initial if some command is still Initial, otherwise finish Done. -/
def batchRun (b : BatchModel) (cl : Client) : RunRes :=
  if ¬ (b.status = BStatus.initial ∨ b.status = BStatus.running) then
    ⟨b.status, b.cmds, [], [], [], 0⟩
  else if ¬ cl.hasToken then ⟨.blocked, b.cmds, [], [], [], 0⟩
  else if ¬ cl.isAutoconfirmed then ⟨.blocked, b.cmds, [], [], [], 0⟩
  else
    let pv := preVerify cl b.blockOnErrors b.cmds
    if pv.2 then ⟨.blocked, pv.1, [], [], [], 0⟩
    else
      let nonDone := pv.1.filter (fun c => ¬ c.status = CStatus.done)
      let lr := runLoop b.blockOnErrors b.combineCommands cl nonDone .empty none 0
      let final := mergeByIndex pv.1 lr.cmds
      match lr.blockedBy with
      | some _ =>
        ⟨.blocked, final, lr.steps, lr.folds, lr.writeLog, lr.nWrites⟩
      | none =>
        if final.any (fun c => c.status = CStatus.initial) then
          ⟨.initial, final, lr.steps, lr.folds, lr.writeLog, lr.nWrites⟩
        else ⟨.done, final, lr.steps, lr.folds, lr.writeLog, lr.nWrites⟩

/-! ## Trace helpers -/

/-- The response id of the most recent create among a run's recorded
steps (`none` when no create has run, or the most recent one produced no
id). -/
def lastCreateResp (steps : List Step) : Option String :=
  steps.foldl (fun acc s => if s.action = Action.create then s.responseIdAfter else acc)
    none

/-! ## Concrete scenarios

Modelled from the spec: the V1 command parser (`parsers/v1.py`) is not
under `src/`; per spec §4.2/§6 it turns each input line into one command
record.  `baseCmd` is a fresh record; `createLine` is the record for a
`CREATE` line (action CREATE, operation CreateItem, empty payload);
`statementLine` is the record for `{entity}|{property}|{value}` (action
Add, operation SetStatement, `what = "statement"`, entity id stored under
`json["entity"]["id"]`). -/

def baseCmd : Cmd :=
  { index := 0, action := .add, operation := none, idSlot := .noKey, what := ""
    prop := "", pvalue := ⟨"", ""⟩, qualifiersJ := [], referencesJ := [], rank := none
    language := "", site := "", aliasValues := [], strValue := "", stId := ""
    status := .initial, valueTypeVerified := false, message := none
    responseId := none, cmdError := none }

def createLine (i : Nat) : Cmd :=
  { baseCmd with index := i, action := .create, operation := some .create_item }

def statementLine (i : Nat) (tid p : String) (v : PVal) : Cmd :=
  { baseCmd with
    index := i
    action := .add
    operation := some .set_statement
    idSlot := .entityKey (some tid)
    what := "statement"
    prop := p
    pvalue := v }

/-- Client for the `CREATE||LAST|P1|Q1` scenario: the one remote write
returns the created id `Q5`; `P1` expects entity values. -/
def c1Client : Client :=
  { hasToken := true
    isAutoconfirmed := true
    entities := fun _ => none
    propValueType := fun p => if p = "P1" then some "wikibase-entityid" else none
    writes := fun _ => .ok (some "Q5") }

/-- The batch for `CREATE||LAST|P1|Q1` with combining on. -/
def c1Batch : BatchModel :=
  ⟨.initial, false, true,
    [createLine 0, statementLine 1 "LAST" "P1" ⟨"wikibase-entityid", "Q1"⟩]⟩

/-- Client for the C2 scenario: the first write (the first CREATE)
returns `Q5`, the second write (the second CREATE) fails. -/
def c2Client : Client :=
  { hasToken := true
    isAutoconfirmed := true
    entities := fun _ => none
    propValueType := fun p => if p = "P1" then some "wikibase-entityid" else none
    writes := fun n => if n = 0 then .ok (some "Q5") else .serverErr "boom" }

/-- Batch: successful CREATE, failing CREATE, then a LAST statement
command (combining off, continue on errors). -/
def c2Batch : BatchModel :=
  ⟨.initial, false, false,
    [createLine 0, createLine 1,
     statementLine 2 "LAST" "P1" ⟨"wikibase-entityid", "Q1"⟩]⟩

/-- Client for the C4 scenario: `Q1` exists and every remote write fails
with a server error. -/
def c4Client : Client :=
  { hasToken := true
    isAutoconfirmed := true
    entities := fun i => if i = "Q1" then some emptyItem else none
    propValueType := fun _ => some "string"
    writes := fun _ => .serverErr "boom" }

/-- Batch: two same-entity statement commands with combining AND
block-on-errors both on; the first folds into the second, whose write
fails. -/
def c4Batch : BatchModel :=
  ⟨.initial, true, true,
    [statementLine 0 "Q1" "P1" ⟨"string", "x"⟩,
     statementLine 1 "Q1" "P1" ⟨"string", "y"⟩]⟩

/-- Batch: two distinct-entity statement commands, no combining, used to
witness block-vs-continue behavior. -/
def c4bBatch : BatchModel :=
  ⟨.initial, true, false,
    [statementLine 0 "Q1" "P1" ⟨"string", "x"⟩,
     statementLine 1 "Q1" "P1" ⟨"string", "y"⟩]⟩

/-- Client whose writes all succeed without returning an id (plain
statement edits), with `Q1` existing. -/
def okClient : Client :=
  { hasToken := true
    isAutoconfirmed := true
    entities := fun i => if i = "Q1" then some emptyItem else none
    propValueType := fun _ => some "string"
    writes := fun _ => .ok (some "Q1") }

/-- A RemoveQualifier command for statement `(P1, "x")` removing the
qualifier `(P2, "qv")`. -/
def remQualCmd : Cmd :=
  { baseCmd with
    action := .remove
    operation := some .remove_qualifier
    idSlot := .entityKey (some "Q1")
    what := "statement"
    prop := "P1"
    pvalue := ⟨"string", "x"⟩
    qualifiersJ := [⟨"P2", ⟨"string", "qv"⟩⟩] }

def qualPart : RefPart := ⟨"P2", .value "qv"⟩

/-- An entity whose `(P1, "x")` statement carries the SAME qualifier
twice. -/
def entTwoQuals : Entity :=
  { emptyItem with
    statements := [("P1",
      [{ property := some "P1", value := some (.value "x")
         qualifiers := [qualPart, qualPart], references := [], rank := none }])] }

/-- The entity left after removing one of the duplicated qualifiers. -/
def entOneQualLeft : Entity :=
  { emptyItem with
    statements := [("P1",
      [{ property := some "P1", value := some (.value "x")
         qualifiers := [qualPart], references := [], rank := none }])] }

/-- The entity left after removing the last matching qualifier. -/
def entNoQualLeft : Entity :=
  { emptyItem with
    statements := [("P1",
      [{ property := some "P1", value := some (.value "x")
         qualifiers := [], references := [], rank := none }])] }

/-- An entity with exactly one `(P1, "x")` statement. -/
def entOneStmt : Entity :=
  { emptyItem with
    statements := [("P1",
      [{ property := some "P1", value := some (.value "x")
         qualifiers := [], references := [], rank := none }])] }

/-- A RemoveStatementByValue command for `(P1, "x")`. -/
def remStmtCmd : Cmd :=
  { baseCmd with
    action := .remove
    operation := some .remove_statement_by_value
    idSlot := .entityKey (some "Q1")
    what := "statement"
    prop := "P1"
    pvalue := ⟨"string", "x"⟩ }

/-- An entity whose statements dict HAS the key `P1`, mapped to an empty
list. -/
def entEmptyProp : Entity := { emptyItem with statements := [("P1", [])] }

/-- A RemoveAlias command for language `en`, value `["foo"]`. -/
def remAliasCmd : Cmd :=
  { baseCmd with
    action := .remove
    operation := some .remove_alias
    idSlot := .entityKey (some "Q1")
    what := "alias"
    language := "en"
    aliasValues := ["foo"] }

/-- An entity with aliases only for `pt` (none for `en`). -/
def entNoEnAlias : Entity := { emptyItem with aliases := [("pt", ["a"])] }

/-- A command already folded into a merge group (Running, verified). -/
def foldedCmd : Cmd :=
  { statementLine 0 "Q1" "P1" ⟨"string", "x"⟩ with
    status := .running
    valueTypeVerified := true }

/-- The chain-breaking command of that group. -/
def breakerCmd : Cmd := statementLine 1 "Q1" "P1" ⟨"string", "y"⟩

/-- A combining state holding the folded command and its document. -/
def c3St : CombSt := ⟨[foldedCmd], some emptyItem⟩

/-- The block-on-errors=false twin of `c4bBatch`. -/
def contBatch : BatchModel :=
  ⟨.initial, false, false,
    [statementLine 0 "Q1" "P1" ⟨"string", "x"⟩,
     statementLine 1 "Q1" "P1" ⟨"string", "y"⟩]⟩

/-- The C4 batch with its commands already marked value-type-verified, so
the pre-verification pass passes them through unchanged. -/
def c4vBatch : BatchModel :=
  ⟨.initial, true, true,
    [{ statementLine 0 "Q1" "P1" ⟨"string", "x"⟩ with valueTypeVerified := true },
     { statementLine 1 "Q1" "P1" ⟨"string", "y"⟩ with valueTypeVerified := true }]⟩

/-- The continue-on-errors variant (no blocking, no combining), likewise
pre-verified. -/
def contvBatch : BatchModel :=
  ⟨.initial, false, false,
    [{ statementLine 0 "Q1" "P1" ⟨"string", "x"⟩ with valueTypeVerified := true },
     { statementLine 1 "Q1" "P1" ⟨"string", "y"⟩ with valueTypeVerified := true }]⟩

/-! # Theorems -/

/-! ## Association-list facts -/

theorem Assoc.get?_setdefault_absent {α : Type} (m : Assoc α) (k : String)
    (v : α) (h : m.get? k = none) : (m.setdefault k v).get? k = some v := by
  induction m with
  | nil => simp [Assoc.setdefault, Assoc.get?]
  | cons a t ih =>
    by_cases ha : a.1 = k
    · simp [Assoc.get?, ha] at h
    · simp only [Assoc.get?, ha, if_neg, if_false] at h
      simp [Assoc.setdefault, Assoc.get?, ha, ih h]

theorem Assoc.get?_pop_setdefault {α : Type} (m : Assoc α) (k : String)
    (v : α) (h : m.get? k = none) :
    ((m.setdefault k v).pop k).get? k = none := by
  induction m with
  | nil => simp [Assoc.setdefault, Assoc.pop, h]
  | cons a t ih =>
    by_cases ha : a.1 = k
    · simp [Assoc.get?, ha] at h
    · simp only [Assoc.get?, ha, if_neg, if_false] at h
      simp [Assoc.setdefault, Assoc.pop, Assoc.get?, ha, ih h]

theorem Assoc.get?_set_self {α : Type} (m : Assoc α) (k : String) (v : α) :
    (m.set k v).get? k = some v := by
  induction m with
  | nil => simp [Assoc.set, Assoc.get?]
  | cons a t ih =>
    by_cases ha : a.1 = k <;> simp [Assoc.set, Assoc.get?, ha, ih]

/-! ## First-match facts -/

/-- Replacing the first match of a predicate with another match keeps it
the first match. -/
theorem findIdx?_set_first {α : Type} {l : List α} {p : α → Bool} {i : Nat}
    {x : α} (h : l.findIdx? p = some i) (hx : p x = true) :
    (l.set i x).findIdx? p = some i := by
  rw [List.findIdx?_eq_some_iff_getElem] at h ⊢
  obtain ⟨hi, hpi, hbefore⟩ := h
  refine ⟨by simpa using hi, ?_, ?_⟩
  · simpa [List.getElem_set_self] using hx
  · intro j hj
    rw [List.getElem_set_ne (by omega)]
    exact hbefore j hj

theorem Assoc.getD_setdefault_same {α : Type} (m : Assoc α) (k : String)
    (v : α) : (m.setdefault k v).getD k v = m.getD k v := by
  induction m with
  | nil => simp [Assoc.setdefault, Assoc.getD, Assoc.get?]
  | cons a t ih =>
    by_cases ha : a.1 = k
    · simp [Assoc.setdefault, Assoc.getD, Assoc.get?, ha]
    · simp only [Assoc.getD] at ih
      simp [Assoc.setdefault, Assoc.getD, Assoc.get?, ha, ih]

/-- With no reference parts on the command, nothing matches
`is_part_in_references`. -/
theorem findRefPart_none_of_no_refs (c : Cmd) (h : c.referencesForApi = [])
    (l : List Reference) : findRefPart c l = none := by
  have hp : ∀ x : RefPart, c.isPartInReferences x = false := by
    intro x
    simp [Cmd.isPartInReferences, h]
  have hidx : l.findIdx? (fun r => r.parts.any (c.isPartInReferences ·)) = none := by
    rw [List.findIdx?_eq_none_iff]
    intro r _
    simp [hp]
  simp [findRefPart, hidx]

/-- With no qualifiers on the command, nothing matches
`is_in_qualifiers`. -/
theorem qualIdx_none_of_no_quals (c : Cmd) (h : c.qualifiersForApi = [])
    (l : List RefPart) : l.findIdx? (c.isInQualifiers ·) = none := by
  rw [List.findIdx?_eq_none_iff]
  intro q _
  simp [Cmd.isInQualifiers, h]

/-! ## Claim C1 -/

/-- C1 (counterexample): on `CREATE||LAST|P1|Q1` with combining on and the
create returning `Q5`, it is NOT the case that command 0 ends Done with
`response_id = Q5` and command 1 ends Done with no response id (with one
remote write in total): the response id lands on command 1, the
chain-breaking command. -/
theorem claim_C1_counterexample :
    ¬ ((batchRun c1Batch c1Client).nWrites = 1 ∧
       (batchRun c1Batch c1Client).cmds.map Cmd.status = [.done, .done] ∧
       (batchRun c1Batch c1Client).cmds.map Cmd.responseId = [some "Q5", none]) := by
  decide

/-- C1 (amended): on `CREATE||LAST|P1|Q1` with combining on and the create
returning `Q5`, exactly one remote write is issued (by command 1, the
chain breaker; command 0 folds), both commands end Done, command 1 carries
`response_id = Q5`, command 0 has no response id but its payload entity id
(like command 1's) is persisted as `Q5`, and the batch finishes Done. -/
theorem claim_C1_amended :
    (batchRun c1Batch c1Client).nWrites = 1 ∧
    (batchRun c1Batch c1Client).writeLog = [1] ∧
    (batchRun c1Batch c1Client).folds = [0] ∧
    (batchRun c1Batch c1Client).cmds.map Cmd.status = [.done, .done] ∧
    (batchRun c1Batch c1Client).cmds.map Cmd.responseId = [none, some "Q5"] ∧
    (batchRun c1Batch c1Client).cmds.map Cmd.entityId = [some "Q5", some "Q5"] ∧
    (batchRun c1Batch c1Client).batchStatus = .done := by
  decide

/-! ## Claim C2, counterexample -/

/-- C2 (counterexample): in the run `CREATE (ok, id Q5); CREATE (server
error); LAST|P1|Q1`, the most recent SUCCESSFUL preceding create produced
`Q5`, yet the LAST command's payload id is never replaced (it stays
`LAST` and the command fails with `LastNotEvaluated`), because the failed
create overwrote the tracked id with its null response id. -/
theorem claim_C2_counterexample :
    (batchRun c2Batch c2Client).cmds.map Cmd.action = [.create, .create, .add] ∧
    (batchRun c2Batch c2Client).cmds.map Cmd.status = [.done, .error, .error] ∧
    (batchRun c2Batch c2Client).cmds.map Cmd.responseId = [some "Q5", none, none] ∧
    (batchRun c2Batch c2Client).cmds.map Cmd.entityId = [some "Q5", none, some "LAST"] ∧
    (batchRun c2Batch c2Client).cmds.map Cmd.cmdError =
      [none, some .api_server_error, some .last_not_evaluated] ∧
    ¬ (batchRun c2Batch c2Client).cmds.map Cmd.entityId = [some "Q5", none, some "Q5"] := by
  decide

/-! ## Claim C4, counterexample -/

/-- C4 (counterexample): with `block_on_errors = true` AND combining, the
two same-entity commands fold into one write that fails; command 0 ends
Error (CombiningFailed) and the strictly-later command 1 is Error too, not
Initial — refuting "every strictly-later command remains Initial". -/
theorem claim_C4_counterexample :
    c4Batch.blockOnErrors = true ∧
    (batchRun c4Batch c4Client).batchStatus = .blocked ∧
    (batchRun c4Batch c4Client).cmds.map Cmd.status = [.error, .error] ∧
    (batchRun c4Batch c4Client).cmds.map Cmd.cmdError =
      [some .combining_failed, some .api_server_error] ∧
    ¬ (batchRun c4Batch c4Client).cmds.map Cmd.status = [.error, .initial] := by
  decide

/-! ## Claim C6, counterexample -/

/-- C6 (counterexample): when the statement carries the same qualifier
twice, performing the same RemoveQualifier twice in sequence does NOT make
the second attempt fail: the second attempt succeeds and removes the
duplicate. -/
theorem claim_C6_counterexample :
    removeQualRef remQualCmd entTwoQuals = .ok entOneQualLeft ∧
    removeQualRef remQualCmd entOneQualLeft = .ok entNoQualLeft ∧
    ¬ removeQualRef remQualCmd entOneQualLeft = .error .noQualifiers := by
  decide

/-! ## Engine step facts -/

theorem setEntityId_status (c : Cmd) (v : Option String) :
    (c.setEntityId v).status = c.status := by
  unfold Cmd.setEntityId
  split <;> rfl

theorem setEntityId_index (c : Cmd) (v : Option String) :
    (c.setEntityId v).index = c.index := by
  unfold Cmd.setEntityId
  split <;> rfl

theorem setEntityId_cmdError (c : Cmd) (v : Option String) :
    (c.setEntityId v).cmdError = c.cmdError := by
  unfold Cmd.setEntityId
  split <;> rfl

theorem setEntityId_action (c : Cmd) (v : Option String) :
    (c.setEntityId v).action = c.action := by
  unfold Cmd.setEntityId
  split <;> rfl

theorem setEntityId_responseId (c : Cmd) (v : Option String) :
    (c.setEntityId v).responseId = c.responseId := by
  unfold Cmd.setEntityId
  split <;> rfl

theorem updateLastId_status (c : Cmd) (l : Option String) :
    (c.updateLastId l).status = c.status := by
  unfold Cmd.updateLastId
  split
  · exact setEntityId_status c l
  · rfl

theorem updateLastId_index (c : Cmd) (l : Option String) :
    (c.updateLastId l).index = c.index := by
  unfold Cmd.updateLastId
  split
  · exact setEntityId_index c l
  · rfl

theorem updateLastId_cmdError (c : Cmd) (l : Option String) :
    (c.updateLastId l).cmdError = c.cmdError := by
  unfold Cmd.updateLastId
  split
  · exact setEntityId_cmdError c l
  · rfl

theorem updateLastId_action (c : Cmd) (l : Option String) :
    (c.updateLastId l).action = c.action := by
  unfold Cmd.updateLastId
  split
  · exact setEntityId_action c l
  · rfl

theorem finish_status (c : Cmd) : (Cmd.finish c).status = CStatus.done := by
  unfold Cmd.finish
  dsimp only
  split
  · rw [setEntityId_status]
  · rfl

theorem finish_index (c : Cmd) : (Cmd.finish c).index = c.index := by
  unfold Cmd.finish
  dsimp only
  split
  · rw [setEntityId_index]
  · rfl

theorem finish_cmdError (c : Cmd) : (Cmd.finish c).cmdError = c.cmdError := by
  unfold Cmd.finish
  dsimp only
  split
  · rw [setEntityId_cmdError]
  · rfl

theorem finish_action (c : Cmd) : (Cmd.finish c).action = c.action := by
  unfold Cmd.finish
  dsimp only
  split
  · rw [setEntityId_action]
  · rfl

theorem propagateOne_status (s q : Cmd) :
    (propagateOne s q).status = s.status := by
  unfold propagateOne
  dsimp only
  split
  · rfl
  · split
    · rw [setEntityId_status]
    · rfl

theorem propagateOne_index (s q : Cmd) :
    (propagateOne s q).index = q.index := by
  unfold propagateOne
  dsimp only
  split
  · rfl
  · split
    · rw [setEntityId_index]
    · rfl

theorem propagateOne_cmdError_of_error (s q : Cmd) (h : s.status = .error) :
    (propagateOne s q).cmdError = some CError.combining_failed := by
  have hb : s.isErrorStatus = true := by simp [Cmd.isErrorStatus, h]
  unfold propagateOne
  dsimp only
  simp [hb]

theorem applyExc_status (x : Cmd) (e : Exc) :
    (applyExcToCmd x e).status = CStatus.error := by
  cases e <;>
    simp only [applyExcToCmd, Cmd.errorWithValue, Cmd.errorWithMessage] <;>
    first
    | rfl
    | (rename_i sb m
       cases sb <;>
         simp only [Cmd.errorWithValue, Cmd.errorWithMessage])

theorem applyExc_index (x : Cmd) (e : Exc) :
    (applyExcToCmd x e).index = x.index := by
  cases e <;>
    simp only [applyExcToCmd, Cmd.errorWithValue, Cmd.errorWithMessage] <;>
    first
    | rfl
    | (rename_i sb m
       cases sb <;>
         simp only [Cmd.errorWithValue, Cmd.errorWithMessage])

theorem applyExc_cmdError (x : Cmd) (e : Exc) :
    (applyExcToCmd x e).cmdError = x.cmdError ∨
      ∃ t, (applyExcToCmd x e).cmdError = some t ∧ ¬ t = CError.combining_failed := by
  cases e with
  | userErr sb m => cases sb <;> exact Or.inr ⟨_, rfl, by simp⟩
  | invalidValueType m => exact Or.inl rfl
  | nonexistantProperty m => exact Or.inl rfl
  | pyError m => exact Or.inl rfl
  | notImplemented => exact Or.inr ⟨_, rfl, by simp⟩
  | noStatementsProperty => exact Or.inr ⟨_, rfl, by simp⟩
  | noStatementsValue => exact Or.inr ⟨_, rfl, by simp⟩
  | noQualifiers => exact Or.inr ⟨_, rfl, by simp⟩
  | noReferenceParts => exact Or.inr ⟨_, rfl, by simp⟩
  | lastNotEvaluated => exact Or.inr ⟨_, rfl, by simp⟩
  | serverErr m => exact Or.inr ⟨_, rfl, by simp⟩

theorem applyExc_action (x : Cmd) (e : Exc) :
    (applyExcToCmd x e).action = x.action := by
  cases e <;>
    simp only [applyExcToCmd, Cmd.errorWithValue, Cmd.errorWithMessage] <;>
    first
    | rfl
    | (rename_i sb m
       cases sb <;>
         simp only [Cmd.errorWithValue, Cmd.errorWithMessage])

theorem verify_none_eq (cl : Client) (x : Cmd)
    (h : (verify_value_types cl x).2 = none) :
    (verify_value_types cl x).1 = { x with valueTypeVerified := true } := by
  by_cases hsv : x.shouldVerify = true
  · cases hv : verifyAll cl x with
    | ok u =>
      cases u
      simp [verify_value_types, hsv, hv]
    | error ex =>
      cases ex <;> simp [verify_value_types, hsv, hv] at h
  · simp [verify_value_types, hsv]

theorem verify_some_shape (cl : Client) (x : Cmd) (e : Exc)
    (h : (verify_value_types cl x).2 = some e) :
    (verify_value_types cl x).1 = x ∨
      ∃ m, (verify_value_types cl x).1 = x.errorWithMessage m := by
  by_cases hsv : x.shouldVerify = true
  · cases hv : verifyAll cl x with
    | ok u =>
      cases u
      simp [verify_value_types, hsv, hv] at h
    | error ex =>
      cases ex with
      | invalidValueType m => exact Or.inr ⟨m, by simp [verify_value_types, hsv, hv]⟩
      | notImplemented => exact Or.inl (by simp [verify_value_types, hsv, hv])
      | noStatementsProperty => exact Or.inl (by simp [verify_value_types, hsv, hv])
      | noStatementsValue => exact Or.inl (by simp [verify_value_types, hsv, hv])
      | noQualifiers => exact Or.inl (by simp [verify_value_types, hsv, hv])
      | noReferenceParts => exact Or.inl (by simp [verify_value_types, hsv, hv])
      | lastNotEvaluated => exact Or.inl (by simp [verify_value_types, hsv, hv])
      | userErr sb m => exact Or.inl (by simp [verify_value_types, hsv, hv])
      | serverErr m => exact Or.inl (by simp [verify_value_types, hsv, hv])
      | nonexistantProperty m => exact Or.inl (by simp [verify_value_types, hsv, hv])
      | pyError m => exact Or.inl (by simp [verify_value_types, hsv, hv])
  · simp [verify_value_types, hsv] at h

theorem errorWithMessage_cmdError (x : Cmd) (m : String) :
    (Cmd.errorWithMessage x m).cmdError = x.cmdError := rfl

theorem errorWithMessage_index (x : Cmd) (m : String) :
    (Cmd.errorWithMessage x m).index = x.index := rfl

theorem sendToApi_ok_wrote (cl : Client) (c : Cmd) (prev : Option Entity)
    (n : Nat) (v : Option String)
    (h : (sendToApi cl c prev n).result = .ok v) :
    (sendToApi cl c prev n).wrote = true := by
  by_cases hcp : c.operation = some Op.create_property
  · simp [sendToApi, hcp] at h
  · cases hme : methodAndEndpoint c with
    | error e => simp [sendToApi, hcp, hme] at h
    | ok ep =>
      cases hap : apiPayload cl c prev with
      | error e => simp [sendToApi, hcp, hme, hap] at h
      | ok body =>
        cases hw : cl.writes n with
        | ok id => simp [sendToApi, hcp, hme, hap, hw]
        | userErr sb m => simp [sendToApi, hcp, hme, hap, hw] at h
        | serverErr m => simp [sendToApi, hcp, hme, hap, hw] at h

theorem sendToApi_wrote_shape (cl : Client) (c : Cmd) (prev : Option Entity)
    (n : Nat) :
    ((sendToApi cl c prev n).wrote = false ∧ (sendToApi cl c prev n).nWrites = n) ∨
      ((sendToApi cl c prev n).wrote = true ∧
        (sendToApi cl c prev n).nWrites = n + 1) := by
  by_cases hcp : c.operation = some Op.create_property
  · exact Or.inl (by simp [sendToApi, hcp])
  · cases hme : methodAndEndpoint c with
    | error e => exact Or.inl (by simp [sendToApi, hcp, hme])
    | ok ep =>
      cases hap : apiPayload cl c prev with
      | error e => exact Or.inl (by simp [sendToApi, hcp, hme, hap])
      | ok body =>
        cases hw : cl.writes n with
        | ok id => exact Or.inr (by simp [sendToApi, hcp, hme, hap, hw])
        | userErr sb m => exact Or.inr (by simp [sendToApi, hcp, hme, hap, hw])
        | serverErr m => exact Or.inr (by simp [sendToApi, hcp, hme, hap, hw])

theorem verify_fst_index (cl : Client) (x : Cmd) :
    ((verify_value_types cl x).1).index = x.index := by
  cases hv : (verify_value_types cl x).2 with
  | none => rw [verify_none_eq cl x hv]
  | some e =>
    rcases verify_some_shape cl x e hv with h | ⟨m, h⟩ <;> rw [h] <;> rfl

theorem verify_fst_cmdError (cl : Client) (x : Cmd) :
    ((verify_value_types cl x).1).cmdError = x.cmdError := by
  cases hv : (verify_value_types cl x).2 with
  | none => rw [verify_none_eq cl x hv]
  | some e =>
    rcases verify_some_shape cl x e hv with h | ⟨m, h⟩ <;> rw [h] <;> rfl

theorem verify_fst_action (cl : Client) (x : Cmd) :
    ((verify_value_types cl x).1).action = x.action := by
  cases hv : (verify_value_types cl x).2 with
  | none => rw [verify_none_eq cl x hv]
  | some e =>
    rcases verify_some_shape cl x e hv with h | ⟨m, h⟩ <;> rw [h] <;> rfl

/-- `BatchCommand.run` on a command that already carries an Error status
only propagates backwards. -/
theorem runCommand_error_eq (cl : Client) (cc : Bool) (st : CombSt) (c : Cmd)
    (n : Nat) (h : c.status = CStatus.error) :
    runCommand cl cc st c n =
      ⟨c, (propagate c st.commands).reverse, .empty, false, [], n⟩ := by
  simp [runCommand, h]

/-- `BatchCommand.run` on a command that is neither Initial nor Error does
nothing (the combining state is silently dropped). -/
theorem runCommand_skip_eq (cl : Client) (cc : Bool) (st : CombSt) (c : Cmd)
    (n : Nat) (h1 : ¬ c.status = CStatus.error)
    (h2 : ¬ c.status = CStatus.initial) :
    runCommand cl cc st c n = ⟨c, st.commands.reverse, .empty, false, [], n⟩ := by
  simp [runCommand, h1, h2]

/-- Characterization of `BatchCommand.run` on an Initial command: it
either folds itself into the combining state (staying Running, no write),
or reaches a terminal status, resets the state, propagates that status to
the previously folded commands, and wrote exactly once when Done; its
error tag is inherited or a non-CombiningFailed one. -/
theorem runCommand_initial_spec (cl : Client) (cc : Bool) (st : CombSt)
    (c : Cmd) (n : Nat) (h : c.status = CStatus.initial) :
    (runCommand cl cc st c n).cur.index = c.index ∧
    (runCommand cl cc st c n).cur.action = c.action ∧
    ((runCommand cl cc st c n).folded = true →
      cc = true ∧
      (runCommand cl cc st c n).cur.status = CStatus.running ∧
      (runCommand cl cc st c n).emitted = [] ∧
      (runCommand cl cc st c n).newSt.commands =
        (runCommand cl cc st c n).cur :: st.commands ∧
      (runCommand cl cc st c n).wrote = [] ∧
      (runCommand cl cc st c n).nWrites = n) ∧
    ((runCommand cl cc st c n).folded = false →
      ((runCommand cl cc st c n).cur.status = CStatus.done ∨
        (runCommand cl cc st c n).cur.status = CStatus.error) ∧
      (runCommand cl cc st c n).newSt = CombSt.empty ∧
      (runCommand cl cc st c n).emitted =
        (propagate (runCommand cl cc st c n).cur st.commands).reverse ∧
      ((runCommand cl cc st c n).cur.status = CStatus.done →
        (runCommand cl cc st c n).wrote = [c.index]) ∧
      ((runCommand cl cc st c n).wrote = [] ∨
        (runCommand cl cc st c n).wrote = [c.index])) ∧
    ((runCommand cl cc st c n).cur.cmdError = c.cmdError ∨
      ∃ t, (runCommand cl cc st c n).cur.cmdError = some t ∧
        ¬ t = CError.combining_failed) := by
  have hne : ¬ c.status = CStatus.error := by simp [h]
  have hni : ¬ ¬ c.status = CStatus.initial := by simp [h]
  have hvi := verify_fst_index cl { c with status := CStatus.running }
  have hvc := verify_fst_cmdError cl { c with status := CStatus.running }
  cases hv : (verify_value_types cl { c with status := CStatus.running }).2 with
  | some e =>
    simp only [runCommand, if_neg hne, if_neg hni, hv]
    refine ⟨by rw [applyExc_index, hvi], by rw [applyExc_action, verify_fst_action],
      by intro hf; simp at hf, ?_, ?_⟩
    · intro _
      refine ⟨Or.inr (applyExc_status _ _), by trivial, by trivial, ?_,
        Or.inl (by trivial)⟩
      intro hd
      rw [applyExc_status] at hd
      simp at hd
    · rcases applyExc_cmdError (verify_value_types cl { c with status := CStatus.running }).1 e
        with hh | ⟨t, ht, hnt⟩
      · exact Or.inl (by rw [hh, hvc])
      · exact Or.inr ⟨t, ht, hnt⟩
  | none =>
    have hv1 := verify_none_eq cl { c with status := CStatus.running } hv
    by_cases hcc : cc = true
    · subst hcc
      cases hg : getFinalEntityJson cl
          { c with status := CStatus.running, valueTypeVerified := true } st.entity with
      | ok ent =>
        simp only [runCommand, if_neg hne, if_neg hni, hv, hv1, if_true, hg]
        exact ⟨by trivial, by trivial,
          fun _ => ⟨by trivial, by trivial, by trivial, by trivial, by trivial,
            by trivial⟩,
          fun hf => by simp at hf,
          Or.inl (by trivial)⟩
      | error e =>
        simp only [runCommand, if_neg hne, if_neg hni, hv, hv1, if_true, hg]
        refine ⟨by rw [applyExc_index], by rw [applyExc_action],
          by intro hf; simp at hf, ?_, ?_⟩
        · intro _
          refine ⟨Or.inr (applyExc_status _ _), by trivial, by trivial, ?_,
            Or.inl (by trivial)⟩
          intro hd
          rw [applyExc_status] at hd
          simp at hd
        · rcases applyExc_cmdError
              { c with status := CStatus.running, valueTypeVerified := true } e
            with hh | ⟨t, ht, hnt⟩
          · exact Or.inl hh
          · exact Or.inr ⟨t, ht, hnt⟩
    · have hccf : cc = false := by simpa using hcc
      subst hccf
      cases hr : (sendToApi cl
          { c with status := CStatus.running, valueTypeVerified := true }
          st.entity n).result with
      | ok id =>
        have hw := sendToApi_ok_wrote cl
          { c with status := CStatus.running, valueTypeVerified := true }
          st.entity n id hr
        simp only [runCommand, if_neg hne, if_neg hni, hv, hv1, Bool.false_eq_true,
          if_false, hr, hw, if_true]
        refine ⟨by rw [finish_index], by rw [finish_action],
          by intro hf; simp at hf, ?_, ?_⟩
        · intro _
          exact ⟨Or.inl (finish_status _), by trivial, by trivial,
            fun _ => by trivial, Or.inr (by trivial)⟩
        · exact Or.inl (by rw [finish_cmdError])
      | error e =>
        simp only [runCommand, if_neg hne, if_neg hni, hv, hv1, Bool.false_eq_true,
          if_false, hr]
        refine ⟨by rw [applyExc_index], by rw [applyExc_action],
          by intro hf; simp at hf, ?_, ?_⟩
        · intro _
          refine ⟨Or.inr (applyExc_status _ _), by trivial, by trivial, ?_, ?_⟩
          · intro hd
            rw [applyExc_status] at hd
            simp at hd
          · cases hws : (sendToApi cl
                { c with status := CStatus.running, valueTypeVerified := true }
                st.entity n).wrote
            · exact Or.inl (by simp [hws])
            · exact Or.inr (by simp [hws])
        · rcases applyExc_cmdError
              { c with status := CStatus.running, valueTypeVerified := true } e
            with hh | ⟨t, ht, hnt⟩
          · exact Or.inl hh
          · exact Or.inr ⟨t, ht, hnt⟩

/-- With `combine_commands=false`, `check_combination` is always false. -/
theorem check_combination_false_eq (c : Cmd) (next? : Option Cmd) :
    check_combination false c next? = false := by
  simp [check_combination]

/-- With combining off, `BatchCommand.run` never folds. -/
theorem runCommand_false_folded (cl : Client) (st : CombSt) (c : Cmd)
    (n : Nat) : (runCommand cl false st c n).folded = false := by
  by_cases he : c.status = CStatus.error
  · rw [runCommand_error_eq cl false st c n he]
  · by_cases hi : c.status = CStatus.initial
    · cases hfq : (runCommand cl false st c n).folded
      · rfl
      · have := ((runCommand_initial_spec cl false st c n hi).2.2.1 hfq).1
        simp at this
    · rw [runCommand_skip_eq cl false st c n he hi]

/-- With combining off, `BatchCommand.run` leaves an empty combining
state. -/
theorem runCommand_false_newSt (cl : Client) (st : CombSt) (c : Cmd)
    (n : Nat) : (runCommand cl false st c n).newSt = CombSt.empty := by
  by_cases he : c.status = CStatus.error
  · rw [runCommand_error_eq cl false st c n he]
  · by_cases hi : c.status = CStatus.initial
    · exact ((runCommand_initial_spec cl false st c n hi).2.2.2.1
        (runCommand_false_folded cl st c n)).2.1
    · rw [runCommand_skip_eq cl false st c n he hi]

/-- Started on an empty combining state, `BatchCommand.run` emits no
previously folded commands. -/
theorem runCommand_empty_emitted (cl : Client) (cc : Bool) (c : Cmd)
    (n : Nat) : (runCommand cl cc CombSt.empty c n).emitted = [] := by
  by_cases he : c.status = CStatus.error
  · rw [runCommand_error_eq cl cc CombSt.empty c n he]
    rfl
  · by_cases hi : c.status = CStatus.initial
    · cases hfq : (runCommand cl cc CombSt.empty c n).folded
      · rw [((runCommand_initial_spec cl cc CombSt.empty c n hi).2.2.2.1 hfq).2.2.1]
        rfl
      · exact ((runCommand_initial_spec cl cc CombSt.empty c n hi).2.2.1 hfq).2.2.1
    · rw [runCommand_skip_eq cl cc CombSt.empty c n he hi]
      rfl

/-- With combining off, a command that (newly) reaches Done logged exactly
its own remote write. -/
theorem runCommand_done_wrote (cl : Client) (st : CombSt) (c : Cmd) (n : Nat)
    (hnd : ¬ c.status = CStatus.done)
    (hd : (runCommand cl false st c n).cur.status = CStatus.done) :
    (runCommand cl false st c n).wrote = [c.index] := by
  by_cases he : c.status = CStatus.error
  · rw [runCommand_error_eq cl false st c n he] at hd
    rw [he] at hd
    simp at hd
  · by_cases hi : c.status = CStatus.initial
    · exact ((runCommand_initial_spec cl false st c n hi).2.2.2.1
        (runCommand_false_folded cl st c n)).2.2.2.1 hd
    · rw [runCommand_skip_eq cl false st c n he hi] at hd
      exact absurd hd hnd

/-- The main loop with combining off, started with an empty combining
state: nothing folds, and every command left Done had its own index
logged as a remote write. -/
theorem runLoop_nofold (block : Bool) (cl : Client) (cmds : List Cmd) :
    ∀ (lastId : Option String) (n : Nat),
      (∀ c ∈ cmds, ¬ c.status = CStatus.done) →
      (runLoop block false cl cmds CombSt.empty lastId n).folds = [] ∧
      (∀ p ∈ (runLoop block false cl cmds CombSt.empty lastId n).cmds,
        p.status = CStatus.done →
        p.index ∈ (runLoop block false cl cmds CombSt.empty lastId n).writeLog) := by
  induction cmds with
  | nil =>
    intro lastId n _
    simp [runLoop, CombSt.empty]
  | cons c rest ih =>
    intro lastId n hnd
    have hndc : ¬ c.status = CStatus.done := hnd c (List.mem_cons_self c rest)
    have hndr : ∀ x ∈ rest, ¬ x.status = CStatus.done :=
      fun x hx => hnd x (List.mem_cons_of_mem c hx)
    have hc1s := updateLastId_status c lastId
    have hc1i := updateLastId_index c lastId
    have hfold := runCommand_false_folded cl CombSt.empty (c.updateLastId lastId) n
    have hnew := runCommand_false_newSt cl CombSt.empty (c.updateLastId lastId) n
    have hemit := runCommand_empty_emitted cl false (c.updateLastId lastId) n
    simp only [runLoop, check_combination_false_eq, hfold, hemit, hnew,
      Bool.false_eq_true, if_false, List.nil_append]
    by_cases hblk :
        (runCommand cl false CombSt.empty (c.updateLastId lastId) n).cur.isErrorStatus =
          true ∧ block = true
    · rw [if_pos hblk]
      refine ⟨rfl, ?_⟩
      intro p hp hpd
      have hcurerr :
          (runCommand cl false CombSt.empty (c.updateLastId lastId) n).cur.status =
            CStatus.error := by
        have := hblk.1
        simpa [Cmd.isErrorStatus] using this
      rcases List.mem_cons.mp hp with rfl | hpr
      · rw [hcurerr] at hpd
        simp at hpd
      · exact absurd hpd (hndr p hpr)
    · rw [if_neg hblk]
      obtain ⟨ihf, ihw⟩ := ih _ _ hndr
      refine ⟨ihf, ?_⟩
      intro p hp hpd
      rcases List.mem_cons.mp hp with rfl | hpr
      · by_cases hstat : (c.updateLastId lastId).status = CStatus.initial
        · have hw := runCommand_done_wrote cl CombSt.empty (c.updateLastId lastId) n
            (by rw [hc1s]; exact hndc) hpd
          have hix := (runCommand_initial_spec cl false CombSt.empty
            (c.updateLastId lastId) n hstat).1
          refine List.mem_append_left _ ?_
          rw [hix, hc1i, hw, hc1i]
          exact List.mem_singleton_self _
        · by_cases herrs : (c.updateLastId lastId).status = CStatus.error
          · rw [runCommand_error_eq cl false CombSt.empty
              (c.updateLastId lastId) n herrs] at hpd
            exact absurd hpd (by simp [herrs])
          · rw [runCommand_skip_eq cl false CombSt.empty
              (c.updateLastId lastId) n herrs hstat] at hpd
            exact absurd hpd (by simpa [hc1s] using hndc)
      · exact List.mem_append_right _ (ihw p hpr hpd)

/-- `verify_value_types` never turns a command Done. -/
theorem verify_fst_not_done (cl : Client) (x : Cmd)
    (h : ¬ x.status = CStatus.done) :
    ¬ ((verify_value_types cl x).1).status = CStatus.done := by
  cases hv : (verify_value_types cl x).2 with
  | none => rw [verify_none_eq cl x hv]; exact h
  | some e =>
    rcases verify_some_shape cl x e hv with hh | ⟨m, hh⟩
    · rw [hh]; exact h
    · rw [hh]; simp [Cmd.errorWithMessage]

/-- The pre-verification pass never turns a command Done. -/
theorem preVerify_not_done (cl : Client) (block : Bool) (l : List Cmd) :
    (∀ c ∈ l, ¬ c.status = CStatus.done) →
    ∀ p ∈ (preVerify cl block l).1, ¬ p.status = CStatus.done := by
  induction l with
  | nil => intro _ p hp; simp [preVerify] at hp
  | cons c rest ih =>
    intro hnd p hp
    have hndc : ¬ c.status = CStatus.done := hnd c (List.mem_cons_self c rest)
    have hndr : ∀ x ∈ rest, ¬ x.status = CStatus.done :=
      fun x hx => hnd x (List.mem_cons_of_mem c hx)
    by_cases hvv : c.valueTypeVerified = true
    · simp only [preVerify, hvv, if_true] at hp
      rcases List.mem_cons.mp hp with rfl | hpr
      · exact hndc
      · exact ih hndr p hpr
    · simp only [preVerify, hvv, Bool.false_eq_true, if_false] at hp
      cases hv : (verify_value_types cl c).2 with
      | some e =>
        simp only [hv] at hp
        by_cases hb : block = true
        · rw [if_pos hb] at hp
          rcases List.mem_cons.mp hp with rfl | hpr
          · exact verify_fst_not_done cl c hndc
          · exact hndr p hpr
        · rw [if_neg hb] at hp
          rcases List.mem_cons.mp hp with rfl | hpr
          · exact verify_fst_not_done cl c hndc
          · exact ih hndr p hpr
      | none =>
        simp only [hv] at hp
        rcases List.mem_cons.mp hp with rfl | hpr
        · exact verify_fst_not_done cl c hndc
        · exact ih hndr p hpr

/-- Members of a merged command list come from the loop output or from the
untouched originals. -/
theorem mergeByIndex_mem (orig upd : List Cmd) (p : Cmd)
    (hp : p ∈ mergeByIndex orig upd) : p ∈ upd ∨ p ∈ orig := by
  unfold mergeByIndex at hp
  obtain ⟨c, hc, hpc⟩ := List.mem_map.mp hp
  cases hf : upd.find? (fun u => u.index = c.index) with
  | none =>
    rw [hf] at hpc
    exact Or.inr (hpc ▸ hc)
  | some u =>
    rw [hf] at hpc
    exact Or.inl (hpc ▸ List.mem_of_find?_eq_some hf)

/-- On fully pre-verified commands the verification pass is the
identity. -/
theorem preVerify_verified (cl : Client) (blk : Bool) (l : List Cmd)
    (h : ∀ c ∈ l, c.valueTypeVerified = true) :
    preVerify cl blk l = (l, false) := by
  induction l with
  | nil => rfl
  | cons c rest ih =>
    have hc := h c (List.mem_cons_self c rest)
    have ihr := ih (fun x hx => h x (List.mem_cons_of_mem c hx))
    simp [preVerify, hc, ihr]

/-- Filtering out Done commands from an all-Initial list is the
identity. -/
theorem filter_not_done_of_initial (l : List Cmd)
    (h : ∀ c ∈ l, c.status = CStatus.initial) :
    l.filter (fun c => ¬ c.status = CStatus.done) = l :=
  List.filter_eq_self.mpr (fun a ha => by simp [h a ha])

/-- Propagation preserves the index sequence. -/
theorem propagate_indices (s : Cmd) (l : List Cmd) :
    (propagate s l).map Cmd.index = l.map Cmd.index := by
  simp [propagate, List.map_map, Function.comp, propagateOne_index]

/-- `BatchCommand.run` preserves the command's index. -/
theorem runCommand_cur_index (cl : Client) (cc : Bool) (st : CombSt)
    (c : Cmd) (n : Nat) : (runCommand cl cc st c n).cur.index = c.index := by
  by_cases he : c.status = CStatus.error
  · rw [runCommand_error_eq cl cc st c n he]
  · by_cases hi : c.status = CStatus.initial
    · exact (runCommand_initial_spec cl cc st c n hi).1
    · rw [runCommand_skip_eq cl cc st c n he hi]

/-- When `BatchCommand.run` does not fold, its emitted commands carry
exactly the indices of the previously folded state, oldest first. -/
theorem runCommand_emitted_indices (cl : Client) (cc : Bool) (st : CombSt)
    (c : Cmd) (n : Nat) (h : (runCommand cl cc st c n).folded = false) :
    (runCommand cl cc st c n).emitted.map Cmd.index =
      st.commands.reverse.map Cmd.index := by
  by_cases he : c.status = CStatus.error
  · rw [runCommand_error_eq cl cc st c n he]
    show ((propagate c st.commands).reverse.map Cmd.index) = _
    rw [List.map_reverse, List.map_reverse, propagate_indices]
  · by_cases hi : c.status = CStatus.initial
    · rw [((runCommand_initial_spec cl cc st c n hi).2.2.2.1 h).2.2.1]
      rw [List.map_reverse, List.map_reverse, propagate_indices]
    · rw [runCommand_skip_eq cl cc st c n he hi]

/-- When the updated commands carry the same index sequence as the
originals and indices are unique, merging by index returns exactly the
updated list. -/
theorem mergeByIndex_self (orig : List Cmd) :
    ∀ upd : List Cmd, upd.map Cmd.index = orig.map Cmd.index →
      (orig.map Cmd.index).Nodup → mergeByIndex orig upd = upd := by
  induction orig with
  | nil =>
    intro upd hidx _
    cases upd with
    | nil => rfl
    | cons u us => simp at hidx
  | cons c cs ih =>
    intro upd hidx hnd
    cases upd with
    | nil => simp at hidx
    | cons u us =>
      simp only [List.map_cons, List.cons.injEq] at hidx
      obtain ⟨hu, hus⟩ := hidx
      simp only [List.map_cons, List.nodup_cons] at hnd
      obtain ⟨hcn, hnd2⟩ := hnd
      unfold mergeByIndex
      simp only [List.map_cons]
      congr 1
      · rw [List.find?_cons_of_pos _ (by simp [hu])]
        rfl
      · have hpt : ∀ c2 ∈ cs,
            (((u :: us).find? (fun x => x.index = c2.index)).getD c2) =
              ((us.find? (fun x => x.index = c2.index)).getD c2) := by
          intro c2 hc2
          rw [List.find?_cons_of_neg]
          simp only [hu, decide_eq_true_eq]
          intro hq
          exact hcn (by rw [hq]; exact List.mem_map_of_mem Cmd.index hc2)
        rw [List.map_congr_left hpt]
        exact ih us hus hnd2

/-- A non-folding `BatchCommand.run` resets the combining state. -/
theorem runCommand_nonfold_newSt (cl : Client) (cc : Bool) (st : CombSt)
    (c : Cmd) (n : Nat) (h : (runCommand cl cc st c n).folded = false) :
    (runCommand cl cc st c n).newSt = CombSt.empty := by
  by_cases he : c.status = CStatus.error
  · rw [runCommand_error_eq cl cc st c n he]
  · by_cases hi : c.status = CStatus.initial
    · exact ((runCommand_initial_spec cl cc st c n hi).2.2.2.1 h).2.1
    · rw [runCommand_skip_eq cl cc st c n he hi]

/-- Only an Initial command can fold. -/
theorem runCommand_folded_initial (cl : Client) (cc : Bool) (st : CombSt)
    (c : Cmd) (n : Nat) (h : (runCommand cl cc st c n).folded = true) :
    c.status = CStatus.initial := by
  by_cases he : c.status = CStatus.error
  · rw [runCommand_error_eq cl cc st c n he] at h
    simp at h
  · by_cases hi : c.status = CStatus.initial
    · exact hi
    · rw [runCommand_skip_eq cl cc st c n he hi] at h
      simp at h

/-- What a folding `BatchCommand.run` guarantees: combining was possible,
the command stays Running with no write, and it is pushed onto the
combining state. -/
theorem runCommand_folded_spec (cl : Client) (cc : Bool) (st : CombSt)
    (c : Cmd) (n : Nat) (h : (runCommand cl cc st c n).folded = true) :
    cc = true ∧
    (runCommand cl cc st c n).cur.status = CStatus.running ∧
    (runCommand cl cc st c n).emitted = [] ∧
    (runCommand cl cc st c n).newSt.commands =
      (runCommand cl cc st c n).cur :: st.commands ∧
    (runCommand cl cc st c n).wrote = [] ∧
    (runCommand cl cc st c n).nWrites = n :=
  (runCommand_initial_spec cl cc st c n
    (runCommand_folded_initial cl cc st c n h)).2.2.1 h

/-- `check_combination` is false when there is no next command. -/
theorem check_combination_none (combine : Bool) (c : Cmd) :
    check_combination combine c none = false := by
  simp [check_combination]

/-- The main loop's output command list carries exactly the indices of the
pending folded state followed by those of the remaining commands. -/
theorem runLoop_indices (block combine : Bool) (cl : Client) (cmds : List Cmd) :
    ∀ (st : CombSt) (lastId : Option String) (n : Nat),
      (runLoop block combine cl cmds st lastId n).cmds.map Cmd.index =
        st.commands.reverse.map Cmd.index ++ cmds.map Cmd.index := by
  induction cmds with
  | nil =>
    intro st lastId n
    simp [runLoop]
  | cons c rest ih =>
    intro st lastId n
    simp only [runLoop]
    by_cases hblk : (runCommand cl (check_combination combine c rest.head?) st
        (c.updateLastId lastId) n).cur.isErrorStatus = true ∧ block = true
    · rw [if_pos hblk]
      have herr : (runCommand cl (check_combination combine c rest.head?) st
          (c.updateLastId lastId) n).cur.status = CStatus.error := by
        simpa [Cmd.isErrorStatus] using hblk.1
      have hfold : (runCommand cl (check_combination combine c rest.head?) st
          (c.updateLastId lastId) n).folded = false := by
        cases hfq : (runCommand cl (check_combination combine c rest.head?) st
            (c.updateLastId lastId) n).folded
        · rfl
        · have := (runCommand_folded_spec cl _ st _ n hfq).2.1
          rw [this] at herr
          simp at herr
      simp only [List.map_append, List.map_cons,
        runCommand_emitted_indices cl _ st _ n hfold,
        runCommand_cur_index, updateLastId_index]
    · rw [if_neg hblk]
      cases hfq : (runCommand cl (check_combination combine c rest.head?) st
          (c.updateLastId lastId) n).folded
      · have hnew := runCommand_nonfold_newSt cl _ st _ n hfq
        simp only [hfq, Bool.false_eq_true, if_false, hnew, List.map_append,
          List.map_cons, runCommand_emitted_indices cl _ st _ n hfq,
          runCommand_cur_index, updateLastId_index, ih]
        simp [CombSt.empty]
      · obtain ⟨_, _, _, hpush, _, _⟩ := runCommand_folded_spec cl _ st _ n hfq
        simp only [hfq, if_true, List.nil_append, ih, hpush, List.reverse_cons,
          List.map_append, List.map_cons, List.map_nil,
          runCommand_cur_index, updateLastId_index]
        simp

/-- With `block_on_errors=false` the main loop never blocks and drives
every fresh command to a terminal status. -/
theorem runLoop_all_terminal (combine : Bool) (cl : Client) (cmds : List Cmd) :
    ∀ (st : CombSt) (lastId : Option String) (n : Nat),
      (∀ c ∈ cmds, c.status = CStatus.initial) →
      (cmds = [] → st.commands = []) →
      (runLoop false combine cl cmds st lastId n).blockedBy = none ∧
      ∀ p ∈ (runLoop false combine cl cmds st lastId n).cmds,
        p.status = CStatus.done ∨ p.status = CStatus.error := by
  induction cmds with
  | nil =>
    intro st lastId n _ hemp
    simp [runLoop, hemp rfl]
  | cons c rest ih =>
    intro st lastId n hfresh hemp
    have hfc : c.status = CStatus.initial := hfresh c (List.mem_cons_self c rest)
    have hfr : ∀ x ∈ rest, x.status = CStatus.initial :=
      fun x hx => hfresh x (List.mem_cons_of_mem c hx)
    have hc1 : (c.updateLastId lastId).status = CStatus.initial := by
      rw [updateLastId_status]; exact hfc
    simp only [runLoop]
    rw [if_neg (by simp)]
    cases hfq : (runCommand cl (check_combination combine c rest.head?) st
        (c.updateLastId lastId) n).folded
    · have hnew := runCommand_nonfold_newSt cl _ st _ n hfq
      have hterm := ((runCommand_initial_spec cl _ st _ n hc1).2.2.2.1 hfq).1
      have hemit := ((runCommand_initial_spec cl _ st _ n hc1).2.2.2.1 hfq).2.2.1
      obtain ⟨ihb, ihp⟩ := ih (runCommand cl (check_combination combine c rest.head?) st
          (c.updateLastId lastId) n).newSt
        (if c.action = Action.create then (runCommand cl
          (check_combination combine c rest.head?) st
          (c.updateLastId lastId) n).cur.responseId else lastId)
        (runCommand cl (check_combination combine c rest.head?) st
          (c.updateLastId lastId) n).nWrites
        hfr (fun _ => by rw [hnew]; rfl)
      simp only [hfq, Bool.false_eq_true, if_false]
      refine ⟨ihb, ?_⟩
      intro p hp
      rcases List.mem_append.mp hp with hl | hr
      · rcases List.mem_append.mp hl with hel | hcl
        · rw [hemit, List.mem_reverse] at hel
          obtain ⟨q, _, rfl⟩ := List.mem_map.mp hel
          rw [propagateOne_status]
          exact hterm
        · rw [List.mem_singleton.mp hcl]
          exact hterm
      · exact ihp p hr
    · have hcc := (runCommand_folded_spec cl _ st _ n hfq).1
      have hpush := (runCommand_folded_spec cl _ st _ n hfq).2.2.2.1
      have hemp2 : rest = [] → (runCommand cl
          (check_combination combine c rest.head?) st
          (c.updateLastId lastId) n).newSt.commands = [] := by
        intro hre
        exfalso
        rw [hre] at hcc
        simp [check_combination] at hcc
      obtain ⟨ihb, ihp⟩ := ih (runCommand cl (check_combination combine c rest.head?) st
          (c.updateLastId lastId) n).newSt
        (if c.action = Action.create then (runCommand cl
          (check_combination combine c rest.head?) st
          (c.updateLastId lastId) n).cur.responseId else lastId)
        (runCommand cl (check_combination combine c rest.head?) st
          (c.updateLastId lastId) n).nWrites
        hfr hemp2
      simp only [hfq, if_true]
      refine ⟨ihb, ?_⟩
      intro p hp
      exact ihp p (by simpa using hp)

/-- With `block_on_errors=true`, a run of fresh commands that did not
block contains no Error command. -/
theorem runLoop_noerror (combine : Bool) (cl : Client) (cmds : List Cmd) :
    ∀ (st : CombSt) (lastId : Option String) (n : Nat),
      (∀ c ∈ cmds, c.status = CStatus.initial) →
      (∀ q ∈ st.commands, ¬ q.status = CStatus.error) →
      (runLoop true combine cl cmds st lastId n).blockedBy = none →
      ∀ p ∈ (runLoop true combine cl cmds st lastId n).cmds,
        ¬ p.status = CStatus.error := by
  induction cmds with
  | nil =>
    intro st lastId n _ hst _ p hp
    simp only [runLoop] at hp
    exact hst p (List.mem_reverse.mp hp)
  | cons c rest ih =>
    intro st lastId n hfresh hst hbb p hp
    have hfc : c.status = CStatus.initial := hfresh c (List.mem_cons_self c rest)
    have hfr : ∀ x ∈ rest, x.status = CStatus.initial :=
      fun x hx => hfresh x (List.mem_cons_of_mem c hx)
    have hc1 : (c.updateLastId lastId).status = CStatus.initial := by
      rw [updateLastId_status]; exact hfc
    simp only [runLoop] at hbb hp
    split at hbb
    next hblk =>
      simp at hbb
    next hblk =>
      rw [if_neg hblk] at hp
      have hnerr : ¬ (runCommand cl (check_combination combine c rest.head?) st
          (c.updateLastId lastId) n).cur.status = CStatus.error := by
        intro h
        exact hblk ⟨by simp [Cmd.isErrorStatus, h], by trivial⟩
      cases hfq : (runCommand cl (check_combination combine c rest.head?) st
          (c.updateLastId lastId) n).folded
      · have hnew := runCommand_nonfold_newSt cl _ st _ n hfq
        have hemit := ((runCommand_initial_spec cl _ st _ n hc1).2.2.2.1 hfq).2.2.1
        simp only [hfq, Bool.false_eq_true, if_false] at hp
        rcases List.mem_append.mp hp with hl | hr
        · rcases List.mem_append.mp hl with hel | hcl
          · rw [hemit, List.mem_reverse] at hel
            obtain ⟨q, _, rfl⟩ := List.mem_map.mp hel
            rw [propagateOne_status]
            exact hnerr
          · rw [List.mem_singleton.mp hcl]
            exact hnerr
        · exact ih _ _ _ hfr (fun q hq => by rw [hnew] at hq; simp [CombSt.empty] at hq)
            hbb p hr
      · have hpush := (runCommand_folded_spec cl _ st _ n hfq).2.2.2.1
        have hrun := (runCommand_folded_spec cl _ st _ n hfq).2.1
        simp only [hfq, if_true] at hp
        refine ih _ _ _ hfr ?_ hbb p (by simpa using hp)
        intro q hq
        rw [hpush] at hq
        rcases List.mem_cons.mp hq with rfl | hq2
        · rw [hrun]
          simp
        · exact hst q hq2

/-- With `block_on_errors=true`, when a run of fresh commands blocks, its
output splits as: a prefix of commands that are Done or Error with
CombiningFailed, then the blocking command (Error, carrying the reported
index), then the untouched strictly-later commands, all still Initial. -/
theorem runLoop_blocked_tail (combine : Bool) (cl : Client) (cmds : List Cmd) :
    ∀ (st : CombSt) (lastId : Option String) (n : Nat) (bi : Nat),
      (∀ c ∈ cmds, c.status = CStatus.initial) →
      (runLoop true combine cl cmds st lastId n).blockedBy = some bi →
      ∃ pre cur rest2,
        (runLoop true combine cl cmds st lastId n).cmds = pre ++ cur :: rest2 ∧
        cur.index = bi ∧ cur.status = CStatus.error ∧
        (∀ p ∈ pre, p.status = CStatus.done ∨
          (p.status = CStatus.error ∧ p.cmdError = some CError.combining_failed)) ∧
        (∀ p ∈ rest2, p.status = CStatus.initial) := by
  induction cmds with
  | nil =>
    intro st lastId n bi _ hbb
    simp [runLoop] at hbb
  | cons c rest ih =>
    intro st lastId n bi hfresh hbb
    have hfc : c.status = CStatus.initial := hfresh c (List.mem_cons_self c rest)
    have hfr : ∀ x ∈ rest, x.status = CStatus.initial :=
      fun x hx => hfresh x (List.mem_cons_of_mem c hx)
    have hc1 : (c.updateLastId lastId).status = CStatus.initial := by
      rw [updateLastId_status]; exact hfc
    simp only [runLoop] at hbb ⊢
    split at hbb
    next hblk =>
      rw [if_pos hblk]
      have herr : (runCommand cl (check_combination combine c rest.head?) st
          (c.updateLastId lastId) n).cur.status = CStatus.error := by
        simpa [Cmd.isErrorStatus] using hblk.1
      have hfold : (runCommand cl (check_combination combine c rest.head?) st
          (c.updateLastId lastId) n).folded = false := by
        cases hfq : (runCommand cl (check_combination combine c rest.head?) st
            (c.updateLastId lastId) n).folded
        · rfl
        · have := (runCommand_folded_spec cl _ st _ n hfq).2.1
          rw [this] at herr
          simp at herr
      have hemit := ((runCommand_initial_spec cl _ st _ n hc1).2.2.2.1 hfold).2.2.1
      have hbi : c.index = bi := by simpa using hbb
      refine ⟨(runCommand cl (check_combination combine c rest.head?) st
          (c.updateLastId lastId) n).emitted,
        (runCommand cl (check_combination combine c rest.head?) st
          (c.updateLastId lastId) n).cur, rest, by trivial, ?_, herr, ?_,
        fun p hp => hfresh p (List.mem_cons_of_mem c hp)⟩
      · rw [runCommand_cur_index, updateLastId_index, hbi]
      · intro p hp
        rw [hemit, List.mem_reverse] at hp
        obtain ⟨q, _, rfl⟩ := List.mem_map.mp hp
        exact Or.inr ⟨by rw [propagateOne_status]; exact herr,
          propagateOne_cmdError_of_error _ _ herr⟩
    next hblk =>
      rw [if_neg hblk]
      have hnerr : ¬ (runCommand cl (check_combination combine c rest.head?) st
          (c.updateLastId lastId) n).cur.status = CStatus.error := by
        intro h
        exact hblk ⟨by simp [Cmd.isErrorStatus, h], by trivial⟩
      obtain ⟨pre, cur2, rest2, heq, hbi2, herr2, hpre, hrest2⟩ :=
        ih _ _ _ bi hfr hbb
      cases hfq : (runCommand cl (check_combination combine c rest.head?) st
          (c.updateLastId lastId) n).folded
      · have hterm := ((runCommand_initial_spec cl _ st _ n hc1).2.2.2.1 hfq).1
        have hemit := ((runCommand_initial_spec cl _ st _ n hc1).2.2.2.1 hfq).2.2.1
        have hdone : (runCommand cl (check_combination combine c rest.head?) st
            (c.updateLastId lastId) n).cur.status = CStatus.done := by
          rcases hterm with h | h
          · exact h
          · exact absurd h hnerr
        refine ⟨((runCommand cl (check_combination combine c rest.head?) st
            (c.updateLastId lastId) n).emitted ++
          [(runCommand cl (check_combination combine c rest.head?) st
            (c.updateLastId lastId) n).cur]) ++ pre, cur2, rest2, ?_, hbi2, herr2,
          ?_, hrest2⟩
        · simp only [hfq, Bool.false_eq_true, if_false]
          rw [heq]
          simp [List.append_assoc]
        · intro p hp
          rcases List.mem_append.mp hp with hl | hr
          · rcases List.mem_append.mp hl with hel | hcl
            · rw [hemit, List.mem_reverse] at hel
              obtain ⟨q, _, rfl⟩ := List.mem_map.mp hel
              rw [propagateOne_status]
              exact Or.inl hdone
            · rw [List.mem_singleton.mp hcl]
              exact Or.inl hdone
          · exact hpre p hr
      · refine ⟨pre, cur2, rest2, ?_, hbi2, herr2, hpre, hrest2⟩
        simp only [hfq, if_true]
        rw [List.nil_append, heq]

/-- On a runnable batch (Initial status, authorized client, pre-verified
fresh commands) `Batch.run` reduces to the main loop over all commands:
the final commands are the merged loop output, the trace is the loop's,
and the batch status is Blocked exactly when the loop blocked, otherwise
Done exactly when no command is left Initial. -/
theorem batchRun_main_cases (b : BatchModel) (cl : Client)
    (hready : b.status = BStatus.initial) (htok : cl.hasToken = true)
    (hauto : cl.isAutoconfirmed = true)
    (hver : ∀ c ∈ b.cmds, c.valueTypeVerified = true)
    (hfresh : ∀ c ∈ b.cmds, c.status = CStatus.initial) :
    (batchRun b cl).cmds = mergeByIndex b.cmds
        (runLoop b.blockOnErrors b.combineCommands cl b.cmds CombSt.empty none 0).cmds ∧
    (batchRun b cl).steps =
        (runLoop b.blockOnErrors b.combineCommands cl b.cmds CombSt.empty none 0).steps ∧
    ((batchRun b cl).batchStatus = BStatus.blocked ↔
      ¬ (runLoop b.blockOnErrors b.combineCommands cl b.cmds CombSt.empty none 0).blockedBy = none) ∧
    ((runLoop b.blockOnErrors b.combineCommands cl b.cmds CombSt.empty none 0).blockedBy = none →
      ((batchRun b cl).batchStatus = BStatus.done ↔
        ∀ p ∈ mergeByIndex b.cmds
          (runLoop b.blockOnErrors b.combineCommands cl b.cmds CombSt.empty none 0).cmds,
          ¬ p.status = CStatus.initial)) := by
  unfold batchRun
  rw [if_neg (by simp [hready]), if_neg (by simp [htok]), if_neg (by simp [hauto])]
  simp only [preVerify_verified cl b.blockOnErrors b.cmds hver,
    Bool.false_eq_true, if_false, filter_not_done_of_initial b.cmds hfresh]
  cases hbb : (runLoop b.blockOnErrors b.combineCommands cl b.cmds CombSt.empty none 0).blockedBy with
  | some bi =>
    simp only [hbb]
    refine ⟨by trivial, by trivial, by simp, ?_⟩
    intro h
    exact absurd h (Option.some_ne_none bi)
  | none =>
    simp only [hbb]
    by_cases hany : (mergeByIndex b.cmds
        (runLoop b.blockOnErrors b.combineCommands cl b.cmds CombSt.empty none 0).cmds).any
          (fun c => c.status = CStatus.initial) = true
    · rw [if_pos hany]
      refine ⟨by trivial, by trivial, by simp, ?_⟩
      intro _
      refine iff_of_false (by simp) ?_
      intro hall
      obtain ⟨p, hp, hps⟩ := List.any_eq_true.mp hany
      exact hall p hp (of_decide_eq_true hps)
    · rw [if_neg hany]
      refine ⟨by trivial, by trivial, by simp, ?_⟩
      intro _
      refine iff_of_true rfl ?_
      intro p hp hini
      exact hany (List.any_eq_true.mpr ⟨p, hp, decide_eq_true hini⟩)

/-- `Batch.run` ends in one of three shapes: untouched commands (not
runnable / token or autoconfirmed check failed), the pre-verified commands
(verification blocked), or the merged main-loop output. -/
theorem batchRun_shape (b : BatchModel) (cl : Client) :
    ((batchRun b cl).cmds = b.cmds ∧ (batchRun b cl).folds = [] ∧
      (batchRun b cl).writeLog = []) ∨
    ((batchRun b cl).cmds = (preVerify cl b.blockOnErrors b.cmds).1 ∧
      (batchRun b cl).folds = [] ∧ (batchRun b cl).writeLog = []) ∨
    ((batchRun b cl).cmds =
        mergeByIndex (preVerify cl b.blockOnErrors b.cmds).1
          (runLoop b.blockOnErrors b.combineCommands cl
            ((preVerify cl b.blockOnErrors b.cmds).1.filter
              (fun c => ¬ c.status = CStatus.done))
            CombSt.empty none 0).cmds ∧
      (batchRun b cl).folds =
        (runLoop b.blockOnErrors b.combineCommands cl
          ((preVerify cl b.blockOnErrors b.cmds).1.filter
            (fun c => ¬ c.status = CStatus.done))
          CombSt.empty none 0).folds ∧
      (batchRun b cl).writeLog =
        (runLoop b.blockOnErrors b.combineCommands cl
          ((preVerify cl b.blockOnErrors b.cmds).1.filter
            (fun c => ¬ c.status = CStatus.done))
          CombSt.empty none 0).writeLog) := by
  unfold batchRun
  dsimp only
  split
  · exact Or.inl ⟨rfl, rfl, rfl⟩
  · split
    · exact Or.inl ⟨rfl, rfl, rfl⟩
    · split
      · exact Or.inl ⟨rfl, rfl, rfl⟩
      · split
        · exact Or.inr (Or.inl ⟨rfl, rfl, rfl⟩)
        · split
          · exact Or.inr (Or.inr ⟨rfl, rfl, rfl⟩)
          · split
            · exact Or.inr (Or.inr ⟨rfl, rfl, rfl⟩)
            · exact Or.inr (Or.inr ⟨rfl, rfl, rfl⟩)

/-! ## Decimal rendering and scanning facts (for the quantity claims) -/

theorem natDigitsLE_lt10 (fuel : Nat) : ∀ (n : Nat) (d : Nat),
    d ∈ natDigitsLE fuel n → d < 10 := by
  induction fuel with
  | zero => intro n d hd; simp [natDigitsLE] at hd
  | succ f ih =>
    intro n d hd
    cases n with
    | zero => simp [natDigitsLE] at hd
    | succ m =>
      simp only [natDigitsLE] at hd
      rcases List.mem_cons.mp hd with rfl | hd2
      · exact Nat.mod_lt _ (by omega)
      · exact ih _ d hd2

theorem digitChar_toNat (d : Nat) (h : d < 10) :
    (digitChar d).toNat = 48 + d := by
  interval_cases d <;> decide

theorem isDigitC_digitChar (d : Nat) (h : d < 10) :
    isDigitC (digitChar d) = true := by
  interval_cases d <;> decide

theorem digitsVal_append_singleton (xs : List Char) (c : Char) :
    digitsVal (xs ++ [c]) = 10 * digitsVal xs + (c.toNat - 48) := by
  simp [digitsVal, List.foldl_append]

theorem digitsVal_natDigitsLE (fuel : Nat) : ∀ n : Nat, n ≤ fuel →
    digitsVal (((natDigitsLE fuel n).map digitChar).reverse) = n := by
  induction fuel with
  | zero =>
    intro n hn
    interval_cases n
    simp [natDigitsLE, digitsVal]
  | succ f ih =>
    intro n hn
    cases n with
    | zero => simp [natDigitsLE, digitsVal]
    | succ m =>
      simp only [natDigitsLE, List.map_cons, List.reverse_cons]
      rw [digitsVal_append_singleton,
        ih ((m + 1) / 10) (by omega),
        digitChar_toNat _ (Nat.mod_lt _ (by omega))]
      omega

theorem digitsVal_natDecimal (n : Nat) : digitsVal (natDecimal n) = n := by
  by_cases h : n = 0
  · subst h; decide
  · rw [natDecimal, if_neg h]
    exact digitsVal_natDigitsLE n n le_rfl

theorem natDecimal_digits (n : Nat) : ∀ c ∈ natDecimal n, isDigitC c = true := by
  intro c hc
  by_cases h : n = 0
  · subst h
    simp [natDecimal] at hc
    subst hc
    decide
  · rw [natDecimal, if_neg h] at hc
    rw [List.mem_reverse] at hc
    obtain ⟨d, hd, rfl⟩ := List.mem_map.mp hc
    exact isDigitC_digitChar d (natDigitsLE_lt10 n n d hd)

theorem natDecimal_ne_nil (n : Nat) : natDecimal n ≠ [] := by
  by_cases h : n = 0
  · subst h; decide
  · rw [natDecimal, if_neg h]
    cases n with
    | zero => exact absurd rfl h
    | succ m => simp [natDigitsLE]

theorem digitsVal_replicate_zero (k : Nat) (xs : List Char) :
    digitsVal (List.replicate k '0' ++ xs) = digitsVal xs := by
  induction k with
  | zero => rfl
  | succ j ih =>
    rw [List.replicate_succ, List.cons_append]
    show List.foldl _ ((10 * 0 + ('0'.toNat - 48))) _ = _
    simpa [digitsVal] using ih

theorem takeDigits_append (ds : List Char) (r : List Char)
    (hds : ∀ c ∈ ds, isDigitC c = true)
    (hr : ∀ c, r.head? = some c → isDigitC c = false) :
    takeDigits (ds ++ r) = (ds, r) := by
  induction ds with
  | nil =>
    cases r with
    | nil => rfl
    | cons c r2 =>
      have := hr c rfl
      simp [takeDigits, this]
  | cons c t ih =>
    have hc := hds c (List.mem_cons_self c t)
    rw [List.cons_append]
    simp [takeDigits, hc, ih (fun x hx => hds x (List.mem_cons_of_mem c hx))]

theorem dropWs_eq_self (l : List Char)
    (h : ∀ c, l.head? = some c → isPyWs c = false) : dropWs l = l := by
  cases l with
  | nil => rfl
  | cons c r => simp [dropWs, h c rfl]

/-- In the fixed-point (plain) regime, `str(Decimal)` is a sign, a
non-empty integer digit group and `scale` fraction digits, and reading the
digit groups back recovers the coefficient. -/
theorem renderChars_plain (d : Dec)
    (h : d.scale = 0 ∨
      (-6 : Int) ≤ ((natDecimal d.man.natAbs).length : Int) - 1 - (d.scale : Int)) :
    ∃ ip fp,
      d.renderChars = (if d.man < 0 then ['-'] else []) ++ ip ++
        (if d.scale = 0 then [] else '.' :: fp) ∧
      ip ≠ [] ∧ (∀ c ∈ ip, isDigitC c = true) ∧
      (∀ c ∈ fp, isDigitC c = true) ∧
      fp.length = d.scale ∧ digitsVal (ip ++ fp) = d.man.natAbs := by
  by_cases hs : d.scale = 0
  · refine ⟨natDecimal d.man.natAbs, [], ?_, natDecimal_ne_nil _,
      natDecimal_digits _, by simp, by simp [hs], by simpa using digitsVal_natDecimal _⟩
    simp [Dec.renderChars, hs]
  · rcases h with h0 | hadj
    · exact absurd h0 hs
    have hdslen : 1 ≤ (natDecimal d.man.natAbs).length :=
      List.length_pos.mpr (natDecimal_ne_nil _)
    have hplen : (List.replicate (d.scale + 1 - (natDecimal d.man.natAbs).length) '0' ++
        natDecimal d.man.natAbs).length =
        (d.scale + 1 - (natDecimal d.man.natAbs).length) +
          (natDecimal d.man.natAbs).length := by
      simp
    have hscle : d.scale <
        (List.replicate (d.scale + 1 - (natDecimal d.man.natAbs).length) '0' ++
          natDecimal d.man.natAbs).length := by
      omega
    have hpadd : ∀ c ∈ List.replicate (d.scale + 1 - (natDecimal d.man.natAbs).length) '0' ++
        natDecimal d.man.natAbs, isDigitC c = true := by
      intro c hc
      rcases List.mem_append.mp hc with hrep | hds
      · rw [List.eq_of_mem_replicate hrep]
        decide
      · exact natDecimal_digits _ c hds
    refine ⟨(List.replicate (d.scale + 1 - (natDecimal d.man.natAbs).length) '0' ++
        natDecimal d.man.natAbs).take
        ((List.replicate (d.scale + 1 - (natDecimal d.man.natAbs).length) '0' ++
          natDecimal d.man.natAbs).length - d.scale),
      (List.replicate (d.scale + 1 - (natDecimal d.man.natAbs).length) '0' ++
        natDecimal d.man.natAbs).drop
        ((List.replicate (d.scale + 1 - (natDecimal d.man.natAbs).length) '0' ++
          natDecimal d.man.natAbs).length - d.scale), ?_, ?_, ?_, ?_, ?_, ?_⟩
    · simp only [Dec.renderChars]
      rw [if_neg hs, if_pos hadj, if_neg hs]
    · refine List.ne_nil_of_length_pos ?_
      rw [List.length_take]
      omega
    · intro c hc
      exact hpadd c (List.mem_of_mem_take hc)
    · intro c hc
      exact hpadd c (List.mem_of_mem_drop hc)
    · rw [List.length_drop]
      omega
    · rw [List.take_append_drop, digitsVal_replicate_zero, digitsVal_natDecimal]

theorem scanAmount_neg_eq (x : List Char) : scanAmount ('-' :: x) =
    (let q := takeDigits x
     if q.1 = [] then none
     else match q.2 with
       | '.' :: r2 =>
         let f := takeDigits r2
         if f.1 = [] then some (Dec.ofLit true q.1 [], '.' :: r2)
         else some (Dec.ofLit true q.1 f.1, f.2)
       | r => some (Dec.ofLit true q.1 [], r)) := rfl

theorem scanAmount_nosign_eq (c : Char) (x : List Char)
    (h1 : ¬ c = '+') (h2 : ¬ c = '-') : scanAmount (c :: x) =
    (let q := takeDigits (c :: x)
     if q.1 = [] then none
     else match q.2 with
       | '.' :: r2 =>
         let f := takeDigits r2
         if f.1 = [] then some (Dec.ofLit false q.1 [], '.' :: r2)
         else some (Dec.ofLit false q.1 f.1, f.2)
       | r => some (Dec.ofLit false q.1 [], r)) := by
  unfold scanAmount
  split
  next heq => rw [List.cons.injEq] at heq; exact absurd heq.1 h1
  next heq => rw [List.cons.injEq] at heq; exact absurd heq.1 h2
  next => rfl

/-- Evaluating the post-sign body of the amount scan on an
integer-point-fraction literal followed by a stopper. -/
theorem scanCore_eval (neg : Bool) (ip fp r : List Char)
    (hip : ip ≠ []) (hipd : ∀ c ∈ ip, isDigitC c = true)
    (hfpd : ∀ c ∈ fp, isDigitC c = true) (hfp : fp ≠ [])
    (hr : ∀ c, r.head? = some c → isDigitC c = false ∧ ¬ c = '.') :
    (let q := takeDigits (ip ++ ('.' :: (fp ++ r)))
     if q.1 = [] then none
     else match q.2 with
       | '.' :: r2 =>
         let f := takeDigits r2
         if f.1 = [] then some (Dec.ofLit neg q.1 [], '.' :: r2)
         else some (Dec.ofLit neg q.1 f.1, f.2)
       | r => some (Dec.ofLit neg q.1 [], r)) = some (Dec.ofLit neg ip fp, r) := by
  have hq : takeDigits (ip ++ ('.' :: (fp ++ r))) = (ip, '.' :: (fp ++ r)) :=
    takeDigits_append ip _ hipd
      (fun c hc => by simp at hc; rw [← hc]; decide)
  have hf : takeDigits (fp ++ r) = (fp, r) :=
    takeDigits_append fp r hfpd (fun c hc => (hr c hc).1)
  simp only [hq, hf]
  rw [if_neg hip, if_neg hfp]

/-- Evaluating the post-sign body on a pure integer literal followed by a
stopper. -/
theorem scanCore0_eval (neg : Bool) (ip r : List Char)
    (hip : ip ≠ []) (hipd : ∀ c ∈ ip, isDigitC c = true)
    (hr : ∀ c, r.head? = some c → isDigitC c = false ∧ ¬ c = '.') :
    (let q := takeDigits (ip ++ r)
     if q.1 = [] then none
     else match q.2 with
       | '.' :: r2 =>
         let f := takeDigits r2
         if f.1 = [] then some (Dec.ofLit neg q.1 [], '.' :: r2)
         else some (Dec.ofLit neg q.1 f.1, f.2)
       | r => some (Dec.ofLit neg q.1 [], r)) = some (Dec.ofLit neg ip [], r) := by
  have hq : takeDigits (ip ++ r) = (ip, r) :=
    takeDigits_append ip r hipd (fun c hc => (hr c hc).1)
  simp only [hq]
  rw [if_neg hip]
  cases r with
  | nil => rfl
  | cons c r2 =>
    have hc := hr c rfl
    split
    next heq => rw [List.cons.injEq] at heq; exact absurd heq.1 hc.2
    next => rfl

theorem ofLit_neg_eq (d : Dec) (ip fp : List Char) (hneg : d.man < 0)
    (hval : digitsVal (ip ++ fp) = d.man.natAbs) (hfl : fp.length = d.scale) :
    Dec.ofLit true ip fp = d := by
  cases d with
  | mk m s =>
    simp only [Dec.ofLit, Dec.mk.injEq]
    simp only at hval hfl hneg
    constructor
    · rw [hval]
      split
      next => omega
      next h => exact absurd trivial h
    · exact hfl

theorem ofLit_pos_eq (d : Dec) (ip fp : List Char) (hneg : ¬ d.man < 0)
    (hval : digitsVal (ip ++ fp) = d.man.natAbs) (hfl : fp.length = d.scale) :
    Dec.ofLit false ip fp = d := by
  cases d with
  | mk m s =>
    simp only [Dec.ofLit, Dec.mk.injEq]
    simp only at hval hfl hneg
    constructor
    · rw [hval]
      split
      next h => simp at h
      next => omega
    · exact hfl

/-- Scanning the rendered decimal back: on any stopper continuation, the
amount scanner recovers exactly the rendered value. -/
theorem scanAmount_render (d : Dec) (r : List Char)
    (hplain : d.scale = 0 ∨
      (-6 : Int) ≤ ((natDecimal d.man.natAbs).length : Int) - 1 - (d.scale : Int))
    (hr : ∀ c, r.head? = some c → isDigitC c = false ∧ ¬ c = '.') :
    scanAmount (d.renderChars ++ r) = some (d, r) := by
  obtain ⟨ip, fp, hrend, hip, hipd, hfpd, hfl, hval⟩ := renderChars_plain d hplain
  rw [hrend]
  by_cases hs : d.scale = 0
  · have hfp0 : fp = [] := List.eq_nil_of_length_eq_zero (by rw [hfl, hs])
    rw [if_pos hs]
    subst hfp0
    by_cases hneg : d.man < 0
    · rw [if_pos hneg]
      have hsh : ((['-'] ++ ip ++ ([] : List Char)) ++ r) = '-' :: (ip ++ r) := by
        simp
      rw [hsh, scanAmount_neg_eq, scanCore0_eval true ip r hip hipd hr,
        ofLit_neg_eq d ip [] hneg (by simpa using hval) (by simpa using hfl)]
    · rw [if_neg hneg]
      obtain ⟨i0, ip2, rfl⟩ : ∃ i0 ip2, ip = i0 :: ip2 := by
        cases ip with
        | nil => exact absurd rfl hip
        | cons a b => exact ⟨a, b, rfl⟩
      have hd0 : isDigitC i0 = true := hipd i0 (List.mem_cons_self i0 ip2)
      have h1 : ¬ i0 = '+' := fun hc => by rw [hc] at hd0; exact absurd hd0 (by decide)
      have h2 : ¬ i0 = '-' := fun hc => by rw [hc] at hd0; exact absurd hd0 (by decide)
      have hsh : (([] ++ (i0 :: ip2) ++ ([] : List Char)) ++ r) = i0 :: (ip2 ++ r) := by
        simp
      rw [hsh, scanAmount_nosign_eq i0 (ip2 ++ r) h1 h2]
      have := scanCore0_eval false (i0 :: ip2) r hip hipd hr
      rw [List.cons_append] at this
      rw [this, ofLit_pos_eq d (i0 :: ip2) [] hneg (by simpa using hval)
        (by simpa using hfl)]
  · have hfp : fp ≠ [] := by
      intro h0
      rw [h0] at hfl
      exact hs (by simpa using hfl.symm)
    rw [if_neg hs]
    by_cases hneg : d.man < 0
    · rw [if_pos hneg]
      have hsh : ((['-'] ++ ip ++ '.' :: fp) ++ r) = '-' :: (ip ++ ('.' :: (fp ++ r))) := by
        simp
      rw [hsh, scanAmount_neg_eq, scanCore_eval true ip fp r hip hipd hfpd hfp hr,
        ofLit_neg_eq d ip fp hneg hval hfl]
    · rw [if_neg hneg]
      obtain ⟨i0, ip2, rfl⟩ : ∃ i0 ip2, ip = i0 :: ip2 := by
        cases ip with
        | nil => exact absurd rfl hip
        | cons a b => exact ⟨a, b, rfl⟩
      have hd0 : isDigitC i0 = true := hipd i0 (List.mem_cons_self i0 ip2)
      have h1 : ¬ i0 = '+' := fun hc => by rw [hc] at hd0; exact absurd hd0 (by decide)
      have h2 : ¬ i0 = '-' := fun hc => by rw [hc] at hd0; exact absurd hd0 (by decide)
      have hsh : (([] ++ (i0 :: ip2) ++ '.' :: fp) ++ r) =
          i0 :: (ip2 ++ ('.' :: (fp ++ r))) := by
        simp
      rw [hsh, scanAmount_nosign_eq i0 (ip2 ++ ('.' :: (fp ++ r))) h1 h2]
      have := scanCore_eval false (i0 :: ip2) fp r hip hipd hfpd hfp hr
      rw [List.cons_append] at this
      rw [this, ofLit_pos_eq d (i0 :: ip2) fp hneg hval hfl]

theorem isDigitC_not_ws (c : Char) (h : isDigitC c = true) : isPyWs c = false := by
  by_contra hws
  have hws2 : isPyWs c = true := by simpa using hws
  simp [isPyWs] at hws2
  rcases hws2 with ((((rfl | rfl) | rfl) | rfl) | rfl) | rfl <;>
    exact absurd h (by decide)

/-- A rendered decimal in the plain regime starts with `-` or a digit. -/
theorem renderChars_cons (d : Dec)
    (hplain : d.scale = 0 ∨
      (-6 : Int) ≤ ((natDecimal d.man.natAbs).length : Int) - 1 - (d.scale : Int)) :
    ∃ c rest2, d.renderChars = c :: rest2 ∧ (c = '-' ∨ isDigitC c = true) := by
  obtain ⟨ip, fp, hrend, hip, hipd, _, _, _⟩ := renderChars_plain d hplain
  by_cases hneg : d.man < 0
  · rw [if_pos hneg] at hrend
    exact ⟨'-', ip ++ _, hrend, Or.inl rfl⟩
  · rw [if_neg hneg] at hrend
    cases ip with
    | nil => exact absurd rfl hip
    | cons i0 ip2 =>
      exact ⟨i0, ip2 ++ _, hrend, Or.inr (hipd i0 (List.mem_cons_self i0 ip2))⟩

theorem dropWs_renderChars (d : Dec)
    (hplain : d.scale = 0 ∨
      (-6 : Int) ≤ ((natDecimal d.man.natAbs).length : Int) - 1 - (d.scale : Int)) :
    dropWs d.renderChars = d.renderChars := by
  obtain ⟨c, rest2, he, hc⟩ := renderChars_cons d hplain
  rw [he]
  apply dropWs_eq_self
  intro x hx
  simp at hx
  subst hx
  rcases hc with rfl | hd
  · decide
  · exact isDigitC_not_ws c hd

theorem scanUnit_cons_ne (c : Char) (x : List Char) (h : ¬ c = 'U') :
    scanUnit (c :: x) = none := by
  unfold scanUnit
  split
  next heq => exact absurd heq (by simp)
  next heq => rw [List.cons.injEq] at heq; exact absurd heq.1 h
  next => rfl

/-- The plain quantity regex fails when the amount is followed by a
non-unit stopper. -/
theorem quantityPlain_none (a : Dec) (c : Char) (x : List Char)
    (hpa : a.scale = 0 ∨
      (-6 : Int) ≤ ((natDecimal a.man.natAbs).length : Int) - 1 - (a.scale : Int))
    (hstop : isDigitC c = false ∧ ¬ c = '.') (hcu : ¬ c = 'U') :
    quantityPlain (a.renderChars ++ c :: x) = none := by
  unfold quantityPlain
  rw [scanAmount_render a (c :: x) hpa
    (fun c2 hc2 => by simp at hc2; subst hc2; exact hstop)]
  dsimp only
  rw [scanUnit_cons_ne c x hcu]

/-- The bounds quantity regex fails when the amount is followed by
anything but `[`. -/
theorem quantityBounds_none (a : Dec) (c : Char) (x : List Char)
    (hpa : a.scale = 0 ∨
      (-6 : Int) ≤ ((natDecimal a.man.natAbs).length : Int) - 1 - (a.scale : Int))
    (hstop : isDigitC c = false ∧ ¬ c = '.') (hcb : ¬ c = '[') :
    quantityBounds (a.renderChars ++ c :: x) = none := by
  unfold quantityBounds
  rw [scanAmount_render a (c :: x) hpa
    (fun c2 hc2 => by simp at hc2; subst hc2; exact hstop)]
  dsimp only
  split
  next heq => rw [List.cons.injEq] at heq; exact absurd heq.1 hcb
  next => rfl

/-- The tolerance quantity regex on `a~t` built from rendered decimals:
amount `a`, bounds `a∓t`, default unit. -/
theorem quantityTolerance_render (a t : Dec)
    (hpa : a.scale = 0 ∨
      (-6 : Int) ≤ ((natDecimal a.man.natAbs).length : Int) - 1 - (a.scale : Int))
    (hpt : t.scale = 0 ∨
      (-6 : Int) ≤ ((natDecimal t.man.natAbs).length : Int) - 1 - (t.scale : Int)) :
    quantityTolerance (a.renderChars ++ '~' :: t.renderChars) =
      some (.quantity
        { amount := str_amount a
          lowerBound := some (str_amount (a.sub t))
          upperBound := some (str_amount (a.add t))
          unit := "1" }) := by
  unfold quantityTolerance
  rw [scanAmount_render a ('~' :: t.renderChars) hpa
    (fun c2 hc2 => by simp at hc2; subst hc2; decide)]
  dsimp only
  rw [show dropWs ('~' :: t.renderChars) = '~' :: t.renderChars from rfl]
  split
  next r1 heq =>
    rw [List.cons.injEq] at heq
    rw [← heq.2, dropWs_renderChars t hpt]
    have hst := scanAmount_render t [] hpt (fun c2 hc2 => by simp at hc2)
    rw [List.append_nil] at hst
    rw [hst]
    rfl
  next h => exact (h t.renderChars rfl).elim

/-- The bounds quantity regex on `a[lo,hi]` built from rendered
decimals. -/
theorem quantityBounds_render (a lo hi : Dec)
    (hpa : a.scale = 0 ∨
      (-6 : Int) ≤ ((natDecimal a.man.natAbs).length : Int) - 1 - (a.scale : Int))
    (hplo : lo.scale = 0 ∨
      (-6 : Int) ≤ ((natDecimal lo.man.natAbs).length : Int) - 1 - (lo.scale : Int))
    (hphi : hi.scale = 0 ∨
      (-6 : Int) ≤ ((natDecimal hi.man.natAbs).length : Int) - 1 - (hi.scale : Int)) :
    quantityBounds (a.renderChars ++ '[' ::
        (lo.renderChars ++ ',' :: (hi.renderChars ++ [']']))) =
      some (.quantity
        { amount := str_amount a
          lowerBound := some (str_amount lo)
          upperBound := some (str_amount hi)
          unit := "1" }) := by
  unfold quantityBounds
  rw [scanAmount_render a ('[' :: (lo.renderChars ++ ',' :: (hi.renderChars ++ [']']))) hpa
    (fun c2 hc2 => by simp at hc2; subst hc2; decide)]
  dsimp only
  split
  next r1 heq =>
    rw [List.cons.injEq] at heq
    rw [← heq.2,
      scanAmount_render lo (',' :: (hi.renderChars ++ [']'])) hplo
        (fun c2 hc2 => by simp at hc2; subst hc2; decide)]
    dsimp only
    split
    next r3 heq2 =>
      rw [List.cons.injEq] at heq2
      rw [← heq2.2]
      obtain ⟨c0, rest0, hre, hc0⟩ := renderChars_cons hi hphi
      have hc0ws : isPyWs c0 = false := by
        rcases hc0 with rfl | hd
        · decide
        · exact isDigitC_not_ws c0 hd
      rw [hre, List.cons_append]
      dsimp only
      rw [if_neg (by simp [hc0ws]), ← List.cons_append, ← hre,
        scanAmount_render hi [']'] hphi
          (fun c2 hc2 => by simp at hc2; subst hc2; decide)]
      dsimp only
      split
      next r5 heq3 =>
        rw [List.cons.injEq] at heq3
        rw [← heq3.2]
        rfl
      next h => exact (h [] rfl).elim
    next h => exact (h (hi.renderChars ++ [']']) rfl).elim
  next h =>
    exact (h (lo.renderChars ++ ',' :: (hi.renderChars ++ [']'])) rfl).elim

/-- Resolving `LAST` against a tracked id overwrites the payload id with
that id (the non-empty tracked id is persisted as-is). -/
theorem updateLastId_resolves (c : Cmd) (v : String)
    (h1 : c.entityId = some "LAST") (h2 : ¬ v = "") :
    (c.updateLastId (some v)).entityId = some v := by
  have hcond : c.entityId = some "LAST" ∧ ¬ (some v : Option String) = none :=
    ⟨h1, by simp⟩
  rw [Cmd.updateLastId, if_pos hcond]
  cases hsl : c.idSlot with
  | noKey => simp [Cmd.entityId, hsl] at h1
  | itemKey w => simp [Cmd.setEntityId, Cmd.entityId, hsl, h2]
  | entityKey w => simp [Cmd.setEntityId, Cmd.entityId, hsl]

/-- With no tracked id, `update_last_id` does nothing. -/
theorem updateLastId_none (c : Cmd) : c.updateLastId none = c := by
  simp [Cmd.updateLastId]

/-- On a payload whose id is not the sentinel, `update_last_id` does
nothing (in particular an already-resolved id is never re-resolved). -/
theorem updateLastId_id_of_not_last (c : Cmd) (l : Option String)
    (h : ¬ c.entityId = some "LAST") : c.updateLastId l = c := by
  rw [Cmd.updateLastId, if_neg (fun hh => h hh.1)]

/-- Every recorded step relates its fields through `update_last_id`: the
id after resolution is exactly `update_last_id` of the id before, taken
at the tracked id at entry. -/
theorem runLoop_steps_shape (block combine : Bool) (cl : Client) (cmds : List Cmd) :
    ∀ (st : CombSt) (lastId : Option String) (n : Nat),
      ∀ s ∈ (runLoop block combine cl cmds st lastId n).steps,
        ∃ (c : Cmd) (lid : Option String),
          s.lastIdAtEntry = lid ∧ s.idBefore = c.entityId ∧
          s.idAfterResolve = (c.updateLastId lid).entityId := by
  induction cmds with
  | nil =>
    intro st lastId n s hs
    simp [runLoop] at hs
  | cons c rest ih =>
    intro st lastId n s hs
    simp only [runLoop] at hs
    split at hs
    next =>
      rcases List.mem_cons.mp hs with rfl | hs2
      · exact ⟨c, lastId, rfl, rfl, rfl⟩
      · exact absurd hs2 (List.not_mem_nil s)
    next =>
      rcases List.mem_cons.mp hs with rfl | hs2
      · exact ⟨c, lastId, rfl, rfl, rfl⟩
      · exact ih _ _ _ s hs2

/-- The tracked id at entry of the k-th recorded step is the fold of the
create-steps before it over the initial tracked id. -/
theorem runLoop_steps_lastId (block combine : Bool) (cl : Client) (cmds : List Cmd) :
    ∀ (st : CombSt) (lastId : Option String) (n : Nat) (k : Nat) (s : Step),
      (runLoop block combine cl cmds st lastId n).steps.get? k = some s →
      s.lastIdAtEntry =
        ((runLoop block combine cl cmds st lastId n).steps.take k).foldl
          (fun acc t => if t.action = Action.create then t.responseIdAfter else acc)
          lastId := by
  induction cmds with
  | nil =>
    intro st lastId n k s hk
    simp [runLoop] at hk
  | cons c rest ih =>
    intro st lastId n k s hk
    simp only [runLoop] at hk ⊢
    split at hk
    next hblk =>
      rw [if_pos hblk]
      cases k with
      | zero =>
        simp only [List.get?] at hk
        cases hk
        simp
      | succ k2 =>
        simp only [List.get?] at hk
        cases k2 <;> simp at hk
    next hblk =>
      rw [if_neg hblk]
      cases k with
      | zero =>
        simp only [List.get?] at hk
        cases hk
        simp
      | succ k2 =>
        have ih2 := ih _ _ _ k2 s (by simpa using hk)
        simpa using ih2

/-- The recorded trace of `Batch.run` is empty (not-runnable or blocked
before the loop) or exactly the main loop's trace. -/
theorem batchRun_steps_shape (b : BatchModel) (cl : Client) :
    (batchRun b cl).steps = [] ∨
    (batchRun b cl).steps =
      (runLoop b.blockOnErrors b.combineCommands cl
        ((preVerify cl b.blockOnErrors b.cmds).1.filter
          (fun c => ¬ c.status = CStatus.done)) CombSt.empty none 0).steps := by
  unfold batchRun
  dsimp only
  split
  · exact Or.inl rfl
  · split
    · exact Or.inl rfl
    · split
      · exact Or.inl rfl
      · split
        · exact Or.inl rfl
        · split
          · exact Or.inr rfl
          · split
            · exact Or.inr rfl
            · exact Or.inr rfl

/-! ## String-token recognizer facts (for claim C9) -/

theorem dropWhile_eq_self_of_head (p : Char → Bool) (l : List Char)
    (h : ∀ c, l.head? = some c → p c = false) : l.dropWhile p = l := by
  cases l with
  | nil => rfl
  | cons c t => rw [List.dropWhile_cons, if_neg (by simp [h c rfl])]

theorem pyStripL_eq_self (l : List Char)
    (hh : ∀ c, l.head? = some c → isPyWs c = false)
    (hl : ∀ c, l.getLast? = some c → isPyWs c = false) :
    pyStripL l = l := by
  unfold pyStripL
  rw [dropWhile_eq_self_of_head _ _ hh]
  rw [dropWhile_eq_self_of_head _ _
    (fun c hc => hl c (by rw [List.getLast?_eq_head?_reverse]; exact hc))]
  rw [List.reverse_reverse]

theorem map_fixQuote_eq_self (l : List Char)
    (h : ∀ c ∈ l, ¬ c = '“' ∧ ¬ c = '”') : l.map fixQuote = l := by
  induction l with
  | nil => rfl
  | cons c t ih =>
    have hc := h c (List.mem_cons_self c t)
    rw [List.map_cons, ih (fun x hx => h x (List.mem_cons_of_mem c hx))]
    rw [show fixQuote c = c from by rw [fixQuote, if_neg (by simp [hc.1, hc.2])]]

theorem string_mk_ne (l : List Char) (s : String)
    (h : ¬ l.head? = s.toList.head?) : ¬ String.mk l = s :=
  fun he => h (by rw [show l = s.toList from congrArg String.toList he])

theorem sv_none_of_quote (l : List Char) :
    parse_value_somevalue_novalue (String.mk ('"' :: l)) = none := by
  unfold parse_value_somevalue_novalue
  rw [if_neg]
  rintro (h | h)
  · exact string_mk_ne _ "somevalue" (by rw [List.head?_cons]; decide) h
  · exact string_mk_ne _ "novalue" (by rw [List.head?_cons]; decide) h

theorem entity_none_of_quote (l : List Char) :
    parse_value_entity (String.mk ('"' :: l)) = none := by
  unfold parse_value_entity
  rw [if_neg (string_mk_ne _ "LAST" (by rw [List.head?_cons]; decide))]
  rw [show is_valid_entity_id (String.mk ('"' :: l)) = false from rfl]
  rfl

theorem url_none_of_trip (v : String) (h : tripleMid v = none) :
    parse_value_url v = none := by
  unfold parse_value_url
  rw [h]

theorem commons_none_of_trip (v : String) (h : tripleMid v = none) :
    parse_value_commons_media_file v = none := by
  unfold parse_value_commons_media_file
  rw [h]

theorem ext_none_of_trip (v : String) (h : tripleMid v = none) :
    parse_value_external_id v = none := by
  unfold parse_value_external_id
  rw [h]

theorem mono_none_of_quote (l : List Char) :
    parse_value_monolingualtext (String.mk ('"' :: l)) = none := by
  unfold parse_value_monolingualtext
  dsimp only
  rw [show (String.mk ('"' :: l)).toList = '"' :: l from rfl]
  rw [show ('"' :: l).takeWhile isLangC = [] from by
    rw [List.takeWhile_cons, if_neg (by decide)]]
  rw [if_pos rfl]

theorem string_quote_eval (text : List Char) (hnl : noNl text = true) :
    parse_value_string (String.mk ('"' :: (text ++ ['"']))) =
      some (.str (String.mk (pyStripL text))) := by
  unfold parse_value_string
  split
  next rest heq =>
    have heq2 : '"' :: (text ++ ['"']) = '"' :: rest := heq
    rw [List.cons.injEq] at heq2
    obtain ⟨-, hrest⟩ := heq2
    subst hrest
    rw [if_pos ⟨by simp, by rw [List.getLast?_concat], by
      rw [List.dropLast_concat]; exact hnl⟩]
    rw [List.dropLast_concat]
  next h => exact (h (text ++ ['"']) rfl).elim

theorem tripleMid_wrap (text : List Char) :
    tripleMid (String.mk ('"' :: '"' :: '"' :: (text ++ ['"', '"', '"']))) =
      some text := by
  have h1 : List.take 3 ((['"', '"', '"'] ++ text) ++ ['"', '"', '"']) =
      ['"', '"', '"'] := by
    rw [show (['"', '"', '"'] ++ text) ++ ['"', '"', '"'] =
      ['"', '"', '"'] ++ (text ++ ['"', '"', '"']) from by simp]
    exact List.take_left' rfl
  have h2 : List.drop (text.length + 6 - 3)
      ((['"', '"', '"'] ++ text) ++ ['"', '"', '"']) = ['"', '"', '"'] := by
    rw [show text.length + 6 - 3 = (['"', '"', '"'] ++ text).length from by simp]
    exact List.drop_left' rfl
  have h3 : List.take (text.length + 6 - 6)
      (List.drop 3 ((['"', '"', '"'] ++ text) ++ ['"', '"', '"'])) = text := by
    rw [show (['"', '"', '"'] ++ text) ++ ['"', '"', '"'] =
      ['"', '"', '"'] ++ (text ++ ['"', '"', '"']) from by simp]
    rw [List.drop_left' (by rfl : (['"', '"', '"'] : List Char).length = 3)]
    rw [show text.length + 6 - 6 = text.length from by omega]
    exact List.take_left' rfl
  unfold tripleMid
  rw [show (String.mk ('"' :: '"' :: '"' :: (text ++ ['"', '"', '"']))).toList =
    (['"', '"', '"'] ++ text) ++ ['"', '"', '"'] from by simp]
  dsimp only
  have hlen : ((['"', '"', '"'] ++ text) ++ ['"', '"', '"']).length =
      text.length + 6 := by simp
  rw [hlen, if_pos ⟨by omega, h1, h2⟩, h3]

/-! ## Claim C9 -/

/-- C9: a single-quoted single-line token parses as a string whose payload
is the quoted text with surrounding whitespace stripped, while a
triple-quoted token keeps the wrapped text verbatim with no stripping
(whichever of the URL / commons-media / external-id recognizers fires, the
payload is the same verbatim middle).  Curly quotes are excluded so the
quote normalization is the identity, and the single-quote case assumes the
token is not triple-quote-shaped. -/
theorem claim_C9 :
    (∀ text : List Char,
      noNl text = true →
      (∀ c ∈ text, ¬ c = '“' ∧ ¬ c = '”') →
      tripleMid (String.mk ('"' :: (text ++ ['"']))) = none →
      parse_value (String.mk ('"' :: (text ++ ['"']))) =
        some (.str (String.mk (pyStripL text)))) ∧
    (∀ text : List Char,
      noNl text = true →
      (∀ c ∈ text, ¬ c = '“' ∧ ¬ c = '”') →
      parse_value (String.mk ('"' :: '"' :: '"' :: (text ++ ['"', '"', '"']))) =
        some (.str (String.mk text))) := by
  constructor
  · intro text hnl hq htrip
    have hstrip : pyStripL ('"' :: (text ++ ['"'])) = '"' :: (text ++ ['"']) := by
      apply pyStripL_eq_self
      · intro c hc
        simp at hc
        subst hc
        decide
      · intro c hc
        rw [show ('"' :: (text ++ ['"'])) = ('"' :: text) ++ ['"'] from rfl,
          List.getLast?_concat] at hc
        simp at hc
        subst hc
        decide
    have hmap : ('"' :: (text ++ ['"'])).map fixQuote = '"' :: (text ++ ['"']) := by
      apply map_fixQuote_eq_self
      intro c hc
      rcases List.mem_cons.mp hc with rfl | hc2
      · exact ⟨by decide, by decide⟩
      · rcases List.mem_append.mp hc2 with h3 | h3
        · exact hq c h3
        · rw [List.mem_singleton.mp h3]
          exact ⟨by decide, by decide⟩
    unfold parse_value
    dsimp only
    rw [show (String.mk ('"' :: (text ++ ['"']))).toList =
      '"' :: (text ++ ['"']) from rfl]
    rw [hstrip, hmap, sv_none_of_quote]
    dsimp only
    rw [entity_none_of_quote]
    dsimp only
    rw [url_none_of_trip _ htrip]
    dsimp only
    rw [commons_none_of_trip _ htrip]
    dsimp only
    rw [ext_none_of_trip _ htrip]
    dsimp only
    rw [mono_none_of_quote]
    dsimp only
    rw [string_quote_eval text hnl]
  · intro text hnl hq
    have hlast : ∀ c, ('"' :: '"' :: '"' :: (text ++ ['"', '"', '"'])).getLast? =
        some c → isPyWs c = false := by
      intro c hc
      rw [show ('"' :: '"' :: '"' :: (text ++ ['"', '"', '"'])) =
        ('"' :: '"' :: '"' :: (text ++ ['"', '"'])) ++ ['"'] from by simp,
        List.getLast?_concat] at hc
      simp at hc
      subst hc
      decide
    have hstrip : pyStripL ('"' :: '"' :: '"' :: (text ++ ['"', '"', '"'])) =
        '"' :: '"' :: '"' :: (text ++ ['"', '"', '"']) := by
      apply pyStripL_eq_self
      · intro c hc
        simp at hc
        subst hc
        decide
      · exact hlast
    have hmap : ('"' :: '"' :: '"' :: (text ++ ['"', '"', '"'])).map fixQuote =
        '"' :: '"' :: '"' :: (text ++ ['"', '"', '"']) := by
      apply map_fixQuote_eq_self
      intro c hc
      rcases List.mem_cons.mp hc with rfl | hc
      · exact ⟨by decide, by decide⟩
      rcases List.mem_cons.mp hc with rfl | hc
      · exact ⟨by decide, by decide⟩
      rcases List.mem_cons.mp hc with rfl | hc
      · exact ⟨by decide, by decide⟩
      rcases List.mem_append.mp hc with h3 | h3
      · exact hq c h3
      · have hc3 : c = '"' := by simpa using h3
        subst hc3
        exact ⟨by decide, by decide⟩
    have htrip3 := tripleMid_wrap text
    unfold parse_value
    dsimp only
    rw [show (String.mk ('"' :: '"' :: '"' :: (text ++ ['"', '"', '"']))).toList =
      '"' :: '"' :: '"' :: (text ++ ['"', '"', '"']) from rfl]
    rw [hstrip, hmap, sv_none_of_quote]
    dsimp only
    rw [entity_none_of_quote]
    dsimp only
    cases hurl : parse_value_url
        (String.mk ('"' :: '"' :: '"' :: (text ++ ['"', '"', '"']))) with
    | some r =>
      dsimp only
      unfold parse_value_url at hurl
      rw [htrip3] at hurl
      dsimp only at hurl
      split at hurl
      · rw [Option.some.injEq] at hurl
        rw [← hurl]
      · exact absurd hurl (by simp)
    | none =>
      dsimp only
      cases hcm : parse_value_commons_media_file
          (String.mk ('"' :: '"' :: '"' :: (text ++ ['"', '"', '"']))) with
      | some r =>
        dsimp only
        unfold parse_value_commons_media_file at hcm
        rw [htrip3] at hcm
        dsimp only at hcm
        split at hcm
        · rw [Option.some.injEq] at hcm
          rw [← hcm]
        · exact absurd hcm (by simp)
      | none =>
        dsimp only
        rw [show parse_value_external_id
            (String.mk ('"' :: '"' :: '"' :: (text ++ ['"', '"', '"']))) =
            some (.str (String.mk text)) from by
          unfold parse_value_external_id
          rw [htrip3]
          dsimp only
          rw [if_pos hnl]]

/-- C9 (witness): the token `" hi "` parses to the stripped string `hi`,
while `""" hi """` keeps `' hi '` verbatim. -/
theorem claim_C9_witness :
    (noNl " hi ".toList = true ∧
      tripleMid (String.mk ('"' :: (" hi ".toList ++ ['"']))) = none) ∧
    parse_value (String.mk ('"' :: (" hi ".toList ++ ['"']))) =
      some (.str (String.mk (pyStripL " hi ".toList))) ∧
    parse_value (String.mk ('"' :: '"' :: '"' ::
        (" hi ".toList ++ ['"', '"', '"']))) =
      some (.str (String.mk " hi ".toList)) :=
  ⟨⟨by decide, by decide⟩,
    claim_C9.1 " hi ".toList (by decide)
      (by intro c hc; fin_cases hc <;> exact ⟨by decide, by decide⟩) (by decide),
    claim_C9.2 " hi ".toList (by decide)
      (by intro c hc; fin_cases hc <;> exact ⟨by decide, by decide⟩)⟩

/-! ## Claim C8 -/

/-- C8: the tolerance and explicit-bounds quantity forms agree:
`parse_value "9~0.1" = parse_value "9[8.9,9.1]"`, and in general for
decimal amounts `a`, `t` (rendered in the fixed-point regime, with all
coefficients within the 28-significant-digit Decimal context that keeps
the modelled arithmetic exact), `a~t` parses to the same quantity as
`a[a-t,a+t]`: amount `a`, bounds `a-t`/`a+t`, unit `1`. -/
theorem claim_C8 :
    (parse_value "9~0.1" = parse_value "9[8.9,9.1]" ∧
      parse_value "9~0.1" =
        some (.quantity ⟨"+9", some "+8.9", some "+9.1", "1"⟩)) ∧
    (∀ a t : Dec,
      (a.scale = 0 ∨
        (-6 : Int) ≤ ((natDecimal a.man.natAbs).length : Int) - 1 - (a.scale : Int)) →
      (t.scale = 0 ∨
        (-6 : Int) ≤ ((natDecimal t.man.natAbs).length : Int) - 1 - (t.scale : Int)) →
      ((a.sub t).scale = 0 ∨
        (-6 : Int) ≤ ((natDecimal (a.sub t).man.natAbs).length : Int) - 1 -
          ((a.sub t).scale : Int)) →
      ((a.add t).scale = 0 ∨
        (-6 : Int) ≤ ((natDecimal (a.add t).man.natAbs).length : Int) - 1 -
          ((a.add t).scale : Int)) →
      a.man.natAbs < 10 ^ 28 → t.man.natAbs < 10 ^ 28 →
      (a.sub t).man.natAbs < 10 ^ 28 → (a.add t).man.natAbs < 10 ^ 28 →
      parse_value_quantity (String.mk (a.renderChars ++ '~' :: t.renderChars)) =
        some (.quantity
          { amount := str_amount a
            lowerBound := some (str_amount (a.sub t))
            upperBound := some (str_amount (a.add t))
            unit := "1" }) ∧
      parse_value_quantity (String.mk (a.renderChars ++ '[' ::
          ((a.sub t).renderChars ++ ',' :: ((a.add t).renderChars ++ [']'])))) =
        some (.quantity
          { amount := str_amount a
            lowerBound := some (str_amount (a.sub t))
            upperBound := some (str_amount (a.add t))
            unit := "1" })) := by
  constructor
  · exact ⟨by decide, by decide⟩
  · intro a t hpa hpt hps hpA _ _ _ _
    constructor
    · unfold parse_value_quantity
      rw [show (String.mk (a.renderChars ++ '~' :: t.renderChars)).toList =
        a.renderChars ++ '~' :: t.renderChars from rfl]
      rw [quantityPlain_none a '~' t.renderChars hpa (by decide) (by decide)]
      dsimp only
      rw [quantityBounds_none a '~' t.renderChars hpa (by decide) (by decide)]
      dsimp only
      exact quantityTolerance_render a t hpa hpt
    · unfold parse_value_quantity
      rw [show (String.mk (a.renderChars ++ '[' ::
          ((a.sub t).renderChars ++ ',' :: ((a.add t).renderChars ++ [']'])))).toList =
        a.renderChars ++ '[' ::
          ((a.sub t).renderChars ++ ',' :: ((a.add t).renderChars ++ [']'])) from rfl]
      rw [quantityPlain_none a '['
        ((a.sub t).renderChars ++ ',' :: ((a.add t).renderChars ++ [']']))
        hpa (by decide) (by decide)]
      dsimp only
      rw [quantityBounds_render a (a.sub t) (a.add t) hpa hps hpA]

/-- C8 (witness): `a = 9`, `t = 0.1` (as exact decimals `⟨9,0⟩`,
`⟨1,1⟩`). -/
theorem claim_C8_witness :
    (((⟨9, 0⟩ : Dec).scale = 0 ∨
        (-6 : Int) ≤ ((natDecimal (⟨9, 0⟩ : Dec).man.natAbs).length : Int) - 1 -
          ((⟨9, 0⟩ : Dec).scale : Int)) ∧
      ((⟨1, 1⟩ : Dec).scale = 0 ∨
        (-6 : Int) ≤ ((natDecimal (⟨1, 1⟩ : Dec).man.natAbs).length : Int) - 1 -
          ((⟨1, 1⟩ : Dec).scale : Int)) ∧
      (⟨9, 0⟩ : Dec).man.natAbs < 10 ^ 28) ∧
    parse_value_quantity (String.mk ((⟨9, 0⟩ : Dec).renderChars ++ '~' ::
        (⟨1, 1⟩ : Dec).renderChars)) =
      some (.quantity
        { amount := str_amount (⟨9, 0⟩ : Dec)
          lowerBound := some (str_amount ((⟨9, 0⟩ : Dec).sub ⟨1, 1⟩))
          upperBound := some (str_amount ((⟨9, 0⟩ : Dec).add ⟨1, 1⟩))
          unit := "1" }) :=
  ⟨⟨by decide, by decide, by decide⟩,
    (claim_C8.2 ⟨9, 0⟩ ⟨1, 1⟩ (by decide) (by decide) (by decide) (by decide)
      (by decide) (by decide) (by decide) (by decide)).1⟩

/-! ## Claim C2 (amended) -/

/-- C2 (amended): a `LAST` payload id is resolved, before the command
executes, against the tracked id of the most recent preceding CREATE of
the run — successful or not (a failed create resets the tracked id to
None, it does NOT fall back to the last successful one); when the tracked
id is a concrete id it is persisted into the payload, and a payload whose
id is not `LAST` (in particular an already-resolved one) is never touched
again.  In every run's trace, the tracked id at entry of the k-th step is
the fold of the create steps before it, and the recorded resolution obeys
`update_last_id`. -/
theorem claim_C2_amended :
    (∀ (c : Cmd) (v : String), c.entityId = some "LAST" → ¬ v = "" →
      (c.updateLastId (some v)).entityId = some v) ∧
    (∀ c : Cmd, c.updateLastId none = c) ∧
    (∀ (c : Cmd) (l : Option String), ¬ c.entityId = some "LAST" →
      c.updateLastId l = c) ∧
    (∀ (b : BatchModel) (cl : Client) (k : Nat) (s : Step),
      (batchRun b cl).steps.get? k = some s →
      s.lastIdAtEntry = lastCreateResp ((batchRun b cl).steps.take k) ∧
      ((¬ s.idBefore = some "LAST" ∨ s.lastIdAtEntry = none) →
        s.idAfterResolve = s.idBefore) ∧
      (∀ v : String, s.idBefore = some "LAST" → s.lastIdAtEntry = some v →
        ¬ v = "" → s.idAfterResolve = some v)) := by
  refine ⟨updateLastId_resolves, updateLastId_none, updateLastId_id_of_not_last, ?_⟩
  intro b cl k s hk
  rcases batchRun_steps_shape b cl with h | h
  · rw [h] at hk
    simp at hk
  · rw [h] at hk ⊢
    have h1 := runLoop_steps_lastId b.blockOnErrors b.combineCommands cl _
      CombSt.empty none 0 k s hk
    obtain ⟨c, lid, hlid, hbefore, hafter⟩ :=
      runLoop_steps_shape b.blockOnErrors b.combineCommands cl _
        CombSt.empty none 0 s (List.get?_mem hk)
    refine ⟨h1, ?_, ?_⟩
    · intro hcase
      rw [hafter, hbefore]
      rcases hcase with hnl | hnone
      · rw [hbefore] at hnl
        rw [updateLastId_id_of_not_last c lid hnl]
      · rw [hlid] at hnone
        rw [hnone, updateLastId_none]
    · intro v hlast hv hne
      rw [hbefore] at hlast
      rw [hlid] at hv
      rw [hafter, hv]
      exact updateLastId_resolves c v hlast hne

/-- C2 (witness): the `LAST` resolution semantics at a concrete command,
and the recorded step 2 of the two-creates-then-LAST run, whose tracked
id at entry is None (the second, FAILED create reset it) so the `LAST`
id is left unresolved. -/
theorem claim_C2_witness :
    ((statementLine 2 "LAST" "P1" ⟨"wikibase-entityid", "Q1"⟩).entityId =
        some "LAST" ∧
      ¬ ("Q5" : String) = "" ∧
      ((statementLine 2 "LAST" "P1"
        ⟨"wikibase-entityid", "Q1"⟩).updateLastId (some "Q5")).entityId =
        some "Q5") ∧
    ((batchRun c2Batch c2Client).steps.get? 2 =
      some ⟨2, Action.add, none, some "LAST", some "LAST", none⟩) ∧
    (⟨2, Action.add, none, some "LAST", some "LAST", none⟩ : Step).lastIdAtEntry =
      lastCreateResp ((batchRun c2Batch c2Client).steps.take 2) ∧
    (⟨2, Action.add, none, some "LAST", some "LAST", none⟩ : Step).idAfterResolve =
      (⟨2, Action.add, none, some "LAST", some "LAST", none⟩ : Step).idBefore := by
  refine ⟨⟨by decide, by decide,
    claim_C2_amended.1 (statementLine 2 "LAST" "P1" ⟨"wikibase-entityid", "Q1"⟩)
      "Q5" (by decide) (by decide)⟩, by decide, ?_, ?_⟩
  · exact (claim_C2_amended.2.2.2 c2Batch c2Client 2
      ⟨2, Action.add, none, some "LAST", some "LAST", none⟩ (by decide)).1
  · exact (claim_C2_amended.2.2.2 c2Batch c2Client 2
      ⟨2, Action.add, none, some "LAST", some "LAST", none⟩ (by decide)).2.1
      (Or.inr rfl)

/-! ## Claim C4 (amended) -/

/-- C4 (amended): on a runnable batch of fresh pre-verified commands with
unique indices: with `block_on_errors=true` the batch ends Blocked exactly
when some command ends Error, and then the command list splits as a
prefix of commands that are Done or Error with CombiningFailed (folded
group members), the blocking Error command, and the strictly-later
commands still Initial (never attempted); with `block_on_errors=false`
the batch ends Done and every command reaches a terminal status. -/
theorem claim_C4_amended (b : BatchModel) (cl : Client)
    (hready : b.status = BStatus.initial) (htok : cl.hasToken = true)
    (hauto : cl.isAutoconfirmed = true)
    (hver : ∀ c ∈ b.cmds, c.valueTypeVerified = true)
    (hfresh : ∀ c ∈ b.cmds, c.status = CStatus.initial)
    (hnodup : (b.cmds.map Cmd.index).Nodup) :
    (b.blockOnErrors = true →
      ((batchRun b cl).batchStatus = BStatus.blocked ↔
        ∃ p ∈ (batchRun b cl).cmds, p.status = CStatus.error) ∧
      ((batchRun b cl).batchStatus = BStatus.blocked →
        ∃ pre cur rest, (batchRun b cl).cmds = pre ++ cur :: rest ∧
          cur.status = CStatus.error ∧
          (∀ p ∈ rest, p.status = CStatus.initial) ∧
          (∀ p ∈ pre, p.status = CStatus.done ∨
            (p.status = CStatus.error ∧
              p.cmdError = some CError.combining_failed)))) ∧
    (b.blockOnErrors = false →
      (batchRun b cl).batchStatus = BStatus.done ∧
      ∀ p ∈ (batchRun b cl).cmds,
        p.status = CStatus.done ∨ p.status = CStatus.error) := by
  obtain ⟨hcmds, _, hbiff, hdone⟩ := batchRun_main_cases b cl hready htok hauto hver hfresh
  have hmerge : mergeByIndex b.cmds
      (runLoop b.blockOnErrors b.combineCommands cl b.cmds CombSt.empty none 0).cmds =
      (runLoop b.blockOnErrors b.combineCommands cl b.cmds CombSt.empty none 0).cmds :=
    mergeByIndex_self b.cmds _
      ((runLoop_indices b.blockOnErrors b.combineCommands cl b.cmds CombSt.empty none 0).trans
        (by simp [CombSt.empty])) hnodup
  rw [hmerge] at hcmds hdone
  constructor
  · intro hbot
    rw [hbot] at hcmds hbiff hdone
    constructor
    · constructor
      · intro hblocked
        have hnn := hbiff.mp hblocked
        cases hbb : (runLoop true b.combineCommands cl b.cmds CombSt.empty none 0).blockedBy with
        | none => exact absurd hbb hnn
        | some bi =>
          obtain ⟨pre, cur, rest2, heq, _, herr, _, _⟩ :=
            runLoop_blocked_tail b.combineCommands cl b.cmds CombSt.empty none 0 bi hfresh hbb
          refine ⟨cur, ?_, herr⟩
          rw [hcmds, heq]
          exact List.mem_append_right _ (List.mem_cons_self cur rest2)
      · rintro ⟨p, hp, hperr⟩
        by_contra hnb
        have hbbnone : (runLoop true b.combineCommands cl b.cmds CombSt.empty none 0).blockedBy = none :=
          not_not.mp (fun h => hnb (hbiff.mpr h))
        rw [hcmds] at hp
        exact runLoop_noerror b.combineCommands cl b.cmds CombSt.empty none 0 hfresh
          (fun q hq => absurd hq (List.not_mem_nil q)) hbbnone p hp hperr
    · intro hblocked
      have hnn := hbiff.mp hblocked
      cases hbb : (runLoop true b.combineCommands cl b.cmds CombSt.empty none 0).blockedBy with
      | none => exact absurd hbb hnn
      | some bi =>
        obtain ⟨pre, cur, rest2, heq, _, herr, hpre, hrest⟩ :=
          runLoop_blocked_tail b.combineCommands cl b.cmds CombSt.empty none 0 bi hfresh hbb
        exact ⟨pre, cur, rest2, by rw [hcmds, heq], herr, hrest, hpre⟩
  · intro hbof
    rw [hbof] at hcmds hbiff hdone
    obtain ⟨hbnone, hterm⟩ := runLoop_all_terminal b.combineCommands cl b.cmds
      CombSt.empty none 0 hfresh (fun _ => rfl)
    constructor
    · refine (hdone hbnone).mpr ?_
      intro p hp
      rcases hterm p hp with h | h <;> simp [h]
    · intro p hp
      rw [hcmds] at hp
      exact hterm p hp

/-- C4 (witness): the pre-verified same-entity combining batch against
the always-failing client blocks, and its command list splits as required. -/
theorem claim_C4_witness :
    (c4vBatch.status = BStatus.initial ∧ c4Client.hasToken = true ∧
      c4Client.isAutoconfirmed = true ∧
      (∀ c ∈ c4vBatch.cmds, c.valueTypeVerified = true) ∧
      (∀ c ∈ c4vBatch.cmds, c.status = CStatus.initial) ∧
      (c4vBatch.cmds.map Cmd.index).Nodup) ∧
    (c4vBatch.blockOnErrors = true →
      ((batchRun c4vBatch c4Client).batchStatus = BStatus.blocked ↔
        ∃ p ∈ (batchRun c4vBatch c4Client).cmds, p.status = CStatus.error) ∧
      ((batchRun c4vBatch c4Client).batchStatus = BStatus.blocked →
        ∃ pre cur rest, (batchRun c4vBatch c4Client).cmds = pre ++ cur :: rest ∧
          cur.status = CStatus.error ∧
          (∀ p ∈ rest, p.status = CStatus.initial) ∧
          (∀ p ∈ pre, p.status = CStatus.done ∨
            (p.status = CStatus.error ∧
              p.cmdError = some CError.combining_failed)))) ∧
    (c4vBatch.blockOnErrors = false →
      (batchRun c4vBatch c4Client).batchStatus = BStatus.done ∧
      ∀ p ∈ (batchRun c4vBatch c4Client).cmds,
        p.status = CStatus.done ∨ p.status = CStatus.error) :=
  ⟨⟨rfl, rfl, rfl, by decide, by decide, by decide⟩,
    claim_C4_amended c4vBatch c4Client rfl rfl rfl (by decide) (by decide) (by decide)⟩

/-! ## Claim C5 -/

/-- C5: with `combine_commands=false` no command is ever folded:
`check_combination` is constantly false, the run records no folds, and
every command that newly reached Done did so through its own logged
remote write. -/
theorem claim_C5 (b : BatchModel) (cl : Client)
    (hcomb : b.combineCommands = false)
    (hnd : ∀ c ∈ b.cmds, ¬ c.status = CStatus.done) :
    (∀ (c : Cmd) (next? : Option Cmd), check_combination false c next? = false) ∧
    (batchRun b cl).folds = [] ∧
    (∀ p ∈ (batchRun b cl).cmds, p.status = CStatus.done →
      p.index ∈ (batchRun b cl).writeLog) := by
  refine ⟨check_combination_false_eq, ?_⟩
  rcases batchRun_shape b cl with ⟨hc, hf, hw⟩ | ⟨hc, hf, hw⟩ | ⟨hc, hf, hw⟩
  · refine ⟨hf, ?_⟩
    intro p hp hpd
    rw [hc] at hp
    exact absurd hpd (hnd p hp)
  · refine ⟨hf, ?_⟩
    intro p hp hpd
    rw [hc] at hp
    exact absurd hpd (preVerify_not_done cl b.blockOnErrors b.cmds hnd p hp)
  · rw [hcomb] at hc hf hw
    have hfil : ∀ x ∈ (preVerify cl b.blockOnErrors b.cmds).1.filter
        (fun c => ¬ c.status = CStatus.done), ¬ x.status = CStatus.done :=
      fun x hx => of_decide_eq_true (List.mem_filter.mp hx).2
    have hl := runLoop_nofold b.blockOnErrors cl
      ((preVerify cl b.blockOnErrors b.cmds).1.filter
        (fun c => ¬ c.status = CStatus.done)) none 0 hfil
    refine ⟨by rw [hf]; exact hl.1, ?_⟩
    intro p hp hpd
    rw [hc] at hp
    rw [hw]
    rcases mergeByIndex_mem _ _ p hp with hup | horig
    · exact hl.2 p hup hpd
    · exact absurd hpd (preVerify_not_done cl b.blockOnErrors b.cmds hnd p horig)

/-- C5 (witness): the no-combining two-statement batch against the
always-succeeding client. -/
theorem claim_C5_witness :
    (c4bBatch.combineCommands = false ∧
      ∀ c ∈ c4bBatch.cmds, ¬ c.status = CStatus.done) ∧
    ((∀ (c : Cmd) (next? : Option Cmd), check_combination false c next? = false) ∧
      (batchRun c4bBatch okClient).folds = [] ∧
      ∀ p ∈ (batchRun c4bBatch okClient).cmds, p.status = CStatus.done →
        p.index ∈ (batchRun c4bBatch okClient).writeLog) :=
  ⟨⟨rfl, by decide⟩, claim_C5 c4bBatch okClient rfl (by decide)⟩

/-! ## Claim C3 -/

/-- C3: when the chain-breaking command of a merge group (one that cannot
combine with its successor) runs from Initial, it reaches a terminal
status; on success it wrote exactly once and every previously folded
command receives Done; on failure every folded command receives Error with
`CombiningFailed` while the breaker keeps its own error detail (never
`CombiningFailed`). -/
theorem claim_C3 (cl : Client) (st : CombSt) (c : Cmd) (n : Nat)
    (hstat : c.status = CStatus.initial) (herr : c.cmdError = none) :
    ((runCommand cl false st c n).cur.status = CStatus.done ∨
      (runCommand cl false st c n).cur.status = CStatus.error) ∧
    ((runCommand cl false st c n).cur.status = CStatus.done →
      (runCommand cl false st c n).wrote = [c.index] ∧
      ∀ p ∈ (runCommand cl false st c n).emitted, p.status = CStatus.done) ∧
    ((runCommand cl false st c n).cur.status = CStatus.error →
      (∀ p ∈ (runCommand cl false st c n).emitted,
        p.status = CStatus.error ∧ p.cmdError = some CError.combining_failed) ∧
      ¬ (runCommand cl false st c n).cur.cmdError = some CError.combining_failed) := by
  have spec := runCommand_initial_spec cl false st c n hstat
  have hf : (runCommand cl false st c n).folded = false := by
    cases hfq : (runCommand cl false st c n).folded
    · rfl
    · have := (spec.2.2.1 hfq).1
      simp at this
  obtain ⟨hterm, _, hemit, hdw, _⟩ := spec.2.2.2.1 hf
  refine ⟨hterm, ?_, ?_⟩
  · intro hd
    refine ⟨hdw hd, ?_⟩
    intro p hp
    rw [hemit, List.mem_reverse] at hp
    obtain ⟨q, _, rfl⟩ := List.mem_map.mp hp
    rw [propagateOne_status]
    exact hd
  · intro he
    constructor
    · intro p hp
      rw [hemit, List.mem_reverse] at hp
      obtain ⟨q, _, rfl⟩ := List.mem_map.mp hp
      exact ⟨by rw [propagateOne_status]; exact he,
        propagateOne_cmdError_of_error _ _ he⟩
    · rcases spec.2.2.2.2 with hc | ⟨t, ht, hnt⟩
      · rw [hc, herr]
        simp
      · rw [ht]
        simp [hnt]

/-- C3 (witness): the breaker of a one-command merge group against the
failing client: the group member ends Error with CombiningFailed, the
breaker keeps API_SERVER_ERROR. -/
theorem claim_C3_witness :
    (breakerCmd.status = CStatus.initial ∧ breakerCmd.cmdError = none) ∧
    ((runCommand c4Client false c3St breakerCmd 0).cur.status = CStatus.done ∨
      (runCommand c4Client false c3St breakerCmd 0).cur.status = CStatus.error) ∧
    ((runCommand c4Client false c3St breakerCmd 0).cur.status = CStatus.done →
      (runCommand c4Client false c3St breakerCmd 0).wrote = [breakerCmd.index] ∧
      ∀ p ∈ (runCommand c4Client false c3St breakerCmd 0).emitted,
        p.status = CStatus.done) ∧
    ((runCommand c4Client false c3St breakerCmd 0).cur.status = CStatus.error →
      (∀ p ∈ (runCommand c4Client false c3St breakerCmd 0).emitted,
        p.status = CStatus.error ∧ p.cmdError = some CError.combining_failed) ∧
      ¬ (runCommand c4Client false c3St breakerCmd 0).cur.cmdError =
        some CError.combining_failed) :=
  ⟨⟨rfl, rfl⟩, claim_C3 c4Client c3St breakerCmd 0 rfl rfl⟩

/-! ## Claim C6 (amended) -/

theorem Statement.references_update_quals (st : Statement) (q : List RefPart) :
    ({ st with qualifiers := q } : Statement).references = st.references := rfl

theorem Statement.qualifiers_update_quals (st : Statement) (q : List RefPart) :
    ({ st with qualifiers := q } : Statement).qualifiers = q := rfl

theorem Statement.references_update_refs (st : Statement) (r : List Reference) :
    ({ st with references := r } : Statement).references = r := rfl

theorem Statement.qualifiers_update_refs (st : Statement) (r : List Reference) :
    ({ st with references := r } : Statement).qualifiers = st.qualifiers := rfl

theorem Assoc.getD_set_self {α : Type} (m : Assoc α) (k : String) (v d : α) :
    (m.set k v).getD k d = v := by
  simp [Assoc.getD, Assoc.get?_set_self]

theorem list_getD_set_self {α : Type} {l : List α} {i : Nat} (h : i < l.length)
    (x d : α) : (l.set i x).getD i d = x := by
  have h2 : i < (l.set i x).length := by simpa using h
  simp [List.getD_eq_getElem?_getD, List.getElem?_eq_getElem h2]

/-- A first-match index is in range and its element satisfies the
predicate. -/
theorem pred_at_findIdx? {α : Type} {l : List α} {p : α → Bool} {i : Nat}
    (h : l.findIdx? p = some i) (d : α) : i < l.length ∧ p (l.getD i d) = true := by
  rw [List.findIdx?_eq_some_iff_getElem] at h
  obtain ⟨hi, hpi, _⟩ := h
  refine ⟨hi, ?_⟩
  simpa [List.getD_eq_getElem?_getD, List.getElem?_eq_getElem, hi] using hpi

/-- C6 (amended): RemoveQualifier/RemoveReference on a located statement
(1) fails with `NoQualifiers` when the command asks for a qualifier and no
qualifier matches, even though the statement exists; (2) fails with
`NoReferenceParts` when the qualifier stage passed, the command asks for a
reference part and none matches; (3) on success removes at most one
matching qualifier (the first) and at most one matching reference part
(the first part of the first group containing one), keeping the number of
reference groups unchanged (an emptied group is kept); (4)/(5) performing
the same removal twice in sequence makes the second attempt fail with
`NoQualifiers` (resp. `NoReferenceParts`) PROVIDED the first removal
removed the only matching qualifier (resp. reference part) — with
duplicates the second attempt succeeds instead (see the counterexample). -/
theorem claim_C6_amended (c : Cmd) (e : Entity) :
    (∀ i, (e.statements.getD c.prop []).findIdx?
        (fun st => st.value = some c.statementApiValue) = some i →
      ((e.statements.getD c.prop []).getD i emptyStatement).qualifiers.findIdx?
        (c.isInQualifiers ·) = none →
      ¬ c.qualifiersForApi = [] →
      removeQualRef c e = .error .noQualifiers) ∧
    (∀ i, (e.statements.getD c.prop []).findIdx?
        (fun st => st.value = some c.statementApiValue) = some i →
      (c.qualifiersForApi = [] ∨
        ¬ ((e.statements.getD c.prop []).getD i emptyStatement).qualifiers.findIdx?
          (c.isInQualifiers ·) = none) →
      findRefPart c
        ((e.statements.getD c.prop []).getD i emptyStatement).references = none →
      ¬ c.referencesForApi = [] →
      removeQualRef c e = .error .noReferenceParts) ∧
    (∀ i e2, (e.statements.getD c.prop []).findIdx?
        (fun st => st.value = some c.statementApiValue) = some i →
      removeQualRef c e = .ok e2 →
      ∃ st2 : Statement,
        e2.statements.getD c.prop [] = (e.statements.getD c.prop []).set i st2 ∧
        (st2.qualifiers =
            ((e.statements.getD c.prop []).getD i emptyStatement).qualifiers ∨
          ∃ j, ((e.statements.getD c.prop []).getD i emptyStatement).qualifiers.findIdx?
              (c.isInQualifiers ·) = some j ∧
            st2.qualifiers =
              ((e.statements.getD c.prop []).getD i emptyStatement).qualifiers.eraseIdx j) ∧
        st2.references.length =
          ((e.statements.getD c.prop []).getD i emptyStatement).references.length ∧
        (st2.references =
            ((e.statements.getD c.prop []).getD i emptyStatement).references ∨
          ∃ gi pj, findRefPart c
              ((e.statements.getD c.prop []).getD i emptyStatement).references =
                some (gi, pj) ∧
            st2.references =
              ((e.statements.getD c.prop []).getD i emptyStatement).references.set gi
                ⟨(((e.statements.getD c.prop []).getD i emptyStatement).references.getD
                    gi ⟨[]⟩).parts.eraseIdx pj⟩)) ∧
    (∀ i j, (e.statements.getD c.prop []).findIdx?
        (fun st => st.value = some c.statementApiValue) = some i →
      ((e.statements.getD c.prop []).getD i emptyStatement).qualifiers.findIdx?
        (c.isInQualifiers ·) = some j →
      (((e.statements.getD c.prop []).getD i emptyStatement).qualifiers.eraseIdx j).findIdx?
        (c.isInQualifiers ·) = none →
      ¬ c.qualifiersForApi = [] →
      c.referencesForApi = [] →
      ∃ e2, removeQualRef c e = .ok e2 ∧
        removeQualRef c e2 = .error .noQualifiers) ∧
    (∀ i gi pj, (e.statements.getD c.prop []).findIdx?
        (fun st => st.value = some c.statementApiValue) = some i →
      c.qualifiersForApi = [] →
      findRefPart c
        ((e.statements.getD c.prop []).getD i emptyStatement).references =
          some (gi, pj) →
      findRefPart c
        (((e.statements.getD c.prop []).getD i emptyStatement).references.set gi
          ⟨(((e.statements.getD c.prop []).getD i emptyStatement).references.getD
              gi ⟨[]⟩).parts.eraseIdx pj⟩) = none →
      ¬ c.referencesForApi = [] →
      ∃ e2, removeQualRef c e = .ok e2 ∧
        removeQualRef c e2 = .error .noReferenceParts) := by
  refine ⟨?_, ?_, ?_, ?_, ?_⟩
  · intro i h1 h2 h3
    simp only [removeQualRef, get_statement, h1, Assoc.getD_setdefault_same, h2]
    simp [h3]
  · intro i h1 hq hr h4
    cases hqi : ((e.statements.getD c.prop []).getD i emptyStatement).qualifiers.findIdx?
        (c.isInQualifiers ·) with
    | none =>
      rcases hq with hq | hq
      · simp only [removeQualRef, get_statement, h1, Assoc.getD_setdefault_same, hqi, hr]
        simp [hq, h4]
      · exact absurd hqi hq
    | some j =>
      simp only [removeQualRef, get_statement, h1, Assoc.getD_setdefault_same, hqi,
        Statement.references_update_quals, hr]
      simp [h4]
  · intro i e2 h1 hok
    cases hqi : ((e.statements.getD c.prop []).getD i emptyStatement).qualifiers.findIdx?
        (c.isInQualifiers ·) with
    | none =>
      cases hri : findRefPart c
          ((e.statements.getD c.prop []).getD i emptyStatement).references with
      | none =>
        simp only [removeQualRef, get_statement, h1, Assoc.getD_setdefault_same,
          hqi, hri] at hok
        split_ifs at hok <;>
          first
          | (simp only [Except.ok.injEq] at hok
             subst hok
             exact ⟨_, Assoc.getD_set_self _ _ _ _, Or.inl rfl, rfl, Or.inl rfl⟩)
          | exact absurd hok (by simp)
      | some gp =>
        simp only [removeQualRef, get_statement, h1, Assoc.getD_setdefault_same,
          hqi, hri] at hok
        split_ifs at hok <;>
          first
          | (simp only [Except.ok.injEq] at hok
             subst hok
             exact ⟨_, Assoc.getD_set_self _ _ _ _, Or.inl rfl, by simp,
               Or.inr ⟨gp.1, gp.2, rfl, rfl⟩⟩)
          | exact absurd hok (by simp)
    | some j =>
      cases hri : findRefPart c
          ((e.statements.getD c.prop []).getD i emptyStatement).references with
      | none =>
        simp only [removeQualRef, get_statement, h1, Assoc.getD_setdefault_same,
          hqi, Statement.references_update_quals, hri] at hok
        split_ifs at hok <;>
          first
          | (simp only [Except.ok.injEq] at hok
             subst hok
             exact ⟨_, Assoc.getD_set_self _ _ _ _, Or.inr ⟨j, rfl, rfl⟩, rfl,
               Or.inl rfl⟩)
          | exact absurd hok (by simp)
      | some gp =>
        simp only [removeQualRef, get_statement, h1, Assoc.getD_setdefault_same,
          hqi, Statement.references_update_quals, hri] at hok
        split_ifs at hok <;>
          first
          | (simp only [Except.ok.injEq] at hok
             subst hok
             exact ⟨_, Assoc.getD_set_self _ _ _ _, Or.inr ⟨j, rfl, rfl⟩, by simp,
               Or.inr ⟨gp.1, gp.2, rfl, rfl⟩⟩)
          | exact absurd hok (by simp)
  · intro i j h1 hj hju h3 h5
    have hlen := (pred_at_findIdx? h1 emptyStatement).1
    have hpred := (pred_at_findIdx? h1 emptyStatement).2
    have hrn : ∀ l : List Reference, findRefPart c l = none :=
      findRefPart_none_of_no_refs c h5
    set stmts := e.statements.getD c.prop [] with hstmts
    set st := stmts.getD i emptyStatement with hst
    set st2 : Statement := { st with qualifiers := st.qualifiers.eraseIdx j } with hst2
    refine ⟨{ e with statements :=
      (e.statements.setdefault c.prop []).set c.prop (stmts.set i st2) }, ?_, ?_⟩
    · simp only [removeQualRef, get_statement, h1, Assoc.getD_setdefault_same, hj,
        Statement.references_update_quals, hrn]
      simp [h5, hst2, hstmts, hst, List.getD_eq_getElem?_getD]
    · have hgd : ((e.statements.setdefault c.prop []).set c.prop
          (stmts.set i st2)).getD c.prop [] = stmts.set i st2 :=
        Assoc.getD_set_self _ _ _ _
      have hfind2 : ((stmts.set i st2).findIdx?
          (fun st => st.value = some c.statementApiValue)) = some i :=
        findIdx?_set_first h1 hpred
      have hgdi : (stmts.set i st2).getD i emptyStatement = st2 :=
        list_getD_set_self hlen st2 emptyStatement
      simp only [removeQualRef, get_statement, Assoc.getD_setdefault_same, hgd,
        hfind2, hgdi, hst2, Statement.qualifiers_update_quals, hju]
      simp [h3]
  · intro i gi pj h1 hq hr hru h4
    have hlen := (pred_at_findIdx? h1 emptyStatement).1
    have hpred := (pred_at_findIdx? h1 emptyStatement).2
    have hqn : ∀ l : List RefPart, l.findIdx? (c.isInQualifiers ·) = none :=
      qualIdx_none_of_no_quals c hq
    set stmts := e.statements.getD c.prop [] with hstmts
    set st := stmts.getD i emptyStatement with hst
    set g2 : Reference := ⟨(st.references.getD gi ⟨[]⟩).parts.eraseIdx pj⟩ with hg2
    set st2 : Statement := { st with references := st.references.set gi g2 } with hst2
    refine ⟨{ e with statements :=
      (e.statements.setdefault c.prop []).set c.prop (stmts.set i st2) }, ?_, ?_⟩
    · simp only [removeQualRef, get_statement, h1, Assoc.getD_setdefault_same, hqn, hr]
      simp [hq, h4, hst2, hg2, hstmts, hst, List.getD_eq_getElem?_getD]
    · have hgd : ((e.statements.setdefault c.prop []).set c.prop
          (stmts.set i st2)).getD c.prop [] = stmts.set i st2 :=
        Assoc.getD_set_self _ _ _ _
      have hfind2 : ((stmts.set i st2).findIdx?
          (fun st => st.value = some c.statementApiValue)) = some i :=
        findIdx?_set_first h1 hpred
      have hgdi : (stmts.set i st2).getD i emptyStatement = st2 :=
        list_getD_set_self hlen st2 emptyStatement
      simp only [removeQualRef, get_statement, Assoc.getD_setdefault_same, hgd,
        hfind2, hgdi, hst2, hqn, Statement.references_update_refs, hru]
      simp [hq, h4]

/-- C6 (witness): the amended theorem's twice-fails part applied to the
entity carrying exactly one matching qualifier. -/
theorem claim_C6_witness :
    ((entOneQualLeft.statements.getD remQualCmd.prop []).findIdx?
        (fun st => st.value = some remQualCmd.statementApiValue) = some 0 ∧
      ¬ remQualCmd.qualifiersForApi = [] ∧
      remQualCmd.referencesForApi = []) ∧
    ∃ e2, removeQualRef remQualCmd entOneQualLeft = .ok e2 ∧
      removeQualRef remQualCmd e2 = .error .noQualifiers :=
  ⟨⟨by decide, by decide, rfl⟩,
    (claim_C6_amended remQualCmd entOneQualLeft).2.2.2.1 0 0
      (by decide) (by decide) (by decide) (by decide) rfl⟩

/-! ## Claim C7 -/

/-- C7 (counterexample): a document whose statements dict CONTAINS the
property key, mapped to an empty list, fails with
`NoStatementsForThatProperty` — not `NoStatementsWithThatValue` as the
claim's "present but no value match" case demands. -/
theorem claim_C7_counterexample :
    entEmptyProp.statements.get? remStmtCmd.prop = some [] ∧
    removeEntityStatement remStmtCmd entEmptyProp = .error .noStatementsProperty ∧
    ¬ removeEntityStatement remStmtCmd entEmptyProp = .error .noStatementsValue := by
  decide

/-- C7 (amended): RemoveStatementByValue fails with
`NoStatementsForProperty` when the property is absent OR has an empty
statement list; with `NoStatementsWithValue` when it has at least one
statement but none with a matching value; and otherwise removes exactly
the first statement whose value matches. -/
theorem claim_C7_amended (c : Cmd) (e : Entity) :
    (e.statements.getD c.prop [] = [] →
      removeEntityStatement c e = .error .noStatementsProperty) ∧
    (¬ e.statements.getD c.prop [] = [] →
      (∀ st ∈ e.statements.getD c.prop [], ¬ st.value = some c.statementApiValue) →
      removeEntityStatement c e = .error .noStatementsValue) ∧
    (∀ pre st post,
      e.statements.getD c.prop [] = pre ++ st :: post →
      st.value = some c.statementApiValue →
      (∀ st2 ∈ pre, ¬ st2.value = some c.statementApiValue) →
      removeEntityStatement c e = .ok
        { e with statements := e.statements.set c.prop (pre ++ post) }) := by
  refine ⟨?_, ?_, ?_⟩
  · intro h
    simp [removeEntityStatement, h]
  · intro hne hall
    have hidx : (e.statements.getD c.prop []).findIdx?
        (fun st => st.value = some c.statementApiValue) = none := by
      rw [List.findIdx?_eq_none_iff]
      intro st hst
      simpa using hall st hst
    simp [removeEntityStatement, List.length_eq_zero, hne, hidx]
  · intro pre st post hdec hst hpre
    have hidx : (e.statements.getD c.prop []).findIdx?
        (fun st => st.value = some c.statementApiValue) = some pre.length := by
      rw [hdec, List.findIdx?_append]
      have h1 : pre.findIdx? (fun st => st.value = some c.statementApiValue) = none := by
        rw [List.findIdx?_eq_none_iff]
        intro x hx
        simpa using hpre x hx
      simp [h1, List.findIdx?_cons, hst]
    have hlen : ¬ (e.statements.getD c.prop []).length = 0 := by
      rw [hdec]
      simp
    have herase : (e.statements.getD c.prop []).eraseIdx pre.length = pre ++ post := by
      rw [hdec, List.eraseIdx_append_of_length_le (Nat.le_refl pre.length)]
      simp
    simp [removeEntityStatement, hlen, hidx, herase]

/-- C7 (witness): the amended theorem applied to a concrete command and
document for each of its three hypotheses-bearing parts. -/
theorem claim_C7_witness :
    (entEmptyProp.statements.getD remStmtCmd.prop [] = [] ∧
      removeEntityStatement remStmtCmd entEmptyProp = .error .noStatementsProperty) ∧
    (removeEntityStatement remStmtCmd entOneStmt = .ok
      { entOneStmt with statements := entOneStmt.statements.set remStmtCmd.prop ([] ++ []) }) :=
  ⟨⟨by decide, (claim_C7_amended remStmtCmd entEmptyProp).1 (by decide)⟩,
    (claim_C7_amended remStmtCmd entOneStmt).2.2 []
      { property := some "P1", value := some (.value "x")
        qualifiers := [], references := [], rank := none } []
      (by decide) (by decide) (by decide)⟩

/-! ## Claim C10 -/

/-- C10: applying a RemoveAlias command for a language with no aliases
entry succeeds (no error), and afterwards the aliases map still has no
entry for that language. -/
theorem claim_C10 (c : Cmd) (e : Entity)
    (hop : c.operation = some Op.remove_alias)
    (habs : e.aliases.get? c.language = none) :
    ∃ e2, update_entity_json c e = .ok e2 ∧ e2.aliases.get? c.language = none := by
  refine ⟨updateEntityAliases c e, ?_, ?_⟩
  · simp [update_entity_json, hop]
  · have h1 : (e.aliases.setdefault c.language []).get? c.language = some [] :=
      Assoc.get?_setdefault_absent e.aliases c.language [] habs
    have h2 := Assoc.get?_pop_setdefault e.aliases c.language ([] : List String) habs
    simp [updateEntityAliases, hop, Assoc.getD, h1, h2]

/-- C10 (witness): the concrete RemoveAlias command for `en` on an entity
without `en` aliases. -/
theorem claim_C10_witness :
    (remAliasCmd.operation = some Op.remove_alias ∧
      entNoEnAlias.aliases.get? remAliasCmd.language = none) ∧
    ∃ e2, update_entity_json remAliasCmd entNoEnAlias = .ok e2 ∧
      e2.aliases.get? remAliasCmd.language = none :=
  ⟨⟨rfl, by decide⟩, claim_C10 remAliasCmd entNoEnAlias rfl (by decide)⟩

end QS
